import Mathlib

/-!
# vpv: texture streaming (`Sequence.cpp`, `Texture.cpp`)

A shallow embedding of the upload planner `Sequence::loadTextureIfNeeded` and the normalizer
`Sequence::autoScaleAndBias`, `Sequence::smartAutoScaleAndBias` (`src/Sequence.cpp`) and of the
tile pool and tiled texture of `src/src/Texture.cpp`, with the properties proved about them.

Conventions of the embedding.

* C++ `float` values are rationals (`ℚ`); `FLT_MAX` is the rational `(2^24 - 1) * 2^104`.  The
  float operations on the viewport coordinates, the products `u.x*w` and the sums `v.x*w+1` from
  which the planner builds its rectangle, are rounded to the nearest binary32 value, ties to
  even, each operation on its own (`roundFloat`).  The later operations of the planner act on
  whole pixel coordinates and on image dimensions, which a float holds exactly up to `2^24`;
  they are exact in the model, and so are the conversions of the image dimensions and of the
  loop counters in the normalizer, and its statistics.
* C++ `int` values are integers (`Int`).  The index arithmetic on pixel positions
  (`w * y + x` in `loadTextureIfNeeded`, `smartAutoScaleAndBias` and `Texture::upload`) is
  32-bit: the model reduces every such operation to the range of `int` (`wrapInt`), which is
  what the hardware does where C++ leaves signed overflow undefined.  The loop counters of
  `Texture::create` stay below the image dimensions and are not reduced.
* The conversion `(int)x` truncates toward zero; outside the range of `int`, where C++ leaves
  it undefined, it has the value `INT_MIN` that the conversion instruction of x86-64 gives.
* Pointers that may be null are `Option`s.  A failed `assert` is the result `none`.
* Calls into the OpenGL driver are recorded in a list, in program order.
* Loops that the source does not bound by construction carry a fuel argument; running out of
  fuel is the result `none`.
-/

/-! ## Machine arithmetic: `int`, `size_t` and `float` -/

/-- The conversion `(int)x` of a float: truncation toward zero, the floor of a non-negative value
and the ceiling of a negative one.  Outside the range of `int` the conversion is undefined in
C++; the model has the value that the conversion instruction of x86-64 (`cvttss2si`) gives
there, `INT_MIN`. -/
def truncToInt (x : ℚ) : Int :=
  let t : Int := if 0 ≤ x then ⌊x⌋ else ⌈x⌉
  if -2147483648 ≤ t ∧ t ≤ 2147483647 then t else -2147483648

/-- The result of an `int` operation whose mathematical value is `n`: the value of the same
residue modulo `2^32` in the range `[-2^31, 2^31)` of `int`. -/
def wrapInt (n : Int) : Int := (n + 2147483648) % 4294967296 - 2147483648

/-- The result of a `size_t` operation whose mathematical value is `n`, taken as the displacement
of a pointer: the value of the same residue modulo `2^64` in `[-2^63, 2^63)` (addresses are
64-bit, so the offsets `n` and `n - 2^64` lead to the same address). -/
def wrapSize (n : Int) : Int :=
  (n + 9223372036854775808) % 18446744073709551616 - 9223372036854775808

/-- The power `2^e` of two, for an integer exponent. -/
def pow2 (e : Int) : ℚ :=
  if 0 ≤ e then ((2 ^ e.toNat : Nat) : ℚ) else 1 / ((2 ^ (-e).toNat : Nat) : ℚ)

/-- The number of halvings that bring `n` below 2, at most `fuel` of them. -/
def log2Fuel : Nat → Nat → Nat
  | 0, _ => 0
  | fuel + 1, n => if 2 ≤ n then log2Fuel fuel (n / 2) + 1 else 0

/-- The exponent of the binade of a non-zero `x`: the integer `e` with `2^e ≤ |x| < 2^(e+1)`. -/
def binade (x : ℚ) : Int :=
  let e : Int := (log2Fuel x.num.natAbs x.num.natAbs : Int) - (log2Fuel x.den x.den : Int)
  if |x| < pow2 e then e - 1 else e

/-- The integer nearest to `m`, the even one of the two when `m` lies half-way. -/
def roundHalfEven (m : ℚ) : Int :=
  let f := ⌊m⌋
  if m - f < 1 / 2 then f
  else if 1 / 2 < m - f then f + 1
  else if f % 2 = 0 then f else f + 1

/-- The binary32 value nearest to `x`, ties to even: 24 significant bits at the exponent of `x`,
which is not taken below `-126` (gradual underflow).  The exponent is not bounded above: a result
beyond `FLT_MAX` stands for the infinity of that sign. -/
def roundFloat (x : ℚ) : ℚ :=
  if x = 0 then 0
  else
    let q := pow2 (max (binade x) (-126) - 23)
    roundHalfEven (x / q) * q

/-- The conversion `(float)n` of an `int`. -/
def floatOfInt (n : Int) : ℚ := roundFloat n

/-- The product `a * b` of two floats. -/
def floatMul (a b : ℚ) : ℚ := roundFloat (a * b)

/-- The sum `a + b` of two floats. -/
def floatAdd (a b : ℚ) : ℚ := roundFloat (a + b)

/-! ## `ImVec2` and `ImRect`

The rectangle type of imgui that `Sequence.cpp` uses.  Its header `imgui_internal.h` is not among
the sources; the operations below are the ones the planner calls, with the bodies they have in
the imgui that `Sequence.cpp` is written against (`Clip` and `Floor` as member functions,
`ImRect()` the inverted rectangle). -/

/-- Modelled from the spec: the struct `ImVec2` (`imgui.h` is not among the sources), a point of
image-pixel space, two floats. -/
structure ImVec2 where
  x : ℚ
  y : ℚ
deriving DecidableEq

/-- Modelled from the spec: the struct `ImRect` (`imgui_internal.h` is not among the sources), a
rectangle of image-pixel space with upper-left corner `Min` and lower-right corner `Max`. -/
structure ImRect where
  Min : ImVec2
  Max : ImVec2
deriving DecidableEq

/-- The largest finite `float`, `(2^24 - 1) * 2^104`. -/
def FLT_MAX : ℚ := 340282346638528859811704183484516925440

namespace ImRect

/-- Modelled from the spec: the empty resident region, the default constructor `ImRect()` of
imgui: `Min(FLT_MAX, FLT_MAX), Max(-FLT_MAX, -FLT_MAX)`. -/
def new : ImRect := ⟨⟨FLT_MAX, FLT_MAX⟩, ⟨-FLT_MAX, -FLT_MAX⟩⟩

/-- Modelled from the spec: the constructor `ImRect(x1, y1, x2, y2)` of imgui. -/
def mk4 (x1 y1 x2 y2 : ℚ) : ImRect := ⟨⟨x1, y1⟩, ⟨x2, y2⟩⟩

/-- Modelled from the spec: the width, imgui's `GetWidth() { return Max.x - Min.x; }`. -/
def GetWidth (r : ImRect) : ℚ := r.Max.x - r.Min.x

/-- Modelled from the spec: the height, imgui's `GetHeight() { return Max.y - Min.y; }`. -/
def GetHeight (r : ImRect) : ℚ := r.Max.y - r.Min.y

/-- Modelled from the spec: the point `p` lies in the rectangle, imgui's
`Contains(const ImVec2& p)`: `p.x >= Min.x && p.y >= Min.y && p.x < Max.x && p.y < Max.y`. -/
def Contains (r : ImRect) (p : ImVec2) : Prop :=
  p.x ≥ r.Min.x ∧ p.y ≥ r.Min.y ∧ p.x < r.Max.x ∧ p.y < r.Max.y

instance (r : ImRect) (p : ImVec2) : Decidable (r.Contains p) := by
  unfold Contains; infer_instance

/-- Modelled from the spec: the rectangle `r` is fully contained in `self`, borders included,
`ContainsInclusive(const ImRect& r)`:
`r.Min.x >= Min.x && r.Min.y >= Min.y && r.Max.x <= Max.x && r.Max.y <= Max.y`. -/
def ContainsInclusive (self r : ImRect) : Prop :=
  r.Min.x ≥ self.Min.x ∧ r.Min.y ≥ self.Min.y ∧ r.Max.x ≤ self.Max.x ∧ r.Max.y ≤ self.Max.y

instance (self r : ImRect) : Decidable (self.ContainsInclusive r) := by
  unfold ContainsInclusive; infer_instance

/-- Modelled from the spec: the bounding box of both rectangles ("expand by rectangle"), imgui's
`Add(const ImRect& rhs)`: `if (Min.x > rhs.Min.x) Min.x = rhs.Min.x; ...
if (Max.x < rhs.Max.x) Max.x = rhs.Max.x; ...`. -/
def Add (self rhs : ImRect) : ImRect :=
  { Min := ⟨if self.Min.x > rhs.Min.x then rhs.Min.x else self.Min.x,
            if self.Min.y > rhs.Min.y then rhs.Min.y else self.Min.y⟩
    Max := ⟨if self.Max.x < rhs.Max.x then rhs.Max.x else self.Max.x,
            if self.Max.y < rhs.Max.y then rhs.Max.y else self.Max.y⟩ }

/-- Modelled from the spec: the expansion by a margin in each direction, imgui's
`Expand(const float amount)`: `Min.x -= amount; Min.y -= amount; Max.x += amount;
Max.y += amount;`. -/
def Expand (self : ImRect) (amount : ℚ) : ImRect :=
  { Min := ⟨self.Min.x - amount, self.Min.y - amount⟩
    Max := ⟨self.Max.x + amount, self.Max.y + amount⟩ }

/-- Modelled from the spec: the clipping to bounds, imgui's `Clip(const ImRect& clip)`:
`if (Min.x < clip.Min.x) Min.x = clip.Min.x; ... if (Max.x > clip.Max.x) Max.x = clip.Max.x; ...`
(`Min` is raised to the bounds and `Max` lowered to them, nothing else). -/
def Clip (self clip : ImRect) : ImRect :=
  { Min := ⟨if self.Min.x < clip.Min.x then clip.Min.x else self.Min.x,
            if self.Min.y < clip.Min.y then clip.Min.y else self.Min.y⟩
    Max := ⟨if self.Max.x > clip.Max.x then clip.Max.x else self.Max.x,
            if self.Max.y > clip.Max.y then clip.Max.y else self.Max.y⟩ }

/-- Modelled from the spec: the floor of the rectangle, imgui's `Floor()`:
`Min.x = (float)(int)Min.x; ...` for the four coordinates. -/
def Floor (self : ImRect) : ImRect :=
  { Min := ⟨(truncToInt self.Min.x : ℚ), (truncToInt self.Min.y : ℚ)⟩
    Max := ⟨(truncToInt self.Max.x : ℚ), (truncToInt self.Max.y : ℚ)⟩ }

/-- The four coordinates are finite floats: between `-FLT_MAX` and `FLT_MAX`. -/
def IsFinite (r : ImRect) : Prop :=
  (-FLT_MAX ≤ r.Min.x ∧ r.Min.x ≤ FLT_MAX) ∧ (-FLT_MAX ≤ r.Min.y ∧ r.Min.y ≤ FLT_MAX) ∧
  (-FLT_MAX ≤ r.Max.x ∧ r.Max.x ≤ FLT_MAX) ∧ (-FLT_MAX ≤ r.Max.y ∧ r.Max.y ≤ FLT_MAX)

instance (r : ImRect) : Decidable r.IsFinite := by
  unfold IsFinite; infer_instance

/-- The rectangle has no pixel: its width or its height is not positive. -/
def IsEmpty (r : ImRect) : Prop := r.Max.x ≤ r.Min.x ∨ r.Max.y ≤ r.Min.y

instance (r : ImRect) : Decidable r.IsEmpty := by
  unfold IsEmpty; infer_instance

end ImRect

/-! ## `Sequence.cpp`: the upload planner -/

/-- Modelled from the spec: the struct `Image` (`Image.hpp` is not among the sources), with the
fields that the sources read: dimensions, element type tag, channel format tag, min/max
statistics and the flat row-major pixel array. -/
structure Image where
  w : Int
  h : Int
  type : Nat
  format : Nat
  min : ℚ
  max : ℚ
  pixels : List ℚ
deriving DecidableEq

/-- Modelled from the spec: the enumerator `Image::UINT8` of the element type (`Image.hpp` is
missing); the spec names the two element types, 8-bit unsigned integer and floating point. -/
def Image.UINT8 : Nat := 0

/-- Modelled from the spec: the enumerator `Image::FLOAT` of the element type (`Image.hpp` is
missing). -/
def Image.FLOAT : Nat := 1

/-- Modelled from the spec: the enumerator `Image::R` (`Image.hpp` is missing); the spec gives
the formats as the channel counts 1/2/3/4, and the sources multiply by `img->format`. -/
def Image.R : Nat := 1

/-- Modelled from the spec: the enumerator `Image::RG`, two channels. -/
def Image.RG : Nat := 2

/-- Modelled from the spec: the enumerator `Image::RGB`, three channels. -/
def Image.RGB : Nat := 3

/-- Modelled from the spec: the enumerator `Image::RGBA`, four channels. -/
def Image.RGBA : Nat := 4

/-- OpenGL constant `GL_UNSIGNED_BYTE` (0x1401). -/
def GL_UNSIGNED_BYTE : Nat := 5121
/-- OpenGL constant `GL_FLOAT` (0x1406). -/
def GL_FLOAT : Nat := 5126
/-- OpenGL constant `GL_RED` (0x1903). -/
def GL_RED : Nat := 6403
/-- OpenGL constant `GL_RG` (0x8227). -/
def GL_RG : Nat := 33319
/-- OpenGL constant `GL_RGB` (0x1907). -/
def GL_RGB : Nat := 6407
/-- OpenGL constant `GL_RGBA` (0x1908). -/
def GL_RGBA : Nat := 6408

/-- Modelled from the spec: the single-texture `Texture` that `Sequence.cpp` is written against
(its `Texture.hpp` is not among the sources), with the fields the planner reads: `texture.id`,
`texture.size`, `texture.type`, `texture.format`; `id` is unsigned, so the `-1` of the source is
`2^32 - 1`. -/
structure SingleTexture where
  id : Nat
  size : ImVec2
  type : Nat
  format : Nat
deriving DecidableEq

/-- Modelled from the spec: the frame index source `Player` (`Player.hpp` is not among the
sources), with the field the planner reads. -/
structure Player where
  frame : Int
deriving DecidableEq

/-- The fields of `struct Sequence` (`Sequence.hpp`) that the planner reads or writes. -/
structure Sequence where
  valid : Bool
  force_reupload : Bool
  loadedFrame : Int
  loadedRect : ImRect
  texture : SingleTexture
  player : Option Player
  image : Option Image
deriving DecidableEq

/-- What the planner calls outside `Sequence.cpp`: the global `useCache`, the image provider
`Image::load(filenames[frame - 1])` as a function of the frame index, the viewport source
`view->compute(ImVec2(w, h), u, v)` returning `(u, v)`, and `texture.create(w, h, gltype,
glformat)` of the single texture. -/
structure Env where
  useCache : Bool
  load : Int → Option Image
  compute : ImVec2 → ImVec2 × ImVec2
  create : SingleTexture → Int → Int → Nat → Nat → SingleTexture

/-- The driver-visible calls of `loadTextureIfNeeded`: the (re)creation of the texture and the
sub-rectangle transfer `glTexSubImage2D` with the texture bound, its float arguments as written,
the `GL_UNPACK_ROW_LENGTH` in force and the byte offset of `data` from `img->pixels`. -/
inductive Call where
  | create (w h : Int) (gltype glformat : Nat)
  | texSubImage2D (texture : Nat) (xoffset yoffset width height : ℚ) (format type : Nat)
      (rowLength : Int) (data : Int)
deriving DecidableEq

/-- The constructor `Sequence::Sequence()`: the fields it sets, for a given default texture. -/
def Sequence.new (texture : SingleTexture) : Sequence :=
  { valid := false, force_reupload := false, loadedFrame := -1, loadedRect := ImRect.new,
    texture := texture, player := none, image := none }

/-- The assignment `image = img`. -/
def Sequence.setImage (s : Sequence) (img : Option Image) : Sequence :=
  { s with image := img }

/-- The function `Sequence::getCurrentImage()`: the image pointer returned and the sequence
afterwards. -/
def getCurrentImage (env : Env) (s : Sequence) : Option Image × Sequence :=
  match s.valid, s.player with
  | true, some player =>
    match s.image with
    | none =>
      let frame := player.frame
      let img := env.load frame
      (img, s.setImage img)
    | some img => (some img, s)
  | _, _ => (none, s)

/-- Lines 113-116 of `loadTextureIfNeeded`: the rectangle `area` as constructed from the
viewport, `ImRect area(u.x*w, u.y*h, v.x*w+1, v.y*h+1)`.  The operands `w`, `h` and `1` are
converted to float and every product and sum is a float operation, rounded on its own. -/
def viewRect (env : Env) (w h : Int) : ImRect :=
  let (u, v) := env.compute ⟨floatOfInt w, floatOfInt h⟩
  ImRect.mk4 (floatMul u.x (floatOfInt w)) (floatMul u.y (floatOfInt h))
    (floatAdd (floatMul v.x (floatOfInt w)) 1) (floatAdd (floatMul v.y (floatOfInt h)) 1)

/-- Lines 113-121 of `loadTextureIfNeeded`: the rectangle `area` for an image of size `w`, `h`. -/
def uploadArea (env : Env) (w h : Int) : ImRect :=
  let area := viewRect env w h
  let area := area.Floor
  let area := area.Clip (ImRect.mk4 0 0 w h)
  let area := area.Expand 32
  area.Clip (ImRect.mk4 0 0 w h)

/-- Lines 128-134: the transfer type of an element type; `none` is the failed `assert(0)`. -/
def glTypeOf (type : Nat) : Option Nat :=
  if type = Image.UINT8 then some GL_UNSIGNED_BYTE
  else if type = Image.FLOAT then some GL_FLOAT
  else none

/-- Lines 136-146 (and `Texture::upload`, lines 132-142): the transfer format of a channel
format; `none` is the failed `assert(0)`. -/
def glFormatOf (format : Nat) : Option Nat :=
  if format = Image.R then some GL_RED
  else if format = Image.RG then some GL_RG
  else if format = Image.RGB then some GL_RGB
  else if format = Image.RGBA then some GL_RGBA
  else none

/-- Lines 153-156: the element size; `none` is the failed `assert(0)`. -/
def elsizeOf (type : Nat) : Option Int :=
  if type = Image.UINT8 then some 1
  else if type = Image.FLOAT then some 4
  else none

/-- Lines 127-175 of `loadTextureIfNeeded`, the branch `if (reupload)`.  In line 157 the pixel
index `w * (int)area.Min.y + (int)area.Min.x` is an `int` expression, and its products with the
`size_t` `elsize` and with `img->format` are `size_t` operations. -/
def reuploadBranch (env : Env) (s : Sequence) (frame : Int) (img : Image) (area : ImRect) :
    Option (Sequence × List Call) :=
  let w := img.w
  let h := img.h
  match glTypeOf img.type with
  | none => none
  | some gltype =>
  match glFormatOf img.format with
  | none => none
  | some glformat =>
  let recreate : Bool :=
    s.texture.id = 4294967295 || s.texture.size.x ≠ w || s.texture.size.y ≠ h
      || s.texture.type ≠ gltype || s.texture.format ≠ glformat
  let texture := if recreate then env.create s.texture w h gltype glformat else s.texture
  let calls₁ := if recreate then [Call.create w h gltype glformat] else []
  match elsizeOf img.type with
  | none => none
  | some elsize =>
  let index : Int := wrapInt (wrapInt (w * truncToInt area.Min.y) + truncToInt area.Min.x)
  let data : Int := wrapSize (wrapSize (elsize * index) * img.format)
  let calls₂ :=
    if area.GetWidth > 0 ∧ area.GetHeight > 0 then
      [Call.texSubImage2D texture.id area.Min.x area.Min.y area.GetWidth area.GetHeight
        glformat gltype w data]
    else []
  some ({ s with texture := texture, loadedFrame := frame,
                 loadedRect := s.loadedRect.Add area, force_reupload := false },
        calls₁ ++ calls₂)

/-- Lines 93-99 of `loadTextureIfNeeded`: when the frame index is not the loaded one, or a
reupload is forced, `loadedRect = ImRect()` and the image pointer is dropped.  (The `delete` of an
image the sequence owns, when `useCache` is off, frees memory and changes no field.) -/
def resetStale (s : Sequence) (frame : Int) : Sequence :=
  if s.loadedFrame ≠ frame ∨ s.force_reupload = true then
    { s with loadedRect := ImRect.new }.setImage none
  else s

/-- The planner `Sequence::loadTextureIfNeeded()`: the sequence afterwards and the calls issued, `none` when
an assertion fails. -/
def loadTextureIfNeeded (env : Env) (s : Sequence) : Option (Sequence × List Call) :=
  match s.valid, s.player with
  | true, some player =>
    let frame := player.frame
    if ¬ frame > 0 then none
    else
      let s₁ := resetStale s player.frame
      match getCurrentImage env s₁ with
      | (none, s₂) => some (s₂, [])
      | (some img, s₂) =>
        let w := img.w
        let h := img.h
        let reupload : Bool := false || s₂.force_reupload
        let area := uploadArea env w h
        let reupload : Bool := if ¬ s₂.loadedRect.ContainsInclusive area then true else reupload
        if reupload then reuploadBranch env s₂ frame img area
        else some (s₂, [])
  | _, _ => some (s, [])

/-- The transfers among the calls issued. -/
def transfers (calls : List Call) : List Call :=
  calls.filter fun c => match c with
    | Call.texSubImage2D .. => true
    | _ => false

/-! ### Scenario A -/

/-- A 100x100 single-channel byte image. -/
def imgA : Image := { w := 100, h := 100, type := Image.UINT8, format := Image.R,
                      min := 0, max := 255, pixels := [] }

/-- A texture not yet created (`id == -1`). -/
def noTexture : SingleTexture := { id := 4294967295, size := ⟨0, 0⟩, type := 0, format := 0 }

/-- An environment whose viewport source reports the visible region from `(x1, y1)` to
`(x2, y2)` in image pixels of a 100x100 image, and whose every frame is `imgA`. -/
def envA (x1 y1 x2 y2 : ℚ) : Env :=
  { useCache := true
    load := fun _ => some imgA
    compute := fun _ => (⟨x1 / 100, y1 / 100⟩, ⟨x2 / 100, y2 / 100⟩)
    create := fun _ w h t f => { id := 1, size := ⟨w, h⟩, type := t, format := f } }

/-- A valid sequence on frame 1 with nothing resident. -/
def seqA : Sequence :=
  { Sequence.new noTexture with valid := true, player := some ⟨1⟩ }

/-! ## `Texture.cpp`: the tile pool and the tiled texture -/

/-- Modelled from the spec: the struct `Tile` (`Texture.hpp` is not among the sources), with the
fields `Texture.cpp` uses: the texture handle `id`, the offset `x`, `y` in the owning texture,
the dimensions and the format. -/
structure Tile where
  id : Nat
  x : Int
  y : Int
  w : Int
  h : Int
  format : Nat
deriving DecidableEq

/-- The driver calls of `Texture.cpp` that the model records: `glGenTextures` with the handle it
returned, the storage (re)initialisation `glTexImage2D` of `initTile`, the transfer
`glTexSubImage2D` of `Texture::upload` (offset 0, 0 in the tile bound; `rowLength` is the
`GL_UNPACK_ROW_LENGTH` in force and `data` the offset of the source pointer from `img->pixels`,
in elements) and `glGenerateMipmap`. -/
inductive GLCall where
  | genTextures (id : Nat)
  | texImage2D (id : Nat) (w h : Int) (format : Nat)
  | texSubImage2D (id : Nat) (w h : Int) (format type : Nat) (rowLength : Int) (data : Int)
  | generateMipmap (id : Nat)
deriving DecidableEq

/-- What `Texture.cpp` takes from outside: the value of `GL_MAX_TEXTURE_SIZE`, the handle that
`glGenTextures` returns given the handles generated so far, and the global
`gDownsamplingQuality`. -/
structure Driver where
  maxTextureSize : Int
  genTexture : List Nat → Nat
  gDownsamplingQuality : Int

/-- The file-level state of `Texture.cpp`: `static std::list<Tile> tileCache`, the `static int ts`
of `Texture::create`, together with the handles generated and the calls issued so far. -/
structure Globals where
  tileCache : List Tile
  ts : Int
  names : List Nat
  calls : List GLCall
deriving DecidableEq

/-- The state at program start: empty pool, `ts = 0`, nothing generated. -/
def Globals.init : Globals := { tileCache := [], ts := 0, names := [], calls := [] }

/-- The function `initTile(t)`: the storage of `t.id` is (re)initialised to `t.w` x `t.h`. -/
def initTile (t : Tile) (g : Globals) : Globals :=
  { g with calls := g.calls ++ [GLCall.texImage2D t.id t.w t.h t.format] }

/-- The loop of `takeTile` (lines 73-79): the first tile of the cache with
`t.w == w && t.h == h && t.format == format`, and the cache with that element erased. -/
def takeMatching (w h : Int) (format : Nat) : List Tile → Option (Tile × List Tile)
  | [] => none
  | t :: rest =>
    if t.w = w ∧ t.h = h ∧ t.format = format then some (t, rest)
    else
      match takeMatching w h format rest with
      | none => none
      | some (u, rest') => some (u, t :: rest')

/-- The function `takeTile(w, h, format)`: the tile returned and the state afterwards.  (The fields of a
default-constructed `Tile tile;` are taken as zero; `Texture::create` overwrites `x`, `y`.) -/
def takeTile (d : Driver) (g : Globals) (w h : Int) (format : Nat) : Tile × Globals :=
  match takeMatching w h format g.tileCache with
  | some (t, cache) => (t, { g with tileCache := cache })
  | none =>
    let (tile, g) : Tile × Globals :=
      match g.tileCache.getLast? with
      | some last => (last, { g with tileCache := g.tileCache.dropLast })
      | none =>
        let id := d.genTexture g.names
        ({ id := id, x := 0, y := 0, w := 0, h := 0, format := 0 },
         { g with names := id :: g.names, calls := g.calls ++ [GLCall.genTextures id] })
    let tile := { tile with w := w, h := h, format := format }
    (tile, initTile tile g)

/-- The function `giveTile(t)`: `tileCache.push_back(t)`. -/
def giveTile (g : Globals) (t : Tile) : Globals :=
  { g with tileCache := g.tileCache ++ [t] }

/-- Modelled from the spec: the tiled `Texture` (`Texture.hpp` is not among the sources), with the
fields `Texture.cpp` uses: the tile list, `size` and `format`. -/
structure Texture where
  tiles : List Tile
  size : ImVec2
  format : Nat
deriving DecidableEq

/-- Modelled from the spec: a texture object before any `create`, owning no tiles (the
constructor is in `Texture.hpp`, which is not among the sources). -/
def Texture.new : Texture := { tiles := [], size := ⟨0, 0⟩, format := 0 }

/-- The inner loop of `Texture::create` (lines 115-122) for the row at `y`, started at `x`. -/
def createRow (d : Driver) (ts w h : Int) (format : Nat) (y : Int) :
    Nat → Int → List Tile → Globals → Option (List Tile × Globals)
  | 0, x, tiles, g => if x < w then none else some (tiles, g)
  | fuel + 1, x, tiles, g =>
    if x < w then
      let tw := min ts (w - x)
      let th := min ts (h - y)
      let (t, g) := takeTile d g tw th format
      let t := { t with x := x, y := y }
      createRow d ts w h format y fuel (x + ts) (tiles ++ [t]) g
    else some (tiles, g)

/-- The outer loop of `Texture::create` (lines 114-123), started at `y`; each row may use
`rowFuel` iterations. -/
def createRows (d : Driver) (ts w h : Int) (format : Nat) (rowFuel : Nat) :
    Nat → Int → List Tile → Globals → Option (List Tile × Globals)
  | 0, y, tiles, g => if y < h then none else some (tiles, g)
  | fuel + 1, y, tiles, g =>
    if y < h then
      match createRow d ts w h format y rowFuel 0 tiles g with
      | none => none
      | some (tiles, g) => createRows d ts w h format rowFuel fuel (y + ts) tiles g
    else some (tiles, g)

/-- Lines 108-113 of `Texture::create`: the static `ts` is queried once, `GL_MAX_TEXTURE_SIZE`
halved, and kept. -/
def queryTs (d : Driver) (g : Globals) : Globals :=
  if g.ts = 0 then { g with ts := Int.tdiv d.maxTextureSize 2 } else g

/-- The function `Texture::create(w, h, format)`: the texture and the file-level state afterwards; `none`
when a loop has not finished within `fuel` iterations. -/
def Texture.create (d : Driver) (fuel : Nat) (self : Texture) (g : Globals) (w h : Int)
    (format : Nat) : Option (Texture × Globals) :=
  let g := self.tiles.foldl giveTile g
  let g := queryTs d g
  match createRows d g.ts w h format fuel fuel 0 [] g with
  | none => none
  | some (tiles, g) => some ({ tiles := tiles, size := ⟨w, h⟩, format := format }, g)

/-- The body of the loop of `Texture::upload` (lines 151-170) for one tile.  The offset
`(w * t.y + t.x)*img->format` of line 152 is an `int` expression. -/
def uploadTile (d : Driver) (img : Image) (glformat : Nat) (g : Globals) (t : Tile) : Globals :=
  let data : Int := wrapInt (wrapInt (wrapInt (img.w * t.y) + t.x) * img.format)
  let calls := g.calls ++ [GLCall.texSubImage2D t.id t.w t.h glformat GL_FLOAT img.w data]
  let calls := if d.gDownsamplingQuality ≥ 2 then calls ++ [GLCall.generateMipmap t.id] else calls
  { g with calls := calls }

/-- The function `Texture::upload(img, area)`; `none` when the assertion on the format fails or `create`
runs out of fuel. -/
def Texture.upload (d : Driver) (fuel : Nat) (self : Texture) (g : Globals) (img : Image)
    (_area : ImRect) : Option (Texture × Globals) :=
  match glFormatOf img.format with
  | none => none
  | some glformat =>
    let w := img.w
    let h := img.h
    let r : Option (Texture × Globals) :=
      if self.size.x ≠ w ∨ self.size.y ≠ h ∨ self.format ≠ glformat then
        self.create d fuel g w h glformat
      else some (self, g)
    match r with
    | none => none
    | some (self, g) => some (self, self.tiles.foldl (uploadTile d img glformat) g)

/-- The destructor `Texture::~Texture()`: every tile is given back; the file-level state afterwards. -/
def Texture.destroy (self : Texture) (g : Globals) : Globals :=
  self.tiles.foldl giveTile g


/-- The image is one the planner can upload: both assertions on the tags hold. -/
def Image.Supported (img : Image) : Prop :=
  (img.type = Image.UINT8 ∨ img.type = Image.FLOAT) ∧
  (img.format = Image.R ∨ img.format = Image.RG ∨ img.format = Image.RGB ∨
    img.format = Image.RGBA)

instance (img : Image) : Decidable img.Supported := by
  unfold Image.Supported; infer_instance

/-- The call is a transfer of exactly the rectangle `r`: offset `r.Min`, size of `r`. -/
def Call.isTransferOf (c : Call) (r : ImRect) : Prop :=
  match c with
  | Call.texSubImage2D _ x y w h _ _ _ _ =>
    x = r.Min.x ∧ y = r.Min.y ∧ w = r.GetWidth ∧ h = r.GetHeight
  | _ => False

instance (c : Call) (r : ImRect) : Decidable (c.isTransferOf r) := by
  cases c <;> unfold Call.isTransferOf <;> infer_instance

/-- The rectangle `[xoffset, xoffset + width) x [yoffset, yoffset + height)` of a transfer
covers `r`. -/
def Call.covers (c : Call) (r : ImRect) : Prop :=
  match c with
  | Call.texSubImage2D _ x y w h _ _ _ _ =>
    x ≤ r.Min.x ∧ y ≤ r.Min.y ∧ r.Max.x ≤ x + w ∧ r.Max.y ≤ y + h
  | _ => False

instance (c : Call) (r : ImRect) : Decidable (c.covers r) := by
  cases c <;> unfold Call.covers <;> infer_instance

/-- The sequence of Scenario A after its first upload: frame 1 loaded, `(0,0)-(53,53)`
resident. -/
def seqA₁ : Sequence :=
  { valid := true, force_reupload := false, loadedFrame := 1,
    loadedRect := ImRect.mk4 0 0 53 53,
    texture := { id := 1, size := ⟨100, 100⟩, type := GL_UNSIGNED_BYTE, format := GL_RED },
    player := some ⟨1⟩, image := some imgA }

/-- Scenario A's sequence after its first upload, the player moved on to frame 2. -/
def seqA₂ : Sequence := { seqA₁ with player := some ⟨2⟩ }

/-- Scenario A's sequence after the planner call that found frame 2 with the visible region
outside the image: frame 2 recorded, `loadedRect` the degenerate `(268,268)-(100,100)`. -/
def seqA₃ : Sequence :=
  { seqA₂ with loadedFrame := 2, loadedRect := ImRect.mk4 268 268 100 100 }

/-- The sequence `seqA₃` after the upload of `(0,0)-(53,53)`: `loadedRect` is the whole image. -/
def seqA₄ : Sequence := { seqA₃ with loadedRect := ImRect.mk4 0 0 100 100 }

/-- An environment as `envA`, whose image provider has no image for any frame. -/
def envMissing (x1 y1 x2 y2 : ℚ) : Env :=
  { envA x1 y1 x2 y2 with load := fun _ => none }

/-- The transfer rectangle as the claim words it: the visible region from `(u.x*w, u.y*h)` to
`(v.x*w, v.y*h)`, floored, clipped to the image bounds, expanded by 32 and clipped again. -/
def claimedTransferRect (env : Env) (w h : Int) : ImRect :=
  let (u, v) := env.compute ⟨w, h⟩
  let area := ImRect.mk4 (u.x * w) (u.y * h) (v.x * w) (v.y * h)
  ((area.Floor.Clip (ImRect.mk4 0 0 w h)).Expand 32).Clip (ImRect.mk4 0 0 w h)

/-- The sequences that arise at run time: the constructor's sequence; `loadFilenames` (lines
79-82: `valid` is set and `loadedFrame = -1`); the other components attaching a player, moving
its frame or setting `force_reupload`; a call of `getCurrentImage` (as `autoScaleAndBias` makes);
and a planner invocation, for whatever the viewport source and the image provider then are. -/
inductive Reachable : Sequence → Prop where
  | init (texture : SingleTexture) : Reachable (Sequence.new texture)
  | loadFilenames {s : Sequence} (valid : Bool) :
      Reachable s → Reachable { s with valid := valid, loadedFrame := -1 }
  | setInputs {s : Sequence} (player : Option Player) (force : Bool) :
      Reachable s → Reachable { s with player := player, force_reupload := force }
  | getCurrentImage {s : Sequence} (env : Env) :
      Reachable s → Reachable (getCurrentImage env s).2
  | tick {s s' : Sequence} {calls : List Call} (env : Env) :
      Reachable s → loadTextureIfNeeded env s = some (s', calls) → Reachable s'

/-- The invariant behind the resident region: `Min` is not below `(0, 0)`; without an image
`loadedRect` is `ImRect()`; with one, each coordinate of `Max` is still `-FLT_MAX` or not above
the image's dimension. -/
def ResidentInv (s : Sequence) : Prop :=
  0 ≤ s.loadedRect.Min.x ∧ 0 ≤ s.loadedRect.Min.y ∧
    match s.image with
    | none => s.loadedRect = ImRect.new
    | some img =>
      (s.loadedRect.Max.x = -FLT_MAX ∨ s.loadedRect.Max.x ≤ img.w) ∧
      (s.loadedRect.Max.y = -FLT_MAX ∨ s.loadedRect.Max.y ≤ img.h)

/-- The pixel `(px, py)` lies in the footprint `[t.x, t.x + t.w) x [t.y, t.y + t.h)` of the
tile. -/
def Tile.covers (t : Tile) (px py : Int) : Prop :=
  t.x ≤ px ∧ px < t.x + t.w ∧ t.y ≤ py ∧ py < t.y + t.h

instance (t : Tile) (px py : Int) : Decidable (t.covers px py) := by
  unfold Tile.covers; infer_instance

/-- The footprints of two tiles are separated along an axis. -/
def Tile.separated (t u : Tile) : Prop :=
  t.x + t.w ≤ u.x ∨ u.x + u.w ≤ t.x ∨ t.y + t.h ≤ u.y ∨ u.y + u.h ≤ t.y

/-- A driver with `GL_MAX_TEXTURE_SIZE = 8192` that numbers its handles 0, 1, 2, ... -/
def driverB : Driver :=
  { maxTextureSize := 8192, genTexture := fun names => names.length, gDownsamplingQuality := 0 }

/-- A call on the pool by a client: `takeTile(w, h, format)`, or `giveTile` of the `i`-th tile
that the client holds (a tile obtained from `takeTile` and not yet given back). -/
inductive PoolOp where
  | take (w h : Int) (format : Nat)
  | give (i : Nat)

/-- A run of pool calls: the file-level state, the tiles held outside the pool, and the largest
number of tiles held at once so far. -/
structure PoolRun where
  globals : Globals
  held : List Tile
  peak : Nat

/-- The start of a run: empty pool, nothing held. -/
def PoolRun.init : PoolRun := { globals := Globals.init, held := [], peak := 0 }

/-- One pool call.  A `give` of a tile that is not held is no call of the run. -/
def PoolRun.step (d : Driver) (r : PoolRun) : PoolOp → PoolRun
  | PoolOp.take w h format =>
    let (t, g) := takeTile d r.globals w h format
    let held := r.held ++ [t]
    { globals := g, held := held, peak := max r.peak held.length }
  | PoolOp.give i =>
    match r.held[i]? with
    | some t => { r with globals := giveTile r.globals t, held := r.held.eraseIdx i }
    | none => r

/-- The run of a sequence of pool calls from the start. -/
def PoolRun.run (d : Driver) (ops : List PoolOp) : PoolRun :=
  ops.foldl (PoolRun.step d) PoolRun.init

/-- The program state around `Texture.cpp`: the file-level state and the live `Texture`
objects. -/
structure World where
  globals : Globals
  textures : List Texture

/-- The start: empty pool, no texture object. -/
def World.init : World := { globals := Globals.init, textures := [] }

/-- A call on a texture object: its construction, `create`, `upload` or its destructor; `i` is
the position of the object among the live ones. -/
inductive WorldOp where
  | construct
  | create (i : Nat) (fuel : Nat) (w h : Int) (format : Nat)
  | upload (i : Nat) (fuel : Nat) (img : Image) (area : ImRect)
  | destroy (i : Nat)

/-- One call; `none` when there is no such live object or the call does not return. -/
def World.step (d : Driver) (wld : World) : WorldOp → Option World
  | WorldOp.construct => some { wld with textures := wld.textures ++ [Texture.new] }
  | WorldOp.create i fuel w h format =>
    match wld.textures[i]? with
    | none => none
    | some tex =>
      match tex.create d fuel wld.globals w h format with
      | none => none
      | some (tex', g) => some { globals := g, textures := wld.textures.set i tex' }
  | WorldOp.upload i fuel img area =>
    match wld.textures[i]? with
    | none => none
    | some tex =>
      match tex.upload d fuel wld.globals img area with
      | none => none
      | some (tex', g) => some { globals := g, textures := wld.textures.set i tex' }
  | WorldOp.destroy i =>
    match wld.textures[i]? with
    | none => none
    | some tex =>
      some { globals := tex.destroy wld.globals, textures := wld.textures.eraseIdx i }

/-- The run of a sequence of calls. -/
def World.run (d : Driver) : World → List WorldOp → Option World
  | wld, [] => some wld
  | wld, op :: ops =>
    match wld.step d op with
    | none => none
    | some wld' => World.run d wld' ops

/-- The handles of the pool followed by those of the tile lists of the live textures. -/
def World.handles (wld : World) : List Nat :=
  (wld.globals.tileCache ++ wld.textures.flatMap Texture.tiles).map Tile.id

/-- A driver whose `glGenTextures` returns one more than the sum of the handles generated so
far, hence a handle not yet in use. -/
def driverFresh : Driver :=
  { maxTextureSize := 8192, genTexture := fun names => names.sum + 1,
    gDownsamplingQuality := 0 }

/-- A run on two texture objects: both created, the first destroyed, the second re-created at
another size. -/
def opsW : List WorldOp :=
  [WorldOp.construct, WorldOp.construct, WorldOp.create 0 3 5000 3000 GL_RGB,
   WorldOp.create 1 3 100 100 GL_RGB, WorldOp.destroy 0, WorldOp.create 0 3 9000 9000 GL_RGB]

/-- The handles `hs` are pairwise distinct and all among the generated `names`. -/
def HandlesOk (names hs : List Nat) : Prop := hs.Nodup ∧ ∀ x ∈ hs, x ∈ names

/-! ## `Sequence.cpp`: the normalizer -/

/-- Modelled from the spec: the display-range parameters of the `Colormap` that `Sequence.cpp`
is written against (its `Colormap.hpp`, with the fields `scale` and `bias`, is not among the
sources). -/
structure Colormap where
  scale : ℚ
  bias : ℚ
deriving DecidableEq

/-- The function `Sequence::autoScaleAndBias()`: the sequence and the colormap afterwards.  (The
colormap pointer is taken as not null.) -/
def autoScaleAndBias (env : Env) (s : Sequence) (colormap : Colormap) : Sequence × Colormap :=
  let colormap := { colormap with scale := 1, bias := 0 }
  match getCurrentImage env s with
  | (none, s) => (s, colormap)
  | (some img, s) =>
    let scale := 1 / (img.max - img.min)
    (s, { scale := scale, bias := - img.min * scale })

/-- The values of the counter of a loop `for (int i = lo; i < hi; i++)` whose bound `hi` is a
float: `lo`, `lo + 1`, ... as long as the value is below `hi`.  (The comparison converts the
counter to float, which changes no counter up to `2^24`; the model compares the counter
itself.) -/
def countUp (lo : Int) (hi : ℚ) : List Int :=
  (List.range (⌈hi⌉ - lo).toNat).map fun (k : Nat) => lo + (k : Int)

/-- Modelled from the spec: the size of the pixel array in bytes (its allocation is in
`Image.cpp`, which is not among the sources): `w * h * format` elements of one byte (`UINT8`) or
four bytes (`FLOAT`) each, the element sizes of lines 153-155 of `loadTextureIfNeeded`. -/
def Image.byteSize (img : Image) : Int :=
  (elsizeOf img.type).getD 0 * (img.w * img.h * img.format)

/-- The read `data[i]` through `const float* data = (const float*) img->pixels` (line 208) takes
the four bytes `4i .. 4i+3` of the pixel array; they lie inside the array. -/
def Image.floatReadInside (img : Image) (i : Int) : Prop :=
  0 ≤ 4 * i ∧ 4 * i + 4 ≤ img.byteSize

instance (img : Image) (i : Int) : Decidable (img.floatReadInside i) := by
  unfold Image.floatReadInside; infer_instance

/-- The value of the read `data[i]` through `const float* data = (const float*) img->pixels`
(line 208).  For an image of float elements it is element `i` of the pixel array.  For an image
of byte elements the read takes four byte elements as one float, and outside the array it takes
foreign memory: such a value is not determined by the image, and the model has 0 there. -/
def Image.data (img : Image) (i : Int) : ℚ :=
  if img.type = Image.FLOAT ∧ 0 ≤ i then img.pixels.getD i.toNat 0 else 0

/-- Lines 201-204 of `smartAutoScaleAndBias`: the clamping of `p1` from below. -/
def clampP1 (p1 : ImVec2) : ImVec2 :=
  ⟨if p1.x < 0 then 0 else p1.x, if p1.y < 0 then 0 else p1.y⟩

/-- Lines 201-204 of `smartAutoScaleAndBias`: the clamping of `p2` from above.  (The dimensions
are converted to float, exactly so up to `2^24`; the model takes them as they are.) -/
def clampP2 (img : Image) (p2 : ImVec2) : ImVec2 :=
  ⟨if p2.x ≥ img.w then img.w - 1 else p2.x, if p2.y ≥ img.h then img.h - 1 else p2.y⟩

/-- The triples `(x, y, d)` for which the loops of lines 209-216 read
`data[d + img->format*(x+y*img->w)]`, in the order of the reads. -/
def scanReads (img : Image) (p1 p2 : ImVec2) : List (Int × Int × Int) :=
  (countUp (truncToInt p1.y) p2.y).flatMap fun y =>
    (countUp (truncToInt p1.x) p2.x).flatMap fun x =>
      (List.range img.format).map fun (d : Nat) => (x, y, (d : Int))

/-- The index `d + img->format*(x+y*img->w)` of a read, an `int` expression. -/
def scanIndex (img : Image) (r : Int × Int × Int) : Int :=
  wrapInt (r.2.2 + wrapInt (img.format * wrapInt (r.1 + wrapInt (r.2.1 * img.w))))

/-- What `smartAutoScaleAndBias` leaves behind: the sequence, the colormap, the clamped `p1` and
`p2` (they are passed by reference), the locals `min` and `max` after the loops, and the triples
`(x, y, d)` of the reads of the pixel array, in order. -/
structure ScanResult where
  seq : Sequence
  colormap : Colormap
  p1 : ImVec2
  p2 : ImVec2
  min : ℚ
  max : ℚ
  reads : List (Int × Int × Int)
deriving DecidableEq

/-- The function `Sequence::smartAutoScaleAndBias(p1, p2)`.  The locals `float min; float max;`
are declared without an initial value; `min₀` and `max₀` are the values they happen to hold when
the loops start.  (The colormap pointer is taken as not null.) -/
def smartAutoScaleAndBias (env : Env) (s : Sequence) (colormap : Colormap) (p1 p2 : ImVec2)
    (min₀ max₀ : ℚ) : ScanResult :=
  let colormap := { colormap with scale := 1, bias := 0 }
  match getCurrentImage env s with
  | (none, s) =>
    { seq := s, colormap := colormap, p1 := p1, p2 := p2, min := min₀, max := max₀,
      reads := [] }
  | (some img, s) =>
    let p1 := clampP1 p1
    let p2 := clampP2 img p2
    let reads := scanReads img p1 p2
    let min := reads.foldl (fun m r => Min.min m (img.data (scanIndex img r))) min₀
    let max := reads.foldl (fun m r => Max.max m (img.data (scanIndex img r))) max₀
    let scale := 1 / (max - min)
    { seq := s, colormap := { scale := scale, bias := - min * scale }, p1 := p1, p2 := p2,
      min := min, max := max, reads := reads }

/-- The pixel values of the clamped rectangle as the spec words them: all channels of all pixels
`(x, y)` with integer coordinates in `[p1, p2)`. -/
def regionValues (img : Image) (p1 p2 : ImVec2) : List ℚ :=
  (scanReads img p1 p2).map fun r => img.data (scanIndex img r)

/-- Scenario C: an image whose values range over `[-2, 3]`. -/
def imgC : Image := { w := 2, h := 1, type := Image.FLOAT, format := Image.R,
                      min := -2, max := 3, pixels := [-2, 3] }

/-- A valid sequence on frame 1 holding the image `img`. -/
def seqWith (img : Image) : Sequence :=
  { Sequence.new noTexture with valid := true, player := some ⟨1⟩, image := some img,
                                loadedFrame := 1 }

/-- A 3x2 single-channel float image with the rows `5 7 9` and `5 7 9`. -/
def imgS : Image := { w := 3, h := 2, type := Image.FLOAT, format := Image.R,
                      min := 5, max := 9, pixels := [5, 7, 9, 5, 7, 9] }

/-- A 50000x50000 single-channel float image (the values of its pixels play no part). -/
def imgM : Image := { w := 50000, h := 50000, type := Image.FLOAT, format := Image.R,
                      min := 0, max := 1, pixels := [] }

/-- A 50000x50000 single-channel byte image (the values of its pixels play no part). -/
def imgL : Image := { w := 50000, h := 50000, type := Image.UINT8, format := Image.R,
                      min := 0, max := 255, pixels := [] }

/-- An environment whose viewport source reports `u = 0.98437f` and `v = 0.98457f` in both axes
(the binary32 values nearest to 0.98437 and 0.98457), the visible region from about
`(49218.5, 49218.5)` to `(49228.5, 49228.5)` of a 50000x50000 image, and whose every frame is
`imgL`. -/
def envL : Env :=
  { useCache := true
    load := fun _ => some imgL
    compute := fun _ =>
      (⟨roundFloat (98437 / 100000), roundFloat (98437 / 100000)⟩,
       ⟨roundFloat (98457 / 100000), roundFloat (98457 / 100000)⟩)
    create := fun _ w h t f => { id := 1, size := ⟨w, h⟩, type := t, format := f } }

/-- The calls that the loop body of `Texture::upload` issues for one tile: the transfer of the
whole tile, and `glGenerateMipmap` when the downsampling quality asks for mipmaps. -/
def tileUploadCalls (d : Driver) (img : Image) (glformat : Nat) (t : Tile) : List GLCall :=
  [GLCall.texSubImage2D t.id t.w t.h glformat GL_FLOAT img.w
      (wrapInt (wrapInt (wrapInt (img.w * t.y) + t.x) * img.format))]
    ++ (if d.gDownsamplingQuality ≥ 2 then [GLCall.generateMipmap t.id] else [])

/-- The calls for one tile as the amended claim words them: the transfer of the whole tile,
`t.w` x `t.h` pixels, read with the image width as row length from the element offset
`(w * t.y + t.x) * format` of the tile's origin in the image buffer, and `glGenerateMipmap` when
the downsampling quality asks for mipmaps. -/
def wholeTileCalls (d : Driver) (img : Image) (glformat : Nat) (t : Tile) : List GLCall :=
  [GLCall.texSubImage2D t.id t.w t.h glformat GL_FLOAT img.w ((img.w * t.y + t.x) * img.format)]
    ++ (if d.gDownsamplingQuality ≥ 2 then [GLCall.generateMipmap t.id] else [])

/-- The footprint of the tile and the rectangle `area` have a pixel in common. -/
def Tile.intersects (t : Tile) (area : ImRect) : Prop :=
  area.Min.x < t.x + t.w ∧ (t.x : ℚ) < area.Max.x ∧ area.Min.y < t.y + t.h ∧
    (t.y : ℚ) < area.Max.y

instance (t : Tile) (area : ImRect) : Decidable (t.intersects area) := by
  unfold Tile.intersects; infer_instance

/-- A driver with `GL_MAX_TEXTURE_SIZE = 8`, so tiles of at most 4x4, numbering its handles
0, 1, 2, ... -/
def driverSmall : Driver :=
  { maxTextureSize := 8, genTexture := fun names => names.length, gDownsamplingQuality := 0 }

/-- An 8x4 single-channel float image. -/
def imgT : Image := { w := 8, h := 4, type := Image.FLOAT, format := Image.R,
                      min := 0, max := 0, pixels := List.replicate 32 0 }

/-- A 1000x1000 single-channel byte image. -/
def imgK : Image := { w := 1000, h := 1000, type := Image.UINT8, format := Image.R,
                      min := 0, max := 255, pixels := [] }

/-- An environment whose viewport source reports the visible region from `(x1, y1)` to
`(x2, y2)` in image pixels of a 1000x1000 image, and whose every frame is `imgK`. -/
def envK (x1 y1 x2 y2 : ℚ) : Env :=
  { useCache := true
    load := fun _ => some imgK
    compute := fun _ => (⟨x1 / 1000, y1 / 1000⟩, ⟨x2 / 1000, y2 / 1000⟩)
    create := fun _ w h t f => { id := 1, size := ⟨w, h⟩, type := t, format := f } }

/-- The sequence on frame 1 of `imgK` after the views near `(0,0)`, with `resident` loaded. -/
def seqK (resident : ImRect) : Sequence :=
  { valid := true, force_reupload := false, loadedFrame := 1, loadedRect := resident,
    texture := { id := 1, size := ⟨1000, 1000⟩, type := GL_UNSIGNED_BYTE, format := GL_RED },
    player := some ⟨1⟩, image := some imgK }

/-- An environment whose viewport source reports `u = (0.29f, 0.29f)` and `v = (0.3f, 0.3f)`,
the binary32 values `9730785 / 2^25` and `10066330 / 2^25` nearest to 0.29 and 0.3, and whose
every frame is `imgK`. -/
def envF : Env :=
  { useCache := true
    load := fun _ => some imgK
    compute := fun _ =>
      (⟨9730785 / 33554432, 9730785 / 33554432⟩, ⟨10066330 / 33554432, 10066330 / 33554432⟩)
    create := fun _ w h t f => { id := 1, size := ⟨w, h⟩, type := t, format := f } }

/-- The footprint of a tile: offset and dimensions. -/
def Tile.geom (t : Tile) : Int × Int × Int × Int := (t.x, t.y, t.w, t.h)

/-- The number of grid cells along an axis of length `len` for the tile limit `ts`:
`ceil(len / ts)`. -/
def cellCount (ts len : Int) : Nat := ((len + ts - 1) / ts).toNat

/-- The cells `(x, y, width, height)` of the grid row at `y` from the column offset `x0` on, by
increasing `x`: the cell at `(x, y)` has width `min(ts, w - x)` and height `min(ts, h - y)`. -/
def rowCellsFrom (ts w h y x0 : Int) : List (Int × Int × Int × Int) :=
  (List.range (cellCount ts (w - x0))).map fun (i : Nat) =>
    (x0 + i * ts, y, min ts (w - (x0 + i * ts)), min ts (h - y))

/-- The cells of the grid rows from the row offset `y0` on, row by row. -/
def gridCellsFrom (ts w h y0 : Int) : List (Int × Int × Int × Int) :=
  (List.range (cellCount ts (h - y0))).flatMap fun (j : Nat) =>
    rowCellsFrom ts w h (y0 + j * ts) 0

/-- The tile grid as the spec words it: one cell per grid position, in row-major order (the row
`y = 0` by increasing `x`, then `y = ts`, ...), the cell at `(x, y)` of width `min(ts, w - x)`
and height `min(ts, h - y)`. -/
def gridCells (ts w h : Int) : List (Int × Int × Int × Int) := gridCellsFrom ts w h 0

/-- What `takeTile` matches on: the dimensions and the format of a tile. -/
def Tile.key (t : Tile) : Int × Int × Nat := (t.w, t.h, t.format)

/-- The request that `create` makes for a grid cell: its width, its height and the format. -/
def cellKey (format : Nat) (c : Int × Int × Int × Int) : Int × Int × Nat :=
  (c.2.2.1, c.2.2.2, format)

/-- The pool holds, for every kind of request, at least as many matching tiles as `need` asks
for. -/
def PoolCovers (pool : List Tile) (need : List (Int × Int × Nat)) : Prop :=
  ∀ k, need.countP (fun c => decide (c = k)) ≤
    (pool.map Tile.key).countP (fun c => decide (c = k))

/-- The `GL_UNPACK_ROW_LENGTH` in force at a transfer (0 for another call). -/
def Call.rowLength (c : Call) : Int :=
  match c with
  | Call.texSubImage2D _ _ _ _ _ _ _ rowLength _ => rowLength
  | _ => 0

/-- The byte offset of the source pointer of a transfer from `img->pixels` (0 for another
call). -/
def Call.dataOffset (c : Call) : Int :=
  match c with
  | Call.texSubImage2D _ _ _ _ _ _ _ _ data => data
  | _ => 0

/-! ## Properties of the upload planner -/

theorem ImRect.add_containsInclusive (r a : ImRect) : (r.Add a).ContainsInclusive a := by
  unfold ImRect.ContainsInclusive ImRect.Add
  refine ⟨?_, ?_, ?_, ?_⟩ <;> dsimp only <;> split_ifs <;> linarith

theorem ImRect.add_eq_self_of_contains (r a : ImRect) (h : r.ContainsInclusive a) :
    r.Add a = r := by
  obtain ⟨h1, h2, h3, h4⟩ := h
  unfold ImRect.Add
  rw [if_neg (by linarith), if_neg (by linarith), if_neg (by linarith), if_neg (by linarith)]

@[simp] theorem Sequence.setImage_valid (s : Sequence) (o : Option Image) :
    (s.setImage o).valid = s.valid := rfl

@[simp] theorem Sequence.setImage_force (s : Sequence) (o : Option Image) :
    (s.setImage o).force_reupload = s.force_reupload := rfl

@[simp] theorem Sequence.setImage_loadedFrame (s : Sequence) (o : Option Image) :
    (s.setImage o).loadedFrame = s.loadedFrame := rfl

@[simp] theorem Sequence.setImage_loadedRect (s : Sequence) (o : Option Image) :
    (s.setImage o).loadedRect = s.loadedRect := rfl

@[simp] theorem Sequence.setImage_texture (s : Sequence) (o : Option Image) :
    (s.setImage o).texture = s.texture := rfl

@[simp] theorem Sequence.setImage_player (s : Sequence) (o : Option Image) :
    (s.setImage o).player = s.player := rfl

@[simp] theorem Sequence.setImage_image (s : Sequence) (o : Option Image) :
    (s.setImage o).image = o := rfl

@[simp] theorem Sequence.setImage_setImage (s : Sequence) (o o' : Option Image) :
    (s.setImage o).setImage o' = s.setImage o' := rfl

theorem Sequence.setImage_self (s : Sequence) (o : Option Image) (h : s.image = o) :
    s.setImage o = s := by
  cases s; simp_all [Sequence.setImage]

theorem getCurrentImage_eq (env : Env) (s : Sequence) (player : Player)
    (hvalid : s.valid = true) (hplayer : s.player = some player) :
    getCurrentImage env s =
      ((getCurrentImage env s).1, s.setImage (getCurrentImage env s).1) := by
  unfold getCurrentImage
  rw [hvalid, hplayer]
  cases himg : s.image with
  | none => rfl
  | some img => simp only; rw [Sequence.setImage_self s _ himg]

theorem supported_tags (img : Image) (h : img.Supported) :
    ∃ t f e, glTypeOf img.type = some t ∧ glFormatOf img.format = some f ∧
      elsizeOf img.type = some e := by
  obtain ⟨ht, hf⟩ := h
  unfold glTypeOf glFormatOf elsizeOf
  rcases ht with ht | ht <;> rcases hf with hf | hf | hf | hf <;> rw [ht, hf] <;>
    exact ⟨_, _, _, rfl, rfl, rfl⟩

theorem transfers_create_append (b : Bool) (w h : Int) (t f : Nat) (l : List Call) :
    transfers ((if b = true then [Call.create w h t f] else []) ++ l) = transfers l := by
  cases b <;> simp [transfers]

theorem transfers_reuploadBranch (env : Env) (s : Sequence) (frame : Int) (img : Image)
    (area : ImRect) (hsupp : img.Supported) :
    ∃ s' calls, reuploadBranch env s frame img area = some (s', calls) ∧
      s'.loadedFrame = frame ∧ s'.loadedRect = s.loadedRect.Add area ∧
      s'.force_reupload = false ∧ s'.valid = s.valid ∧ s'.player = s.player ∧
      s'.image = s.image ∧
      (area.GetWidth > 0 ∧ area.GetHeight > 0 →
        ∃ c, transfers calls = [c] ∧ c.isTransferOf area ∧ c.covers area) ∧
      (¬ (area.GetWidth > 0 ∧ area.GetHeight > 0) → transfers calls = []) := by
  obtain ⟨t, f, e, ht, hf, he⟩ := supported_tags img hsupp
  unfold reuploadBranch
  simp only [ht, hf, he]
  refine ⟨_, _, rfl, rfl, rfl, rfl, rfl, rfl, rfl, ?_, ?_⟩
  · intro hpos
    rw [if_pos hpos, transfers_create_append]
    refine ⟨_, rfl, ⟨rfl, rfl, rfl, rfl⟩, ?_⟩
    simp [Call.covers, ImRect.GetWidth, ImRect.GetHeight]
  · intro hneg
    rw [if_neg hneg, transfers_create_append]
    rfl

theorem loadTextureIfNeeded_eq (env : Env) (s : Sequence) (player : Player)
    (hvalid : s.valid = true) (hplayer : s.player = some player) (hframe : 0 < player.frame) :
    loadTextureIfNeeded env s =
      match (getCurrentImage env (resetStale s player.frame)).1 with
      | none => some ((resetStale s player.frame).setImage none, [])
      | some img =>
        if (resetStale s player.frame).force_reupload = true ∨
            ¬ (resetStale s player.frame).loadedRect.ContainsInclusive
                (uploadArea env img.w img.h) then
          reuploadBranch env ((resetStale s player.frame).setImage (some img)) player.frame
            img (uploadArea env img.w img.h)
        else some (((resetStale s player.frame).setImage (some img)), []) := by
  have hv : (resetStale s player.frame).valid = true := by
    unfold resetStale; split_ifs <;> simp [hvalid]
  have hp : (resetStale s player.frame).player = some player := by
    unfold resetStale; split_ifs <;> simp [hplayer]
  have hg := getCurrentImage_eq env (resetStale s player.frame) player hv hp
  unfold loadTextureIfNeeded
  split
  · rename_i p hv1 hp1
    have hpp : p = player := by rw [hplayer] at hp1; exact (Option.some.inj hp1).symm
    subst hpp
    simp only [gt_iff_lt, hframe, not_true_eq_false, if_false]
    rw [hg]
    cases hi : (getCurrentImage env (resetStale s p.frame)).1 with
    | none => rfl
    | some img =>
      simp only
      by_cases hc : (resetStale s p.frame).loadedRect.ContainsInclusive
          (uploadArea env img.w img.h)
      · cases hf : (resetStale s p.frame).force_reupload <;> simp [hc, hf]
      · cases hf : (resetStale s p.frame).force_reupload <;> simp [hc, hf]
  · rename_i hne
    exact absurd hplayer (hne player hvalid)

theorem loadTextureIfNeeded_none (env : Env) (s : Sequence) (player : Player)
    (hvalid : s.valid = true) (hplayer : s.player = some player) (hframe : 0 < player.frame)
    (himg : (getCurrentImage env (resetStale s player.frame)).1 = none) :
    loadTextureIfNeeded env s = some ((resetStale s player.frame).setImage none, []) := by
  rw [loadTextureIfNeeded_eq env s player hvalid hplayer hframe, himg]

theorem loadTextureIfNeeded_some (env : Env) (s : Sequence) (player : Player) (img : Image)
    (hvalid : s.valid = true) (hplayer : s.player = some player) (hframe : 0 < player.frame)
    (himg : (getCurrentImage env (resetStale s player.frame)).1 = some img) :
    loadTextureIfNeeded env s =
      if (resetStale s player.frame).force_reupload = true ∨
          ¬ (resetStale s player.frame).loadedRect.ContainsInclusive
              (uploadArea env img.w img.h) then
        reuploadBranch env ((resetStale s player.frame).setImage (some img)) player.frame
          img (uploadArea env img.w img.h)
      else some (((resetStale s player.frame).setImage (some img)), []) := by
  rw [loadTextureIfNeeded_eq env s player hvalid hplayer hframe, himg]

theorem resetStale_fresh (s : Sequence) (frame : Int) (h1 : s.loadedFrame = frame)
    (h2 : s.force_reupload = false) : resetStale s frame = s := by
  unfold resetStale
  rw [if_neg]
  simp [h1, h2]

theorem ImRect.containsInclusive_of_point_outside (r a : ImRect)
    (h : ∃ p, a.Contains p ∧ ¬ r.Contains p) :
    ¬ r.ContainsInclusive a ∧ a.GetWidth > 0 ∧ a.GetHeight > 0 := by
  obtain ⟨p, ⟨h1, h2, h3, h4⟩, hn⟩ := h
  refine ⟨?_, ?_, ?_⟩
  · rintro ⟨c1, c2, c3, c4⟩
    exact hn ⟨by linarith, by linarith, by linarith, by linarith⟩
  · unfold ImRect.GetWidth; linarith
  · unfold ImRect.GetHeight; linarith

/-- C1 (containment correctness).  With the pixel buffer available, the frame index equal to
`loadedFrame` and `force_reupload` clear: if `loadedRect` contains the padded and clipped `area`
inclusively, the planner issues no call at all and leaves every field as it was (the image
pointer holding the buffer); if `area` has a point outside `loadedRect`, exactly one transfer is
issued, its rectangle covers `area`, and `loadedRect` afterwards contains `area`. -/
theorem containment_correctness (env : Env) (s : Sequence) (player : Player) (img : Image)
    (hvalid : s.valid = true) (hplayer : s.player = some player) (hframe : 0 < player.frame)
    (hloaded : s.loadedFrame = player.frame) (hforce : s.force_reupload = false)
    (himg : (getCurrentImage env s).1 = some img) (hsupp : img.Supported) :
    (s.loadedRect.ContainsInclusive (uploadArea env img.w img.h) →
      loadTextureIfNeeded env s = some ((s.setImage (some img)), [])) ∧
    ((∃ p, (uploadArea env img.w img.h).Contains p ∧ ¬ s.loadedRect.Contains p) →
      ∃ s' calls c, loadTextureIfNeeded env s = some (s', calls) ∧
        transfers calls = [c] ∧ c.covers (uploadArea env img.w img.h) ∧
        s'.loadedRect.ContainsInclusive (uploadArea env img.w img.h)) := by
  have hr := resetStale_fresh s player.frame hloaded hforce
  have heq := loadTextureIfNeeded_some env s player img hvalid hplayer hframe (by rw [hr, himg])
  rw [hr] at heq
  constructor
  · intro hc
    rw [heq, if_neg (by simp [hforce, hc])]
  · intro hp
    obtain ⟨hnc, hw, hh⟩ := ImRect.containsInclusive_of_point_outside _ _ hp
    rw [heq, if_pos (Or.inr hnc)]
    obtain ⟨s', calls, hres, -, hrect, -, -, -, -, hpos, -⟩ :=
      transfers_reuploadBranch env (s.setImage (some img)) player.frame img
        (uploadArea env img.w img.h) hsupp
    obtain ⟨c, hc1, -, hc2⟩ := hpos ⟨hw, hh⟩
    refine ⟨s', calls, c, hres, hc1, hc2, ?_⟩
    rw [hrect]
    exact ImRect.add_containsInclusive _ _

/-- Scenario A after its first upload: the visible region `(15,15)-(18,18)` lies inside the
resident `(0,0)-(53,53)` and nothing happens; the region `(60,60)-(70,70)` has points outside
and one transfer covering the padded area is issued. -/
theorem containment_correctness_witness :
    loadTextureIfNeeded (envA 15 15 18 18) seqA₁ = some (seqA₁, []) ∧
    ∃ s' calls c, loadTextureIfNeeded (envA 60 60 70 70) seqA₁ = some (s', calls) ∧
        transfers calls = [c] ∧ c.covers (uploadArea (envA 60 60 70 70) imgA.w imgA.h) ∧
        s'.loadedRect.ContainsInclusive (uploadArea (envA 60 60 70 70) imgA.w imgA.h) :=
  ⟨(containment_correctness (envA 15 15 18 18) seqA₁ ⟨1⟩ imgA rfl rfl (by decide) rfl rfl rfl
      (by decide)).1 (by decide!),
   (containment_correctness (envA 60 60 70 70) seqA₁ ⟨1⟩ imgA rfl rfl (by decide) rfl rfl rfl
      (by decide)).2 ⟨⟨60, 60⟩, by decide!⟩⟩

theorem getCurrentImage_fst (env : Env) (s : Sequence) (player : Player)
    (hvalid : s.valid = true) (hplayer : s.player = some player) :
    (getCurrentImage env s).1 =
      match s.image with
      | none => env.load player.frame
      | some img => some img := by
  unfold getCurrentImage
  rw [hvalid, hplayer]
  cases s.image <;> rfl

theorem resetStale_valid (s : Sequence) (frame : Int) : (resetStale s frame).valid = s.valid := by
  unfold resetStale; split_ifs <;> rfl

theorem resetStale_player (s : Sequence) (frame : Int) :
    (resetStale s frame).player = s.player := by
  unfold resetStale; split_ifs <;> rfl

theorem resetStale_force (s : Sequence) (frame : Int) :
    (resetStale s frame).force_reupload = s.force_reupload := by
  unfold resetStale; split_ifs <;> rfl

theorem resetStale_loadedFrame (s : Sequence) (frame : Int) :
    (resetStale s frame).loadedFrame = s.loadedFrame := by
  unfold resetStale; split_ifs <;> rfl

theorem resetStale_texture (s : Sequence) (frame : Int) :
    (resetStale s frame).texture = s.texture := by
  unfold resetStale; split_ifs <;> rfl

theorem resetStale_idem (s : Sequence) (frame : Int) (o : Option Image)
    (h : s.loadedFrame ≠ frame ∨ s.force_reupload = true) :
    resetStale ((resetStale s frame).setImage o) frame =
      ((resetStale s frame).setImage none) := by
  cases s
  simp only [resetStale, Sequence.setImage] at h ⊢
  simp only [h, if_true]

theorem resetStale_setImage_resetStale (s : Sequence) (frame : Int) (o : Option Image) :
    resetStale ((resetStale s frame).setImage o) frame =
      (resetStale s frame).setImage
        (if s.loadedFrame ≠ frame ∨ s.force_reupload = true then none else o) := by
  by_cases hst : s.loadedFrame ≠ frame ∨ s.force_reupload = true
  · rw [if_pos hst]
    exact resetStale_idem s frame o hst
  · rw [if_neg hst]
    apply resetStale_fresh
    · show (resetStale s frame).loadedFrame = _
      rw [resetStale_loadedFrame]; by_contra hc; exact hst (Or.inl hc)
    · show (resetStale s frame).force_reupload = _
      rw [resetStale_force]; cases hf : s.force_reupload
      · rfl
      · exact absurd (Or.inr hf) hst

theorem resetStale_image (s : Sequence) (frame : Int)
    (hst : s.loadedFrame ≠ frame ∨ s.force_reupload = true) :
    (resetStale s frame).image = none := by
  unfold resetStale
  rw [if_pos hst]
  rfl

theorem resetStale_loadedRect (s : Sequence) (frame : Int)
    (hst : s.loadedFrame ≠ frame ∨ s.force_reupload = true) :
    (resetStale s frame).loadedRect = ImRect.new := by
  unfold resetStale
  rw [if_pos hst]
  rfl

theorem reuploadBranch_some (env : Env) (s s' : Sequence) (frame : Int) (img : Image)
    (area : ImRect) (calls : List Call)
    (h : reuploadBranch env s frame img area = some (s', calls)) :
    s'.valid = s.valid ∧ s'.player = s.player ∧ s'.image = s.image ∧ s'.loadedFrame = frame ∧
      s'.force_reupload = false ∧ s'.loadedRect = s.loadedRect.Add area := by
  unfold reuploadBranch at h
  cases ht : glTypeOf img.type with
  | none => rw [ht] at h; cases h
  | some t =>
    cases hf : glFormatOf img.format with
    | none => rw [ht, hf] at h; cases h
    | some f =>
      cases he : elsizeOf img.type with
      | none => rw [ht, hf, he] at h; cases h
      | some e =>
        rw [ht, hf, he] at h
        obtain ⟨rfl, -⟩ := Prod.mk.inj (Option.some.inj h)
        exact ⟨rfl, rfl, rfl, rfl, rfl, rfl⟩

/-- C2 (no-op idempotence).  Whenever a planner call returns, a second call in succession, with
the same viewport source, image provider and frame index, issues no call at all (so zero
transfers) and returns the sequence unchanged: `loadedFrame`, `loadedRect`, `force_reupload` and
every other field keep their values. -/
theorem noop_idempotence (env : Env) (s s₁ : Sequence) (calls₁ : List Call)
    (h : loadTextureIfNeeded env s = some (s₁, calls₁)) :
    loadTextureIfNeeded env s₁ = some (s₁, []) := by
  by_cases hvp : s.valid = true ∧ ∃ player, s.player = some player
  swap
  · have hs : loadTextureIfNeeded env s = some (s, []) := by
      unfold loadTextureIfNeeded
      split
      · rename_i p hv hp
        exact absurd ⟨hv, p, hp⟩ hvp
      · rfl
    rw [hs] at h
    obtain ⟨rfl, -⟩ := Prod.mk.inj (Option.some.inj h)
    exact hs
  obtain ⟨hvalid, player, hplayer⟩ := hvp
  by_cases hframe : 0 < player.frame
  swap
  · unfold loadTextureIfNeeded at h
    rw [hvalid, hplayer] at h
    simp [hframe] at h
  have hv := resetStale_valid s player.frame
  have hp := resetStale_player s player.frame
  rw [hvalid] at hv
  rw [hplayer] at hp
  cases hi : (getCurrentImage env (resetStale s player.frame)).1 with
  | none =>
    rw [loadTextureIfNeeded_none env s player hvalid hplayer hframe hi] at h
    obtain ⟨rfl, -⟩ := Prod.mk.inj (Option.some.inj h)
    have hload : (resetStale s player.frame).image = none ∧ env.load player.frame = none := by
      rw [getCurrentImage_fst env _ player hv hp] at hi
      cases him : (resetStale s player.frame).image with
      | none => rw [him] at hi; exact ⟨rfl, hi⟩
      | some img => rw [him] at hi; cases hi
    have hfix : resetStale ((resetStale s player.frame).setImage none) player.frame =
        ((resetStale s player.frame).setImage none) := by
      by_cases hst : s.loadedFrame ≠ player.frame ∨ s.force_reupload = true
      · exact resetStale_idem s player.frame none hst
      · apply resetStale_fresh
        · show (resetStale s player.frame).loadedFrame = _
          rw [resetStale_loadedFrame]; by_contra hc; exact hst (Or.inl hc)
        · show (resetStale s player.frame).force_reupload = _
          rw [resetStale_force]; cases hf : s.force_reupload
          · rfl
          · exact absurd (Or.inr hf) hst
    have hv' : ((resetStale s player.frame).setImage none).valid = true := hv
    have hp' : ((resetStale s player.frame).setImage none).player = some player := hp
    have h2 := loadTextureIfNeeded_none env ((resetStale s player.frame).setImage none)
      player hv' hp' hframe (by
        rw [hfix, getCurrentImage_fst env _ player hv' hp']
        exact hload.2)
    rw [h2, hfix, Sequence.setImage_setImage]
  | some img =>
    rw [loadTextureIfNeeded_some env s player img hvalid hplayer hframe hi] at h
    rw [getCurrentImage_fst env _ player hv hp] at hi
    split_ifs at h with hcond
    · obtain ⟨h1, h2, h3, h4, h5, h6⟩ := reuploadBranch_some _ _ _ _ _ _ _ h
      have hv₁ : s₁.valid = true := by rw [h1]; exact hv
      have hp₁ : s₁.player = some player := by rw [h2]; exact hp
      have hfresh : resetStale s₁ player.frame = s₁ := resetStale_fresh s₁ _ h4 h5
      have him : s₁.image = some img := by rw [h3]; rfl
      rw [loadTextureIfNeeded_some env s₁ player img hv₁ hp₁ hframe
        (by rw [hfresh, getCurrentImage_fst env _ player hv₁ hp₁, him]), hfresh, if_neg,
        Sequence.setImage_self s₁ _ him]
      rw [h5, h6]
      have := ImRect.add_containsInclusive
        (resetStale s player.frame).loadedRect (uploadArea env img.w img.h)
      simp [this]
    · obtain ⟨rfl, -⟩ := Prod.mk.inj (Option.some.inj h)
      have hv₁ : ((resetStale s player.frame).setImage (some img)).valid = true := hv
      have hp₁ : ((resetStale s player.frame).setImage (some img)).player = some player := hp
      have hrs := resetStale_setImage_resetStale s player.frame (some img)
      have hload : (getCurrentImage env
          (resetStale ((resetStale s player.frame).setImage (some img)) player.frame)).1 =
          some img := by
        rw [hrs]
        have hv₂ : ((resetStale s player.frame).setImage
          (if s.loadedFrame ≠ player.frame ∨ s.force_reupload = true then none
            else some img)).valid = true := hv
        have hp₂ : ((resetStale s player.frame).setImage
          (if s.loadedFrame ≠ player.frame ∨ s.force_reupload = true then none
            else some img)).player = some player := hp
        rw [getCurrentImage_fst env _ player hv₂ hp₂, Sequence.setImage_image]
        by_cases hst : s.loadedFrame ≠ player.frame ∨ s.force_reupload = true
        · rw [if_pos hst]
          rw [resetStale_image s _ hst] at hi
          exact hi
        · rw [if_neg hst]
      rw [loadTextureIfNeeded_some env _ player img hv₁ hp₁ hframe hload, hrs]
      simp only [Sequence.setImage_force, Sequence.setImage_loadedRect,
        Sequence.setImage_setImage]
      rw [if_neg hcond]

/-- Scenario A: the first call uploads `(0,0)-(53,53)`, the second call with the same viewport and
frame issues nothing and changes nothing. -/
theorem noop_idempotence_witness :
    loadTextureIfNeeded (envA 10 10 20 20) seqA =
        some (seqA₁, [Call.create 100 100 GL_UNSIGNED_BYTE GL_RED,
                      Call.texSubImage2D 1 0 0 53 53 GL_RED GL_UNSIGNED_BYTE 100 0]) ∧
      loadTextureIfNeeded (envA 10 10 20 20) seqA₁ = some (seqA₁, []) :=
  ⟨by decide!, noop_idempotence (envA 10 10 20 20) seqA seqA₁
    [Call.create 100 100 GL_UNSIGNED_BYTE GL_RED,
     Call.texSubImage2D 1 0 0 53 53 GL_RED GL_UNSIGNED_BYTE 100 0] (by decide!)⟩

theorem truncToInt_range (x : ℚ) :
    -2147483648 ≤ truncToInt x ∧ truncToInt x ≤ 2147483647 := by
  unfold truncToInt
  simp only
  split_ifs with h1 h2 h3
  · exact h2
  · exact ⟨le_refl _, by norm_num⟩
  · exact h3
  · exact ⟨le_refl _, by norm_num⟩

theorem truncToInt_nonneg (x : ℚ) (h : 0 ≤ x) (hx : x < 2147483648) :
    0 ≤ truncToInt x ∧ (truncToInt x : ℚ) ≤ x := by
  have hf0 : 0 ≤ ⌊x⌋ := Int.floor_nonneg.mpr h
  have hf1 : ⌊x⌋ < 2147483648 := Int.floor_lt.mpr (by exact_mod_cast hx)
  have ht : truncToInt x = ⌊x⌋ := by
    unfold truncToInt
    simp only [if_pos h]
    rw [if_pos ⟨by omega, by omega⟩]
  rw [ht]
  exact ⟨hf0, Int.floor_le x⟩

theorem truncToInt_intCast (n : Int) (h1 : -2147483648 ≤ n) (h2 : n ≤ 2147483647) :
    truncToInt (n : ℚ) = n := by
  unfold truncToInt
  split_ifs <;> simp_all

theorem wrapInt_eq (n : Int) (h1 : -2147483648 ≤ n) (h2 : n < 2147483648) : wrapInt n = n := by
  unfold wrapInt
  omega

theorem wrapSize_eq (n : Int) (h1 : -9223372036854775808 ≤ n) (h2 : n < 9223372036854775808) :
    wrapSize n = n := by
  unfold wrapSize
  omega

theorem wrapInt_range (n : Int) : -2147483648 ≤ wrapInt n ∧ wrapInt n < 2147483648 := by
  unfold wrapInt
  omega

theorem FLT_MAX_pos : (32 : ℚ) < FLT_MAX := by
  unfold FLT_MAX; norm_num

/-- The final `Clip` bounds `area`: `Min` is not below `(0, 0)` and `Max` not above `(w, h)`. -/
theorem uploadArea_bounds (env : Env) (w h : Int) :
    0 ≤ (uploadArea env w h).Min.x ∧ 0 ≤ (uploadArea env w h).Min.y ∧
      (uploadArea env w h).Max.x ≤ w ∧ (uploadArea env w h).Max.y ≤ h := by
  unfold uploadArea
  simp only [ImRect.Clip, ImRect.mk4, ImRect.Expand]
  refine ⟨?_, ?_, ?_, ?_⟩ <;> split_ifs <;> linarith

/-- For non-negative image dimensions the coordinates of `area` stay strictly inside the range of
`float`: `Floor` leaves values in the range of `int`. -/
theorem uploadArea_finite (env : Env) (w h : Int) (hw : 0 ≤ w) (hh : 0 ≤ h) :
    (uploadArea env w h).Min.x < FLT_MAX ∧ (uploadArea env w h).Min.y < FLT_MAX ∧
      -FLT_MAX < (uploadArea env w h).Max.x ∧ -FLT_MAX < (uploadArea env w h).Max.y := by
  have hF : (2147483680 : ℚ) < FLT_MAX := by unfold FLT_MAX; norm_num
  have rng : ∀ x : ℚ, (-2147483648 : ℚ) ≤ truncToInt x ∧ (truncToInt x : ℚ) ≤ 2147483647 := by
    intro x
    obtain ⟨r1, r2⟩ := truncToInt_range x
    exact ⟨by exact_mod_cast r1, by exact_mod_cast r2⟩
  obtain ⟨a1, a2⟩ := rng (viewRect env w h).Min.x
  obtain ⟨b1, b2⟩ := rng (viewRect env w h).Min.y
  obtain ⟨c1, c2⟩ := rng (viewRect env w h).Max.x
  obtain ⟨d1, d2⟩ := rng (viewRect env w h).Max.y
  have hw' : (0 : ℚ) ≤ w := by exact_mod_cast hw
  have hh' : (0 : ℚ) ≤ h := by exact_mod_cast hh
  unfold uploadArea
  simp only [ImRect.Clip, ImRect.mk4, ImRect.Expand, ImRect.Floor]
  refine ⟨?_, ?_, ?_, ?_⟩ <;> split_ifs <;> linarith

theorem ImRect.new_add (a : ImRect) (h1 : a.Min.x < FLT_MAX) (h2 : a.Min.y < FLT_MAX)
    (h3 : -FLT_MAX < a.Max.x) (h4 : -FLT_MAX < a.Max.y) : ImRect.new.Add a = a := by
  unfold ImRect.Add ImRect.new
  simp only [gt_iff_lt, h1, h2, h3, h4, if_true]

theorem ImRect.new_not_contains (a : ImRect) (h1 : a.Min.x < FLT_MAX) :
    ¬ ImRect.new.ContainsInclusive a := by
  rintro ⟨c1, -, -, -⟩
  unfold ImRect.new at c1
  simp only at c1
  linarith

theorem reuploadBranch_transfers (env : Env) (s s' : Sequence) (frame : Int) (img : Image)
    (area : ImRect) (calls : List Call)
    (h : reuploadBranch env s frame img area = some (s', calls)) :
    (area.GetWidth > 0 ∧ area.GetHeight > 0 →
        ∃ c, transfers calls = [c] ∧ c.isTransferOf area) ∧
      (¬ (area.GetWidth > 0 ∧ area.GetHeight > 0) → transfers calls = []) := by
  unfold reuploadBranch at h
  cases ht : glTypeOf img.type with
  | none => rw [ht] at h; cases h
  | some t =>
    cases hf : glFormatOf img.format with
    | none => rw [ht, hf] at h; cases h
    | some f =>
      cases he : elsizeOf img.type with
      | none => rw [ht, hf, he] at h; cases h
      | some e =>
        rw [ht, hf, he] at h
        obtain ⟨-, rfl⟩ := Prod.mk.inj (Option.some.inj h)
        constructor
        · intro hpos
          rw [if_pos hpos, transfers_create_append]
          exact ⟨_, rfl, ⟨rfl, rfl, rfl, rfl⟩⟩
        · intro hneg
          rw [if_neg hneg, transfers_create_append]
          rfl

/-- C5 (frame-change reset), as the code has it.  When the frame index differs from `loadedFrame`
or `force_reupload` is set, and the pixel buffer is available, the previous `loadedRect` plays no
part: the planner returns with `loadedRect` equal to the new `area` only, `loadedFrame` the
current frame index and `force_reupload` false, and it issues exactly one transfer, of `area`,
whenever `area` has positive width and height, and no transfer when it has not. -/
theorem frame_change_reset (env : Env) (s : Sequence) (player : Player) (img : Image)
    (hvalid : s.valid = true) (hplayer : s.player = some player) (hframe : 0 < player.frame)
    (hstale : s.loadedFrame ≠ player.frame ∨ s.force_reupload = true)
    (himg : env.load player.frame = some img) (hsupp : img.Supported)
    (hw : 0 ≤ img.w) (hh : 0 ≤ img.h) (hfin : (viewRect env img.w img.h).IsFinite) :
    ∃ s' calls, loadTextureIfNeeded env s = some (s', calls) ∧
      s'.loadedRect = uploadArea env img.w img.h ∧ s'.loadedFrame = player.frame ∧
      s'.force_reupload = false ∧
      ((uploadArea env img.w img.h).GetWidth > 0 ∧ (uploadArea env img.w img.h).GetHeight > 0 →
        ∃ c, transfers calls = [c] ∧ c.isTransferOf (uploadArea env img.w img.h)) ∧
      (¬ ((uploadArea env img.w img.h).GetWidth > 0 ∧
          (uploadArea env img.w img.h).GetHeight > 0) → transfers calls = []) := by
  have hv := resetStale_valid s player.frame
  have hp := resetStale_player s player.frame
  rw [hvalid] at hv
  rw [hplayer] at hp
  have hi : (getCurrentImage env (resetStale s player.frame)).1 = some img := by
    rw [getCurrentImage_fst env _ player hv hp, resetStale_image s _ hstale]
    exact himg
  have _ := hfin
  obtain ⟨f1, f2, f3, f4⟩ := uploadArea_finite env img.w img.h hw hh
  rw [loadTextureIfNeeded_some env s player img hvalid hplayer hframe hi,
    resetStale_loadedRect s _ hstale, if_pos (Or.inr (ImRect.new_not_contains _ f1))]
  obtain ⟨s', calls, hres, h1, h2, h3, -, -, -, hpos, hneg⟩ :=
    transfers_reuploadBranch env ((resetStale s player.frame).setImage (some img)) player.frame
      img (uploadArea env img.w img.h) hsupp
  refine ⟨s', calls, hres, ?_, h1, h3, ?_, hneg⟩
  · rw [h2, Sequence.setImage_loadedRect, resetStale_loadedRect s _ hstale]
    exact ImRect.new_add _ f1 f2 f3 f4
  · intro hpos'
    obtain ⟨c, hc1, hc2, -⟩ := hpos hpos'
    exact ⟨c, hc1, hc2⟩

/-- Scenario A moved on to frame 2 with the visible region `(10,10)-(20,20)`: the resident region
of frame 1 is dropped and the area of frame 2 is transferred. -/
theorem frame_change_reset_witness :
    ∃ s' calls, loadTextureIfNeeded (envA 10 10 20 20) seqA₂ = some (s', calls) ∧
      s'.loadedRect = uploadArea (envA 10 10 20 20) imgA.w imgA.h ∧ s'.loadedFrame = 2 ∧
      s'.force_reupload = false ∧
      ((uploadArea (envA 10 10 20 20) imgA.w imgA.h).GetWidth > 0 ∧
        (uploadArea (envA 10 10 20 20) imgA.w imgA.h).GetHeight > 0 →
        ∃ c, transfers calls = [c] ∧
          c.isTransferOf (uploadArea (envA 10 10 20 20) imgA.w imgA.h)) ∧
      (¬ ((uploadArea (envA 10 10 20 20) imgA.w imgA.h).GetWidth > 0 ∧
          (uploadArea (envA 10 10 20 20) imgA.w imgA.h).GetHeight > 0) → transfers calls = []) :=
  frame_change_reset (envA 10 10 20 20) seqA₂ ⟨2⟩ imgA rfl rfl (by decide)
    (Or.inl (by decide)) rfl (by decide) (by decide) (by decide) (by decide!)

/-- C5, counterexample to the claim as stated: the frame index changed (2 against the loaded 1),
the pixel buffer is available, and the visible region `(300,300)-(400,400)` lies outside the
100x100 image; the planner issues no call at all, so no transfer of the current area. -/
theorem frame_change_no_transfer :
    seqA₂.loadedFrame ≠ 2 ∧ (envA 300 300 400 400).load 2 = some imgA ∧
      loadTextureIfNeeded (envA 300 300 400 400) seqA₂ =
        some ({ seqA₂ with loadedFrame := 2, loadedRect := ImRect.mk4 268 268 100 100 }, []) := by
  decide!

/-- C6 (abort), as the code has it.  When the pixel buffer cannot be obtained the planner returns
having issued no call; `loadedFrame`, `force_reupload` and the texture keep their values, while
`loadedRect` keeps its value only if the frame index equals `loadedFrame` and `force_reupload` is
clear, and is otherwise reset to `ImRect()` before the buffer is asked for. -/
theorem abort_without_transfer (env : Env) (s : Sequence) (player : Player)
    (hvalid : s.valid = true) (hplayer : s.player = some player) (hframe : 0 < player.frame)
    (himg : (getCurrentImage env (resetStale s player.frame)).1 = none) :
    ∃ s', loadTextureIfNeeded env s = some (s', []) ∧
      s'.loadedFrame = s.loadedFrame ∧ s'.force_reupload = s.force_reupload ∧
      s'.texture = s.texture ∧
      s'.loadedRect =
        (if s.loadedFrame ≠ player.frame ∨ s.force_reupload = true then ImRect.new
          else s.loadedRect) := by
  refine ⟨_, loadTextureIfNeeded_none env s player hvalid hplayer hframe himg, ?_, ?_, ?_, ?_⟩
  · rw [Sequence.setImage_loadedFrame, resetStale_loadedFrame]
  · rw [Sequence.setImage_force, resetStale_force]
  · rw [Sequence.setImage_texture, resetStale_texture]
  · rw [Sequence.setImage_loadedRect]
    split_ifs with hst
    · exact resetStale_loadedRect s _ hst
    · unfold resetStale
      rw [if_neg hst]

/-- Frame 2 cannot be loaded while frame 1 is resident: no call is issued, `loadedFrame` stays 1
and `loadedRect` is `ImRect()`. -/
theorem abort_without_transfer_witness :
    ∃ s', loadTextureIfNeeded (envMissing 10 10 20 20) seqA₂ = some (s', []) ∧
      s'.loadedFrame = 1 ∧ s'.force_reupload = false ∧ s'.texture = seqA₂.texture ∧
      s'.loadedRect = ImRect.new :=
  abort_without_transfer (envMissing 10 10 20 20) seqA₂ ⟨2⟩ rfl rfl (by decide) (by decide!)

/-- C6, counterexample to the claim as stated: frame 2 is asked for while frame 1 is loaded with
`(0,0)-(53,53)` resident, and no image can be obtained; the planner returns with `loadedRect`
reset to `ImRect()`, not with its value before the call. -/
theorem abort_resets_loadedRect :
    (getCurrentImage (envMissing 10 10 20 20) (resetStale seqA₂ 2)).1 = none ∧
      seqA₂.loadedRect = ImRect.mk4 0 0 53 53 ∧
      (loadTextureIfNeeded (envMissing 10 10 20 20) seqA₂).map (fun r => r.1.loadedRect) =
        some ImRect.new ∧
      ImRect.new ≠ seqA₂.loadedRect := by
  decide!

theorem uploadArea_eq (env : Env) (w h : Int) :
    uploadArea env w h =
      (((ImRect.mk4
            (floatMul (env.compute ⟨floatOfInt w, floatOfInt h⟩).1.x (floatOfInt w))
            (floatMul (env.compute ⟨floatOfInt w, floatOfInt h⟩).1.y (floatOfInt h))
            (floatAdd (floatMul (env.compute ⟨floatOfInt w, floatOfInt h⟩).2.x (floatOfInt w)) 1)
            (floatAdd (floatMul (env.compute ⟨floatOfInt w, floatOfInt h⟩).2.y (floatOfInt h)) 1)
          ).Floor.Clip
        (ImRect.mk4 0 0 w h)).Expand 32).Clip (ImRect.mk4 0 0 w h) := rfl

theorem loadTextureIfNeeded_transfers (env : Env) (s s' : Sequence) (calls : List Call)
    (h : loadTextureIfNeeded env s = some (s', calls)) :
    transfers calls = [] ∨
      ∃ img c, s'.image = some img ∧ transfers calls = [c] ∧
        c.isTransferOf (uploadArea env img.w img.h) ∧
        (uploadArea env img.w img.h).GetWidth > 0 ∧ (uploadArea env img.w img.h).GetHeight > 0 := by
  by_cases hvp : s.valid = true ∧ ∃ player, s.player = some player
  swap
  · have hs : loadTextureIfNeeded env s = some (s, []) := by
      unfold loadTextureIfNeeded
      split
      · rename_i p hv hp
        exact absurd ⟨hv, p, hp⟩ hvp
      · rfl
    rw [hs] at h
    obtain ⟨-, rfl⟩ := Prod.mk.inj (Option.some.inj h)
    exact Or.inl rfl
  obtain ⟨hvalid, player, hplayer⟩ := hvp
  by_cases hframe : 0 < player.frame
  swap
  · unfold loadTextureIfNeeded at h
    rw [hvalid, hplayer] at h
    simp [hframe] at h
  cases hi : (getCurrentImage env (resetStale s player.frame)).1 with
  | none =>
    rw [loadTextureIfNeeded_none env s player hvalid hplayer hframe hi] at h
    obtain ⟨-, rfl⟩ := Prod.mk.inj (Option.some.inj h)
    exact Or.inl rfl
  | some img =>
    rw [loadTextureIfNeeded_some env s player img hvalid hplayer hframe hi] at h
    split_ifs at h with hcond
    · obtain ⟨hpos, hneg⟩ := reuploadBranch_transfers _ _ _ _ _ _ _ h
      obtain ⟨-, -, h3, -, -, -⟩ := reuploadBranch_some _ _ _ _ _ _ _ h
      by_cases hp : (uploadArea env img.w img.h).GetWidth > 0 ∧
          (uploadArea env img.w img.h).GetHeight > 0
      · obtain ⟨c, hc1, hc2⟩ := hpos hp
        exact Or.inr ⟨img, c, h3, hc1, hc2, hp⟩
      · exact Or.inl (hneg hp)
    · obtain ⟨-, rfl⟩ := Prod.mk.inj (Option.some.inj h)
      exact Or.inl rfl

/-- C7 (transfer rectangle), as the code has it.  Every planner call issues at most one transfer.
For an image of at most `2^24` pixels a side (where a float holds every pixel coordinate) its
rectangle is the rectangle from `(u.x*w, u.y*h)` to `(v.x*w + 1, v.y*h + 1)`, the visible region
with one pixel added to its maximum corner, each product and sum being a float operation rounded
to binary32, then floored, clipped to the image bounds, expanded by 32 and clipped again.  In
Scenario A (100x100 single-channel byte image, nothing resident, visible region
`(10,10)-(20,20)`) the first call issues exactly one transfer, of the rectangle `(0,0)-(53,53)`,
and a following call on the same frame with visible region `(15,15)-(18,18)` issues no transfer.
On a 1000x1000 image with `u = 0.29f` and `v = 0.3f` the products round to 290 and 300, and the
transfer is `(258,258)-(333,333)`, 75 x 75. -/
theorem transfer_rectangle (env : Env) (s s' : Sequence) (calls : List Call)
    (h : loadTextureIfNeeded env s = some (s', calls)) :
    (transfers calls = [] ∨
      ∃ img c, s'.image = some img ∧ transfers calls = [c] ∧
        (img.w ≤ 16777216 → img.h ≤ 16777216 →
          c.isTransferOf
            ((((ImRect.mk4
                  (floatMul (env.compute ⟨floatOfInt img.w, floatOfInt img.h⟩).1.x
                    (floatOfInt img.w))
                  (floatMul (env.compute ⟨floatOfInt img.w, floatOfInt img.h⟩).1.y
                    (floatOfInt img.h))
                  (floatAdd (floatMul (env.compute ⟨floatOfInt img.w, floatOfInt img.h⟩).2.x
                    (floatOfInt img.w)) 1)
                  (floatAdd (floatMul (env.compute ⟨floatOfInt img.w, floatOfInt img.h⟩).2.y
                    (floatOfInt img.h)) 1)).Floor.Clip
                (ImRect.mk4 0 0 img.w img.h)).Expand 32).Clip (ImRect.mk4 0 0 img.w img.h)))) ∧
    loadTextureIfNeeded (envA 10 10 20 20) seqA =
      some (seqA₁, [Call.create 100 100 GL_UNSIGNED_BYTE GL_RED,
                    Call.texSubImage2D 1 0 0 53 53 GL_RED GL_UNSIGNED_BYTE 100 0]) ∧
    loadTextureIfNeeded (envA 15 15 18 18) seqA₁ = some (seqA₁, []) ∧
    loadTextureIfNeeded envF (seqK (ImRect.mk4 0 0 43 43)) =
      some (seqK (ImRect.mk4 0 0 333 333),
        [Call.texSubImage2D 1 258 258 75 75 GL_RED GL_UNSIGNED_BYTE 1000 258258]) := by
  refine ⟨?_, by decide!, by decide!, by decide!⟩
  rcases loadTextureIfNeeded_transfers env s s' calls h with h0 | ⟨img, c, h1, h2, h3, -⟩
  · exact Or.inl h0
  · exact Or.inr ⟨img, c, h1, h2, fun _ _ => by rw [← uploadArea_eq]; exact h3⟩

/-- The planner on the 1000x1000 image with the viewport `u = 0.29f`, `v = 0.3f`: the one
transfer is of the rectangle `(258,258)-(333,333)`; with exact products `289.99...` and
`300.00...` it would start at 257. -/
theorem transfer_rectangle_witness :
    (∃ c, transfers [Call.texSubImage2D 1 258 258 75 75 GL_RED GL_UNSIGNED_BYTE 1000 258258] =
        [c] ∧ c.isTransferOf (ImRect.mk4 258 258 333 333)) ∧
      truncToInt (9730785 / 33554432 * 1000) = 289 ∧
      truncToInt (floatMul (9730785 / 33554432) (floatOfInt 1000)) = 290 := by
  refine ⟨?_, by decide!, by decide!⟩
  rcases (transfer_rectangle envF (seqK (ImRect.mk4 0 0 43 43)) (seqK (ImRect.mk4 0 0 333 333))
    [Call.texSubImage2D 1 258 258 75 75 GL_RED GL_UNSIGNED_BYTE 1000 258258]
    (by decide!)).1 with h0 | ⟨img, c, hi, hc, hrect⟩
  · exact absurd h0 (by decide)
  · have himg : imgK = img := Option.some.inj hi
    subst himg
    refine ⟨c, hc, ?_⟩
    have hr := hrect (by decide) (by decide)
    have he : (((ImRect.mk4
        (floatMul (envF.compute ⟨floatOfInt imgK.w, floatOfInt imgK.h⟩).1.x (floatOfInt imgK.w))
        (floatMul (envF.compute ⟨floatOfInt imgK.w, floatOfInt imgK.h⟩).1.y (floatOfInt imgK.h))
        (floatAdd (floatMul (envF.compute ⟨floatOfInt imgK.w, floatOfInt imgK.h⟩).2.x
          (floatOfInt imgK.w)) 1)
        (floatAdd (floatMul (envF.compute ⟨floatOfInt imgK.w, floatOfInt imgK.h⟩).2.y
          (floatOfInt imgK.h)) 1)).Floor.Clip
        (ImRect.mk4 0 0 imgK.w imgK.h)).Expand 32).Clip (ImRect.mk4 0 0 imgK.w imgK.h) =
        ImRect.mk4 258 258 333 333 := by decide!
    rw [he] at hr
    exact hr

/-- C7, counterexample to the claim as stated: in Scenario A the rectangle the claim describes
(the visible region floored, clipped, expanded by 32 and clipped) is `(0,0)-(52,52)`, while the
one transfer that the first call issues has offset `(0,0)` and size 53 x 53, the rectangle
`(0,0)-(53,53)`. -/
theorem transfer_rectangle_not_52 :
    claimedTransferRect (envA 10 10 20 20) 100 100 = ImRect.mk4 0 0 52 52 ∧
      (loadTextureIfNeeded (envA 10 10 20 20) seqA).map (fun r => transfers r.2) =
        some [Call.texSubImage2D 1 0 0 53 53 GL_RED GL_UNSIGNED_BYTE 100 0] ∧
      ¬ (Call.texSubImage2D 1 0 0 53 53 GL_RED GL_UNSIGNED_BYTE 100 0).isTransferOf
          (claimedTransferRect (envA 10 10 20 20) 100 100) := by
  decide!

theorem residentInv_of_new (s : Sequence) (h : s.loadedRect = ImRect.new) : ResidentInv s := by
  have hF := FLT_MAX_pos
  unfold ResidentInv
  rw [h]
  refine ⟨by unfold ImRect.new; simp only; linarith, by unfold ImRect.new; simp only; linarith, ?_⟩
  cases s.image with
  | none => rfl
  | some img => exact ⟨Or.inl rfl, Or.inl rfl⟩

theorem residentInv_setImage_new (s : Sequence) (o : Option Image)
    (h : s.loadedRect = ImRect.new) : ResidentInv (s.setImage o) :=
  residentInv_of_new _ h

theorem residentInv_getCurrentImage (env : Env) (s : Sequence) (h : ResidentInv s) :
    ResidentInv (getCurrentImage env s).2 := by
  unfold getCurrentImage
  split
  · rename_i player hv hp
    cases hi : s.image with
    | none =>
      simp only
      apply residentInv_setImage_new
      have := h.2.2
      rw [hi] at this
      exact this
    | some img => exact h
  · exact h

theorem residentInv_resetStale (s : Sequence) (frame : Int) (h : ResidentInv s) :
    ResidentInv (resetStale s frame) := by
  unfold resetStale
  split_ifs
  · exact residentInv_of_new _ rfl
  · exact h

theorem residentInv_add (s s' : Sequence) (img : Image) (area : ImRect)
    (h : ResidentInv s) (hi : s.image = some img) (hi' : s'.image = some img)
    (hr : s'.loadedRect = s.loadedRect.Add area)
    (ha : 0 ≤ area.Min.x ∧ 0 ≤ area.Min.y ∧ area.Max.x ≤ img.w ∧ area.Max.y ≤ img.h) :
    ResidentInv s' := by
  obtain ⟨h1, h2, h3⟩ := h
  rw [hi] at h3
  obtain ⟨h3, h4⟩ := h3
  obtain ⟨a1, a2, a3, a4⟩ := ha
  unfold ResidentInv
  rw [hi', hr]
  unfold ImRect.Add
  refine ⟨?_, ?_, ?_, ?_⟩
  · simp only; split_ifs <;> assumption
  · simp only; split_ifs <;> assumption
  · simp only; split_ifs
    · exact Or.inr a3
    · exact h3
  · simp only; split_ifs
    · exact Or.inr a4
    · exact h4

theorem residentInv_tick (env : Env) (s s' : Sequence) (calls : List Call)
    (h : ResidentInv s) (hs : loadTextureIfNeeded env s = some (s', calls)) :
    ResidentInv s' := by
  by_cases hvp : s.valid = true ∧ ∃ player, s.player = some player
  swap
  · have hs' : loadTextureIfNeeded env s = some (s, []) := by
      unfold loadTextureIfNeeded
      split
      · rename_i p hv hp
        exact absurd ⟨hv, p, hp⟩ hvp
      · rfl
    rw [hs'] at hs
    obtain ⟨rfl, -⟩ := Prod.mk.inj (Option.some.inj hs)
    exact h
  obtain ⟨hvalid, player, hplayer⟩ := hvp
  by_cases hframe : 0 < player.frame
  swap
  · unfold loadTextureIfNeeded at hs
    rw [hvalid, hplayer] at hs
    simp [hframe] at hs
  have hv := resetStale_valid s player.frame
  have hp := resetStale_player s player.frame
  rw [hvalid] at hv
  rw [hplayer] at hp
  have hr := residentInv_resetStale s player.frame h
  have hg := residentInv_getCurrentImage env _ hr
  rw [getCurrentImage_eq env _ player hv hp] at hg
  cases hi : (getCurrentImage env (resetStale s player.frame)).1 with
  | none =>
    rw [loadTextureIfNeeded_none env s player hvalid hplayer hframe hi] at hs
    obtain ⟨rfl, -⟩ := Prod.mk.inj (Option.some.inj hs)
    rw [hi] at hg
    exact hg
  | some img =>
    rw [hi] at hg
    rw [loadTextureIfNeeded_some env s player img hvalid hplayer hframe hi] at hs
    split_ifs at hs with hcond
    · obtain ⟨-, -, h3, -, -, h6⟩ := reuploadBranch_some _ _ _ _ _ _ _ hs
      exact residentInv_add _ s' img _ hg rfl h3 h6 (uploadArea_bounds env img.w img.h)
    · obtain ⟨rfl, -⟩ := Prod.mk.inj (Option.some.inj hs)
      exact hg

theorem residentInv_reachable (s : Sequence) (h : Reachable s) : ResidentInv s := by
  induction h with
  | init texture => exact residentInv_of_new _ rfl
  | loadFilenames valid _ ih => exact ih
  | setInputs player force _ ih => exact ih
  | getCurrentImage env _ ih => exact residentInv_getCurrentImage env _ ih
  | tick env _ hs ih => exact residentInv_tick env _ _ _ ih hs

theorem ImRect.isEmpty_iff (r : ImRect) : r.IsEmpty ↔ ∀ p, ¬ r.Contains p := by
  unfold ImRect.IsEmpty ImRect.Contains
  constructor
  · rintro (h | h) p ⟨h1, h2, h3, h4⟩ <;> linarith
  · intro h
    by_contra hne
    rw [not_or] at hne
    obtain ⟨hx, hy⟩ := hne
    exact h r.Min ⟨le_refl _, le_refl _, lt_of_not_le hx, lt_of_not_le hy⟩

theorem ImRect.new_isEmpty : ImRect.new.IsEmpty := by
  have hF := FLT_MAX_pos
  unfold ImRect.IsEmpty ImRect.new
  simp only
  left; linarith

theorem ImRect.new_add_isEmpty (a : ImRect) (w h : ℚ) (hw : w ≤ FLT_MAX) (hh : h ≤ FLT_MAX)
    (ha : 0 ≤ a.Min.x ∧ 0 ≤ a.Min.y ∧ a.Max.x ≤ w ∧ a.Max.y ≤ h)
    (hne : ¬ (a.GetWidth > 0 ∧ a.GetHeight > 0)) : (ImRect.new.Add a).IsEmpty := by
  have hF := FLT_MAX_pos
  obtain ⟨a1, a2, a3, a4⟩ := ha
  have hdeg : a.Max.x ≤ a.Min.x ∨ a.Max.y ≤ a.Min.y := by
    unfold ImRect.GetWidth ImRect.GetHeight at hne
    by_contra hc
    rw [not_or] at hc
    exact hne ⟨by linarith [hc.1], by linarith [hc.2]⟩
  unfold ImRect.IsEmpty ImRect.Add ImRect.new
  simp only
  rcases hdeg with hd | hd
  · left; split_ifs <;> linarith
  · right; split_ifs <;> linarith

/-- The part of the resident-region invariant that holds.  In every sequence that arises at run
time, so after every planner invocation, `loadedRect` is empty or is contained (inclusively) in
the bounds `[0,w] x [0,h]` of the current image; and after an invocation that found the frame
index changed and issued no transfer, `loadedRect` has no pixel, for images whose dimensions are
within the range of `float`. -/
theorem resident_region_invariant :
    (∀ s : Sequence, Reachable s →
      s.loadedRect.IsEmpty ∨
        ∃ img, s.image = some img ∧
          (ImRect.mk4 0 0 img.w img.h).ContainsInclusive s.loadedRect) ∧
    (∀ (env : Env) (s s' : Sequence) (calls : List Call) (player : Player),
      s.valid = true → s.player = some player → s.loadedFrame ≠ player.frame →
      (∀ img, env.load player.frame = some img →
        (img.w : ℚ) ≤ FLT_MAX ∧ (img.h : ℚ) ≤ FLT_MAX) →
      loadTextureIfNeeded env s = some (s', calls) → transfers calls = [] →
      s'.loadedRect.IsEmpty) := by
  have hF := FLT_MAX_pos
  constructor
  · intro s hs
    obtain ⟨h1, h2, h3⟩ := residentInv_reachable s hs
    by_cases he : s.loadedRect.IsEmpty
    · exact Or.inl he
    · right
      have he' := he
      unfold ImRect.IsEmpty at he
      rw [not_or] at he
      obtain ⟨ex, ey⟩ := he
      cases hi : s.image with
      | none =>
        rw [hi] at h3
        have h3' : s.loadedRect = ImRect.new := h3
        rw [h3'] at he'
        exact absurd ImRect.new_isEmpty he'
      | some img =>
        rw [hi] at h3
        refine ⟨img, rfl, ?_⟩
        unfold ImRect.ContainsInclusive ImRect.mk4
        simp only
        refine ⟨h1, h2, ?_, ?_⟩
        · rcases h3.1 with h | h
          · exact absurd (by rw [h]; linarith) ex
          · exact h
        · rcases h3.2 with h | h
          · exact absurd (by rw [h]; linarith) ey
          · exact h
  · intro env s s' calls player hvalid hplayer hne hdims hs ht
    have hstale : s.loadedFrame ≠ player.frame ∨ s.force_reupload = true := Or.inl hne
    by_cases hframe : 0 < player.frame
    swap
    · unfold loadTextureIfNeeded at hs
      rw [hvalid, hplayer] at hs
      simp [hframe] at hs
    have hv := resetStale_valid s player.frame
    have hp := resetStale_player s player.frame
    rw [hvalid] at hv
    rw [hplayer] at hp
    cases hi : (getCurrentImage env (resetStale s player.frame)).1 with
    | none =>
      rw [loadTextureIfNeeded_none env s player hvalid hplayer hframe hi] at hs
      obtain ⟨rfl, -⟩ := Prod.mk.inj (Option.some.inj hs)
      rw [Sequence.setImage_loadedRect, resetStale_loadedRect s _ hstale]
      exact ImRect.new_isEmpty
    | some img =>
      have hload : env.load player.frame = some img := by
        rw [getCurrentImage_fst env _ player hv hp, resetStale_image s _ hstale] at hi
        exact hi
      obtain ⟨dw, dh⟩ := hdims img hload
      rw [loadTextureIfNeeded_some env s player img hvalid hplayer hframe hi] at hs
      split_ifs at hs with hcond
      · obtain ⟨hpos, -⟩ := reuploadBranch_transfers _ _ _ _ _ _ _ hs
        obtain ⟨-, -, -, -, -, h6⟩ := reuploadBranch_some _ _ _ _ _ _ _ hs
        rw [h6, Sequence.setImage_loadedRect, resetStale_loadedRect s _ hstale]
        apply ImRect.new_add_isEmpty _ _ _ dw dh (uploadArea_bounds env img.w img.h)
        intro hp'
        obtain ⟨c, hc, -⟩ := hpos hp'
        rw [ht] at hc
        cases hc
      · obtain ⟨rfl, -⟩ := Prod.mk.inj (Option.some.inj hs)
        rw [Sequence.setImage_loadedRect, resetStale_loadedRect s _ hstale]
        exact ImRect.new_isEmpty

/-- Scenario A after its first upload is a run-time sequence whose `loadedRect` lies in the
bounds of the 100x100 image; and a changed frame with the viewport outside the image leaves the
pixel-free rectangle `(268,268)-(100,100)`. -/
theorem resident_region_invariant_witness :
    (ImRect.mk4 0 0 100 100).ContainsInclusive seqA₁.loadedRect ∧
      (ImRect.mk4 268 268 100 100).IsEmpty := by
  have hreach : Reachable seqA₁ :=
    @Reachable.tick seqA seqA₁
      [Call.create 100 100 GL_UNSIGNED_BYTE GL_RED,
       Call.texSubImage2D 1 0 0 53 53 GL_RED GL_UNSIGNED_BYTE 100 0] (envA 10 10 20 20)
      (Reachable.setInputs (some ⟨1⟩) false (Reachable.loadFilenames true
        (Reachable.init noTexture))) (by decide!)
  constructor
  · rcases resident_region_invariant.1 seqA₁ hreach with h | ⟨img, h1, h2⟩
    · exact absurd h (by decide!)
    · cases h1; exact h2
  · exact resident_region_invariant.2 (envA 300 300 400 400) seqA₂
      { seqA₂ with loadedFrame := 2, loadedRect := ImRect.mk4 268 268 100 100 } [] ⟨2⟩
      rfl rfl (by decide) (fun img h => by cases h; decide!) (by decide!) rfl

/-- C10 (resident-region invariant), the code at a failing input.  Scenario A with frame 1
loaded; the player moves to frame 2 while the visible region `(300,300)-(400,400)` lies outside
the 100x100 image.  The planner sees the changed frame, resets `loadedRect` to `ImRect()`, issues
no transfer, and line 173 then adds the degenerate `area` to it: `loadedRect` is left as
`(268,268)-(100,100)`, not as `ImRect()`.  That rectangle is not neutral for `Add`: the next call,
for the visible region `(10,10)-(20,20)`, transfers `(0,0)-(53,53)` and `loadedRect` becomes the
whole image `(0,0)-(100,100)`, where `ImRect()` would have given `(0,0)-(53,53)`; and the call
after it, whose area `(28,28)-(100,100)` is not inside the one rectangle transferred for frame 2,
issues no transfer. -/
theorem resident_region_degenerate :
    seqA₂.loadedFrame ≠ 2 ∧ seqA₂.player = some ⟨2⟩ ∧
    loadTextureIfNeeded (envA 300 300 400 400) seqA₂ = some (seqA₃, []) ∧
    seqA₃.loadedRect = ImRect.mk4 268 268 100 100 ∧ seqA₃.loadedRect ≠ ImRect.new ∧
    loadTextureIfNeeded (envA 10 10 20 20) seqA₃ =
      some (seqA₄, [Call.texSubImage2D 1 0 0 53 53 GL_RED GL_UNSIGNED_BYTE 100 0]) ∧
    seqA₄.loadedRect = ImRect.mk4 0 0 100 100 ∧
    ImRect.new.Add (ImRect.mk4 0 0 53 53) = ImRect.mk4 0 0 53 53 ∧
    uploadArea (envA 60 60 70 70) 100 100 = ImRect.mk4 28 28 100 100 ∧
    ¬ (ImRect.mk4 0 0 53 53).ContainsInclusive (ImRect.mk4 28 28 100 100) ∧
    loadTextureIfNeeded (envA 60 60 70 70) seqA₄ = some (seqA₄, []) := by
  decide!

/-! ## Properties of the tile pool and the tiled texture -/

theorem takeMatching_none (w h : Int) (format : Nat) (l : List Tile) :
    takeMatching w h format l = none ↔
      ∀ u ∈ l, ¬ (u.w = w ∧ u.h = h ∧ u.format = format) := by
  induction l with
  | nil => simp [takeMatching]
  | cons t rest ih =>
    unfold takeMatching
    by_cases hm : t.w = w ∧ t.h = h ∧ t.format = format
    · rw [if_pos hm]
      constructor
      · intro hc; cases hc
      · intro hall
        exact absurd hm (hall t (List.mem_cons_self _ _))
    · rw [if_neg hm]
      cases hr : takeMatching w h format rest with
      | none =>
        constructor
        · intro _ u hu
          rcases List.mem_cons.mp hu with rfl | hu
          · exact hm
          · exact ih.mp hr u hu
        · intro _; rfl
      | some p =>
        constructor
        · intro hc; cases hc
        · intro hall
          rw [ih.mpr (fun u hu => hall u (List.mem_cons_of_mem _ hu))] at hr
          cases hr

theorem takeMatching_some (w h : Int) (format : Nat) (l l' : List Tile) (t : Tile)
    (hr : takeMatching w h format l = some (t, l')) :
    t ∈ l ∧ (t.w = w ∧ t.h = h ∧ t.format = format) ∧ l' = l.erase t ∧
      List.Perm l (t :: l') := by
  induction l generalizing l' with
  | nil => simp [takeMatching] at hr
  | cons u rest ih =>
    unfold takeMatching at hr
    by_cases hm : u.w = w ∧ u.h = h ∧ u.format = format
    · rw [if_pos hm] at hr
      obtain ⟨rfl, rfl⟩ := Prod.mk.inj (Option.some.inj hr)
      exact ⟨List.mem_cons_self _ _, hm, by simp, List.Perm.refl _⟩
    · rw [if_neg hm] at hr
      cases hr' : takeMatching w h format rest with
      | none => rw [hr'] at hr; cases hr
      | some p =>
        obtain ⟨t', rest'⟩ := p
        rw [hr'] at hr
        obtain ⟨rfl, rfl⟩ := Prod.mk.inj (Option.some.inj hr)
        obtain ⟨h1, h2, h3, h4⟩ := ih rest' hr'
        have hne : u ≠ t' := by
          rintro rfl
          exact hm h2
        refine ⟨List.mem_cons_of_mem _ h1, h2, ?_, ?_⟩
        · rw [List.erase_cons_tail (by simpa using hne), h3]
        · exact (List.Perm.cons u h4).trans (List.Perm.swap t' u rest')

/-- C4 (acquire contract of `takeTile`).  The tile returned has the requested `w`, `h` and
`format`.  If the pool holds a tile matching them, the tile returned is a tile of the pool, the
pool afterwards is the old pool with that tile erased, and nothing is generated or initialised.
Otherwise, if the pool is not empty, the tile returned is a tile of the pool (its last one) with
its handle and offset kept and its dimensions and format rewritten, and it is removed from the
pool.  Otherwise the tile has the handle that `glGenTextures` newly returns, and the pool stays
empty. -/
theorem takeTile_contract (d : Driver) (g : Globals) (w h : Int) (format : Nat) :
    ((takeTile d g w h format).1.w = w ∧ (takeTile d g w h format).1.h = h ∧
      (takeTile d g w h format).1.format = format) ∧
    ((∃ u ∈ g.tileCache, u.w = w ∧ u.h = h ∧ u.format = format) →
      (takeTile d g w h format).1 ∈ g.tileCache ∧
      (takeTile d g w h format).2.tileCache = g.tileCache.erase (takeTile d g w h format).1 ∧
      (takeTile d g w h format).2.names = g.names ∧
      (takeTile d g w h format).2.calls = g.calls) ∧
    ((¬ ∃ u ∈ g.tileCache, u.w = w ∧ u.h = h ∧ u.format = format) → g.tileCache ≠ [] →
      ∃ u, g.tileCache = (takeTile d g w h format).2.tileCache ++ [u] ∧
        (takeTile d g w h format).1 = { u with w := w, h := h, format := format } ∧
        (takeTile d g w h format).2.names = g.names ∧
        (takeTile d g w h format).2.calls =
          g.calls ++ [GLCall.texImage2D u.id w h format]) ∧
    (g.tileCache = [] →
      (takeTile d g w h format).1.id = d.genTexture g.names ∧
      (takeTile d g w h format).2.tileCache = [] ∧
      (takeTile d g w h format).2.names = d.genTexture g.names :: g.names ∧
      (takeTile d g w h format).2.calls =
        g.calls ++ [GLCall.genTextures (d.genTexture g.names),
                    GLCall.texImage2D (d.genTexture g.names) w h format]) := by
  refine ⟨?_, ?_, ?_, ?_⟩
  · unfold takeTile
    cases hm : takeMatching w h format g.tileCache with
    | none =>
      cases hl : g.tileCache.getLast? <;> exact ⟨rfl, rfl, rfl⟩
    | some p =>
      obtain ⟨t, cache⟩ := p
      exact (takeMatching_some w h format _ _ _ hm).2.1
  · intro hex
    cases hm : takeMatching w h format g.tileCache with
    | none =>
      obtain ⟨u, hu, hmu⟩ := hex
      exact absurd hmu ((takeMatching_none w h format _).mp hm u hu)
    | some p =>
      obtain ⟨t, cache⟩ := p
      obtain ⟨h1, -, h3, -⟩ := takeMatching_some w h format _ _ _ hm
      unfold takeTile
      rw [hm]
      exact ⟨h1, h3, rfl, rfl⟩
  · intro hnex hne
    have hm : takeMatching w h format g.tileCache = none := by
      rw [takeMatching_none]
      intro u hu hmu
      exact hnex ⟨u, hu, hmu⟩
    have hlast : g.tileCache.getLast? = some (g.tileCache.getLast hne) :=
      List.getLast?_eq_getLast _ hne
    refine ⟨g.tileCache.getLast hne, ?_, ?_, ?_, ?_⟩ <;> unfold takeTile <;> rw [hm] <;>
      simp only [hlast, initTile]
    exact (List.dropLast_append_getLast hne).symm
  · intro hempty
    have hm : takeMatching w h format g.tileCache = none := by
      rw [hempty]; rfl
    have hlast : g.tileCache.getLast? = none := by rw [hempty]; rfl
    refine ⟨?_, ?_, ?_, ?_⟩ <;> unfold takeTile <;> rw [hm] <;> simp only [hlast, initTile]
    · exact hempty
    · simp

theorem takeTile_dims (d : Driver) (g : Globals) (w h : Int) (format : Nat) :
    (takeTile d g w h format).1.w = w ∧ (takeTile d g w h format).1.h = h := by
  unfold takeTile
  cases hm : takeMatching w h format g.tileCache with
  | none =>
    cases hl : g.tileCache.getLast? <;> exact ⟨rfl, rfl⟩
  | some p =>
    obtain ⟨t, cache⟩ := p
    have := (takeMatching_some w h format _ _ _ hm).2.1
    exact ⟨this.1, this.2.1⟩

theorem takeTile_ts (d : Driver) (g : Globals) (w h : Int) (format : Nat) :
    (takeTile d g w h format).2.ts = g.ts := by
  unfold takeTile
  cases hm : takeMatching w h format g.tileCache with
  | none => cases hl : g.tileCache.getLast? <;> rfl
  | some p => rfl

/-- With `ts ≥ 1` the inner loop of `create` finishes within `w - x` iterations. -/
theorem createRow_returns (d : Driver) (ts w h : Int) (format : Nat) (y : Int) (hts : 1 ≤ ts)
    (fuel : Nat) (x : Int) (tiles : List Tile) (g : Globals) (hfuel : (w - x).toNat ≤ fuel) :
    ∃ r, createRow d ts w h format y fuel x tiles g = some r := by
  induction fuel generalizing x tiles g with
  | zero =>
    unfold createRow
    rw [if_neg (by omega)]
    exact ⟨_, rfl⟩
  | succ n ih =>
    unfold createRow
    by_cases hx : x < w
    · rw [if_pos hx]
      exact ih _ _ _ (by omega)
    · rw [if_neg hx]
      exact ⟨_, rfl⟩

/-- The tiles that the inner loop of `create` appends, started at `x` in the row at `y`: they lie
in `[x, w)`, in order and without gaps, each at most `ts` wide. -/
theorem createRow_spec (d : Driver) (ts w h : Int) (format : Nat) (y : Int) (hts : 1 ≤ ts)
    (fuel : Nat) (x : Int) (tiles tiles' : List Tile) (g g' : Globals)
    (hr : createRow d ts w h format y fuel x tiles g = some (tiles', g')) :
    ∃ L, tiles' = tiles ++ L ∧
      (∀ t ∈ L, t.y = y ∧ t.h = min ts (h - y) ∧ x ≤ t.x ∧ t.x + t.w ≤ w ∧ 1 ≤ t.w ∧
        t.w ≤ ts) ∧
      L.Pairwise (fun t u => t.x + t.w ≤ u.x) ∧
      (∀ px, x ≤ px → px < w → ∃ t ∈ L, t.x ≤ px ∧ px < t.x + t.w) := by
  induction fuel generalizing x tiles g with
  | zero =>
    unfold createRow at hr
    by_cases hx : x < w
    · rw [if_pos hx] at hr; cases hr
    · rw [if_neg hx] at hr
      obtain ⟨rfl, -⟩ := Prod.mk.inj (Option.some.inj hr)
      exact ⟨[], by simp, by simp, List.Pairwise.nil, fun px h1 h2 => absurd (by omega) hx⟩
  | succ n ih =>
    unfold createRow at hr
    by_cases hx : x < w
    · rw [if_pos hx] at hr
      obtain ⟨L, hL, h1, h2, h3⟩ := ih _ _ _ hr
      obtain ⟨dw, dh⟩ := takeTile_dims d g (min ts (w - x)) (min ts (h - y)) format
      refine ⟨_ :: L, by rw [hL, List.append_assoc]; rfl, ?_, ?_, ?_⟩
      · intro t ht
        rcases List.mem_cons.mp ht with rfl | ht
        · refine ⟨rfl, dh, le_refl _, ?_, ?_, ?_⟩
          · show x + (takeTile d g _ _ format).1.w ≤ w
            rw [dw]; omega
          · show 1 ≤ (takeTile d g _ _ format).1.w
            rw [dw]; omega
          · show (takeTile d g _ _ format).1.w ≤ ts
            rw [dw]; omega
        · obtain ⟨a1, a2, a3, a4, a5, a6⟩ := h1 t ht
          exact ⟨a1, a2, by omega, a4, a5, a6⟩
      · refine List.Pairwise.cons ?_ h2
        intro u hu
        obtain ⟨-, -, a3, -, -, -⟩ := h1 u hu
        show x + (takeTile d g _ _ format).1.w ≤ u.x
        rw [dw]; omega
      · intro px p1 p2
        by_cases hp : px < x + ts
        · refine ⟨_, List.mem_cons_self _ _, le_of_eq rfl |>.trans p1, ?_⟩
          show px < x + (takeTile d g _ _ format).1.w
          rw [dw]; omega
        · obtain ⟨t, ht, c1, c2⟩ := h3 px (by omega) p2
          exact ⟨t, List.mem_cons_of_mem _ ht, c1, c2⟩
    · rw [if_neg hx] at hr
      obtain ⟨rfl, -⟩ := Prod.mk.inj (Option.some.inj hr)
      exact ⟨[], by simp, by simp, List.Pairwise.nil, fun px h1 h2 => absurd (by omega) hx⟩

/-- With `ts ≥ 1` the outer loop of `create` finishes within `h - y` iterations, each row within
`w` iterations. -/
theorem createRows_returns (d : Driver) (ts w h : Int) (format : Nat) (hts : 1 ≤ ts)
    (rowFuel : Nat) (hrow : w.toNat ≤ rowFuel) (fuel : Nat) (y : Int) (tiles : List Tile)
    (g : Globals) (hfuel : (h - y).toNat ≤ fuel) :
    ∃ r, createRows d ts w h format rowFuel fuel y tiles g = some r := by
  induction fuel generalizing y tiles g with
  | zero =>
    unfold createRows
    rw [if_neg (by omega)]
    exact ⟨_, rfl⟩
  | succ n ih =>
    unfold createRows
    by_cases hy : y < h
    · rw [if_pos hy]
      obtain ⟨⟨tiles₁, g₁⟩, hrw⟩ :=
        createRow_returns d ts w h format y hts rowFuel 0 tiles g (by simpa using hrow)
      rw [hrw]
      exact ih _ _ _ (by omega)
    · rw [if_neg hy]
      exact ⟨_, rfl⟩

/-- The tiles that the outer loop of `create` appends, started at the row `y`: they lie in
`[0, w) x [y, h)`, pairwise separated, and cover that rectangle. -/
theorem createRows_spec (d : Driver) (ts w h : Int) (format : Nat) (hts : 1 ≤ ts)
    (rowFuel fuel : Nat) (y : Int) (tiles tiles' : List Tile) (g g' : Globals)
    (hr : createRows d ts w h format rowFuel fuel y tiles g = some (tiles', g')) :
    ∃ L, tiles' = tiles ++ L ∧
      (∀ t ∈ L, y ≤ t.y ∧ t.y + t.h ≤ h ∧ 1 ≤ t.h ∧ t.h ≤ ts ∧ 0 ≤ t.x ∧ t.x + t.w ≤ w ∧
        1 ≤ t.w ∧ t.w ≤ ts) ∧
      L.Pairwise Tile.separated ∧
      (∀ px py, 0 ≤ px → px < w → y ≤ py → py < h → ∃ t ∈ L, t.covers px py) := by
  induction fuel generalizing y tiles g with
  | zero =>
    unfold createRows at hr
    by_cases hy : y < h
    · rw [if_pos hy] at hr; cases hr
    · rw [if_neg hy] at hr
      obtain ⟨rfl, -⟩ := Prod.mk.inj (Option.some.inj hr)
      exact ⟨[], by simp, by simp, List.Pairwise.nil,
        fun px py _ _ h1 h2 => absurd (by omega) hy⟩
  | succ n ih =>
    unfold createRows at hr
    by_cases hy : y < h
    · rw [if_pos hy] at hr
      cases hrow : createRow d ts w h format y rowFuel 0 tiles g with
      | none => rw [hrow] at hr; cases hr
      | some p =>
        obtain ⟨tiles₁, g₁⟩ := p
        rw [hrow] at hr
        obtain ⟨R, hR, r1, r2, r3⟩ := createRow_spec d ts w h format y hts _ _ _ _ _ _ hrow
        obtain ⟨L, hL, l1, l2, l3⟩ := ih _ _ _ hr
        refine ⟨R ++ L, by rw [hL, hR, List.append_assoc], ?_, ?_, ?_⟩
        · intro t ht
          rcases List.mem_append.mp ht with ht | ht
          · obtain ⟨a1, a2, a3, a4, a5, a6⟩ := r1 t ht
            exact ⟨by omega, by omega, by omega, by omega, a3, a4, a5, a6⟩
          · obtain ⟨a1, a2, a3, a4, a5, a6, a7, a8⟩ := l1 t ht
            exact ⟨by omega, a2, a3, a4, a5, a6, a7, a8⟩
        · rw [List.pairwise_append]
          refine ⟨r2.imp (fun hx => Or.inl hx), l2, ?_⟩
          intro t ht u hu
          obtain ⟨a1, a2, -⟩ := r1 t ht
          obtain ⟨b1, -⟩ := l1 u hu
          right; right; left
          omega
        · intro px py p1 p2 p3 p4
          by_cases hp : py < y + ts
          · obtain ⟨t, ht, c1, c2⟩ := r3 px p1 p2
            obtain ⟨a1, a2, -⟩ := r1 t ht
            exact ⟨t, List.mem_append_left _ ht, c1, c2, by omega, by omega⟩
          · obtain ⟨t, ht, hc⟩ := l3 px py p1 p2 (by omega) p4
            exact ⟨t, List.mem_append_right _ ht, hc⟩
    · rw [if_neg hy] at hr
      obtain ⟨rfl, -⟩ := Prod.mk.inj (Option.some.inj hr)
      exact ⟨[], by simp, by simp, List.Pairwise.nil,
        fun px py _ _ h1 h2 => absurd (by omega) hy⟩

theorem foldl_giveTile (tiles : List Tile) (g : Globals) :
    tiles.foldl giveTile g = { g with tileCache := g.tileCache ++ tiles } := by
  induction tiles generalizing g with
  | nil => simp
  | cons t rest ih =>
    rw [List.foldl_cons, ih]
    simp [giveTile]

theorem create_eq (d : Driver) (fuel : Nat) (self : Texture) (g : Globals) (w h : Int)
    (format : Nat) :
    self.create d fuel g w h format =
      (createRows d (queryTs d (self.tiles.foldl giveTile g)).ts w h format fuel fuel 0 []
        (queryTs d (self.tiles.foldl giveTile g))).map
        fun r => ({ tiles := r.1, size := ⟨w, h⟩, format := format }, r.2) := by
  unfold Texture.create
  simp only
  cases createRows d (queryTs d (self.tiles.foldl giveTile g)).ts w h format fuel fuel 0 []
      (queryTs d (self.tiles.foldl giveTile g)) with
  | none => rfl
  | some p => rfl

theorem queryTs_foldl_giveTile (d : Driver) (tiles : List Tile) (g : Globals) :
    (queryTs d (tiles.foldl giveTile g)).ts = (queryTs d g).ts := by
  rw [foldl_giveTile]
  unfold queryTs
  simp only
  split_ifs <;> rfl

theorem Tile.separated_not_overlap (t u : Tile) (h : t.separated u) :
    ¬ ∃ px py, t.covers px py ∧ u.covers px py := by
  rintro ⟨px, py, ⟨a1, a2, a3, a4⟩, ⟨b1, b2, b3, b4⟩⟩
  rcases h with h | h | h | h <;> omega

/-- C3 (partition invariant of `Texture::create`).  For every `w`, `h` and format and every tile
limit `ts ≥ 1` (the static `ts` after the query of lines 108-113), `create(w, h, format)`
returns (given fuel for `w` and `h` loop iterations), and afterwards no two tiles have a pixel
in common, a pixel lies in some tile exactly when it lies in `[0,w) x [0,h)`, and every tile
has `1 ≤ t.w ≤ ts` and `1 ≤ t.h ≤ ts`. -/
theorem create_partition (d : Driver) (self : Texture) (g : Globals) (w h : Int) (format : Nat)
    (fuel : Nat) (hts : 1 ≤ (queryTs d g).ts) (hfw : w.toNat ≤ fuel) (hfh : h.toNat ≤ fuel) :
    ∃ tex g', self.create d fuel g w h format = some (tex, g') ∧
      tex.tiles.Pairwise (fun t u => ¬ ∃ px py, t.covers px py ∧ u.covers px py) ∧
      (∀ px py, (∃ t ∈ tex.tiles, t.covers px py) ↔ (0 ≤ px ∧ px < w ∧ 0 ≤ py ∧ py < h)) ∧
      (∀ t ∈ tex.tiles, 1 ≤ t.w ∧ t.w ≤ (queryTs d g).ts ∧ 1 ≤ t.h ∧ t.h ≤ (queryTs d g).ts) := by
  have hq : (queryTs d (self.tiles.foldl giveTile g)).ts = (queryTs d g).ts := by
    rw [foldl_giveTile]
    unfold queryTs
    simp only
    split_ifs <;> rfl
  rw [← hq] at hts ⊢
  obtain ⟨⟨tiles, g'⟩, hres⟩ := createRows_returns d _ w h format hts fuel hfw fuel 0 []
    (queryTs d (self.tiles.foldl giveTile g)) (by simpa using hfh)
  obtain ⟨L, hL, l1, l2, l3⟩ := createRows_spec d _ w h format hts _ _ _ _ _ _ _ hres
  rw [List.nil_append] at hL
  subst hL
  refine ⟨{ tiles := tiles, size := ⟨w, h⟩, format := format }, g', ?_, ?_, ?_, ?_⟩
  · unfold Texture.create
    simp only
    rw [hres]
  · exact l2.imp (fun hs => Tile.separated_not_overlap _ _ hs)
  · intro px py
    constructor
    · rintro ⟨t, ht, c1, c2, c3, c4⟩
      obtain ⟨a1, a2, a3, a4, a5, a6, a7, a8⟩ := l1 t ht
      exact ⟨by omega, by omega, by omega, by omega⟩
    · rintro ⟨p1, p2, p3, p4⟩
      exact l3 px py p1 p2 p3 p4
  · intro t ht
    obtain ⟨a1, a2, a3, a4, a5, a6, a7, a8⟩ := l1 t ht
    exact ⟨a7, a8, a3, a4⟩

/-- Scenario B: a 9000x9000 image with hardware maximum 8192, so `ts = 4096`: the tiles are at
most 4096 in each dimension, do not overlap and cover exactly `[0,9000) x [0,9000)`. -/
theorem create_partition_witness :
    ∃ tex g', Texture.new.create driverB 9000 Globals.init 9000 9000 GL_RGB = some (tex, g') ∧
      tex.tiles.Pairwise (fun t u => ¬ ∃ px py, t.covers px py ∧ u.covers px py) ∧
      (∀ px py, (∃ t ∈ tex.tiles, t.covers px py) ↔
        (0 ≤ px ∧ px < 9000 ∧ 0 ≤ py ∧ py < 9000)) ∧
      (∀ t ∈ tex.tiles, 1 ≤ t.w ∧ t.w ≤ 4096 ∧ 1 ≤ t.h ∧ t.h ≤ 4096) :=
  create_partition driverB Texture.new Globals.init 9000 9000 GL_RGB 9000 (by decide)
    (by decide) (by decide)

/-- How `takeTile` moves handles: either the tile comes out of the pool (the handles of the pool
afterwards, with the tile's, are those of the pool before, and nothing is generated), or the
pool is empty and the tile has the handle just generated. -/
theorem takeTile_handles (d : Driver) (g : Globals) (w h : Int) (format : Nat) :
    (List.Perm ((takeTile d g w h format).1.id ::
          (takeTile d g w h format).2.tileCache.map Tile.id) (g.tileCache.map Tile.id) ∧
        (takeTile d g w h format).2.names = g.names) ∨
      (g.tileCache = [] ∧ (takeTile d g w h format).2.tileCache = [] ∧
        (takeTile d g w h format).1.id = d.genTexture g.names ∧
        (takeTile d g w h format).2.names = d.genTexture g.names :: g.names) := by
  unfold takeTile
  cases hm : takeMatching w h format g.tileCache with
  | some p =>
    obtain ⟨t, cache⟩ := p
    left
    obtain ⟨-, -, -, hperm⟩ := takeMatching_some w h format _ _ _ hm
    exact ⟨(hperm.map Tile.id).symm, rfl⟩
  | none =>
    cases hl : g.tileCache.getLast? with
    | none =>
      right
      have he : g.tileCache = [] := List.getLast?_eq_none_iff.mp hl
      exact ⟨he, he, rfl, rfl⟩
    | some last =>
      left
      have hne : g.tileCache ≠ [] := by
        intro he; rw [he] at hl; cases hl
      have hlast : g.tileCache.getLast hne = last := by
        rw [List.getLast?_eq_getLast _ hne] at hl
        exact Option.some.inj hl
      refine ⟨?_, rfl⟩
      simp only [initTile]
      have hsplit := List.dropLast_append_getLast hne
      rw [hlast] at hsplit
      have : List.Perm (last :: g.tileCache.dropLast) g.tileCache := by
        conv_rhs => rw [← hsplit]
        exact (@List.perm_append_comm _ g.tileCache.dropLast [last]).symm
      exact this.map Tile.id

theorem takeTile_names_of_nonempty (d : Driver) (g : Globals) (w h : Int) (format : Nat)
    (hne : g.tileCache ≠ []) : (takeTile d g w h format).2.names = g.names := by
  rcases takeTile_handles d g w h format with ⟨-, h⟩ | ⟨he, -⟩
  · exact h
  · exact absurd he hne

theorem PoolRun.step_inv (d : Driver) (r : PoolRun) (op : PoolOp)
    (h : r.globals.names.length = r.globals.tileCache.length + r.held.length ∧
      r.globals.names.length ≤ r.peak) :
    (r.step d op).globals.names.length =
        (r.step d op).globals.tileCache.length + (r.step d op).held.length ∧
      (r.step d op).globals.names.length ≤ (r.step d op).peak := by
  obtain ⟨h1, h2⟩ := h
  cases op with
  | take w h format =>
    simp only [PoolRun.step, List.length_append, List.length_singleton]
    rcases takeTile_handles d r.globals w h format with ⟨hp, hn⟩ | ⟨he, hc, -, hn⟩
    · have hl := hp.length_eq
      simp only [List.length_cons, List.length_map] at hl
      rw [hn]
      constructor
      · omega
      · exact le_trans h2 (le_max_left _ _)
    · rw [hn, hc]
      rw [he] at h1
      simp only [List.length_cons, List.length_nil] at h1 ⊢
      constructor
      · omega
      · exact le_trans (by omega) (le_max_right _ _)
  | give i =>
    simp only [PoolRun.step]
    cases hi : r.held[i]? with
    | none => exact ⟨h1, h2⟩
    | some t =>
      have hlt : i < r.held.length := (List.getElem?_eq_some.mp hi).1
      simp only [giveTile, List.length_append, List.length_singleton, List.length_eraseIdx,
        hlt, if_true]
      constructor
      · omega
      · exact h2

/-- C9 (handle reuse bounds allocations).  In every run of `takeTile` and `giveTile` calls from
an empty pool, `giveTile` being applied to tiles held, the number of handles generated is at most
the largest number of tiles that were held outside the pool at once; and `takeTile` generates a
handle only when the pool is empty. -/
theorem handles_bounded_by_peak (d : Driver) :
    (∀ ops : List PoolOp,
      (PoolRun.run d ops).globals.names.length ≤ (PoolRun.run d ops).peak) ∧
    (∀ (g : Globals) (w h : Int) (format : Nat),
      (takeTile d g w h format).2.names ≠ g.names → g.tileCache = []) := by
  constructor
  · intro ops
    have key : ∀ (ops : List PoolOp) (r : PoolRun),
        (r.globals.names.length = r.globals.tileCache.length + r.held.length ∧
          r.globals.names.length ≤ r.peak) →
        ((ops.foldl (PoolRun.step d) r).globals.names.length =
            (ops.foldl (PoolRun.step d) r).globals.tileCache.length +
              (ops.foldl (PoolRun.step d) r).held.length ∧
          (ops.foldl (PoolRun.step d) r).globals.names.length ≤
            (ops.foldl (PoolRun.step d) r).peak) := by
      intro ops
      induction ops with
      | nil => intro r h; exact h
      | cons op rest ih =>
        intro r h
        exact ih _ (PoolRun.step_inv d r op h)
    exact (key ops PoolRun.init ⟨rfl, le_refl _⟩).2
  · intro g w h format hne
    by_contra hc
    exact hne (takeTile_names_of_nonempty d g w h format hc)

theorem HandlesOk.perm {names hs hs' : List Nat} (h : HandlesOk names hs)
    (hp : List.Perm hs hs') : HandlesOk names hs' :=
  ⟨hp.nodup_iff.mp h.1, fun x hx => h.2 x (hp.mem_iff.mpr hx)⟩

theorem perm_cons_middle (a : Nat) (A B C : List Nat) :
    List.Perm (a :: (A ++ (B ++ C))) (A ++ (B ++ a :: C)) := by
  rw [← List.append_assoc, ← List.append_assoc]
  exact List.perm_middle.symm

theorem takeTile_handlesOk (d : Driver) (hfresh : ∀ names, d.genTexture names ∉ names)
    (g : Globals) (w h : Int) (format : Nat) (rest : List Nat)
    (hok : HandlesOk g.names (g.tileCache.map Tile.id ++ rest)) :
    HandlesOk (takeTile d g w h format).2.names
      ((takeTile d g w h format).1.id ::
        ((takeTile d g w h format).2.tileCache.map Tile.id ++ rest)) := by
  rcases takeTile_handles d g w h format with ⟨hp, hn⟩ | ⟨he, hc, hid, hn⟩
  · rw [hn]
    exact hok.perm ((hp.append_right rest).symm)
  · rw [hn, hc, hid]
    rw [he] at hok
    simp only [List.map_nil, List.nil_append] at hok ⊢
    refine ⟨List.nodup_cons.mpr ⟨fun hmem => hfresh _ (hok.2 _ hmem), hok.1⟩, ?_⟩
    intro x hx
    rcases List.mem_cons.mp hx with rfl | hx
    · exact List.mem_cons_self _ _
    · exact List.mem_cons_of_mem _ (hok.2 x hx)

theorem createRow_handlesOk (d : Driver) (hfresh : ∀ names, d.genTexture names ∉ names)
    (ts w h : Int) (format : Nat) (y : Int) (rest : List Nat) (fuel : Nat) (x : Int)
    (tiles tiles' : List Tile) (g g' : Globals)
    (hr : createRow d ts w h format y fuel x tiles g = some (tiles', g'))
    (hok : HandlesOk g.names (g.tileCache.map Tile.id ++ (tiles.map Tile.id ++ rest))) :
    HandlesOk g'.names (g'.tileCache.map Tile.id ++ (tiles'.map Tile.id ++ rest)) := by
  induction fuel generalizing x tiles g with
  | zero =>
    unfold createRow at hr
    by_cases hx : x < w
    · rw [if_pos hx] at hr; cases hr
    · rw [if_neg hx] at hr
      obtain ⟨rfl, rfl⟩ := Prod.mk.inj (Option.some.inj hr)
      exact hok
  | succ n ih =>
    unfold createRow at hr
    by_cases hx : x < w
    · rw [if_pos hx] at hr
      have hk := takeTile_handlesOk d hfresh g (min ts (w - x)) (min ts (h - y)) format _ hok
      dsimp only at hr
      generalize takeTile d g (min ts (w - x)) (min ts (h - y)) format = tt at hr hk
      obtain ⟨t, g₁⟩ := tt
      refine ih _ _ _ hr (hk.perm ?_)
      rw [List.map_append, List.map_cons, List.map_nil, List.append_assoc,
        List.singleton_append]
      exact perm_cons_middle t.id _ _ rest
    · rw [if_neg hx] at hr
      obtain ⟨rfl, rfl⟩ := Prod.mk.inj (Option.some.inj hr)
      exact hok

theorem createRows_handlesOk (d : Driver) (hfresh : ∀ names, d.genTexture names ∉ names)
    (ts w h : Int) (format : Nat) (rest : List Nat) (rowFuel fuel : Nat) (y : Int)
    (tiles tiles' : List Tile) (g g' : Globals)
    (hr : createRows d ts w h format rowFuel fuel y tiles g = some (tiles', g'))
    (hok : HandlesOk g.names (g.tileCache.map Tile.id ++ (tiles.map Tile.id ++ rest))) :
    HandlesOk g'.names (g'.tileCache.map Tile.id ++ (tiles'.map Tile.id ++ rest)) := by
  induction fuel generalizing y tiles g with
  | zero =>
    unfold createRows at hr
    by_cases hy : y < h
    · rw [if_pos hy] at hr; cases hr
    · rw [if_neg hy] at hr
      obtain ⟨rfl, rfl⟩ := Prod.mk.inj (Option.some.inj hr)
      exact hok
  | succ n ih =>
    unfold createRows at hr
    by_cases hy : y < h
    · rw [if_pos hy] at hr
      cases hrow : createRow d ts w h format y rowFuel 0 tiles g with
      | none => rw [hrow] at hr; cases hr
      | some p =>
        obtain ⟨tiles₁, g₁⟩ := p
        rw [hrow] at hr
        exact ih _ _ _ hr (createRow_handlesOk d hfresh ts w h format y rest _ _ _ _ _ _ hrow hok)
    · rw [if_neg hy] at hr
      obtain ⟨rfl, rfl⟩ := Prod.mk.inj (Option.some.inj hr)
      exact hok

theorem create_handlesOk (d : Driver) (hfresh : ∀ names, d.genTexture names ∉ names)
    (fuel : Nat) (self tex : Texture) (g g' : Globals) (w h : Int) (format : Nat)
    (rest : List Nat) (hr : self.create d fuel g w h format = some (tex, g'))
    (hok : HandlesOk g.names (g.tileCache.map Tile.id ++ (self.tiles.map Tile.id ++ rest))) :
    HandlesOk g'.names (g'.tileCache.map Tile.id ++ (tex.tiles.map Tile.id ++ rest)) := by
  unfold Texture.create at hr
  simp only at hr
  cases hrows : createRows d (queryTs d (self.tiles.foldl giveTile g)).ts w h format fuel fuel 0
      [] (queryTs d (self.tiles.foldl giveTile g)) with
  | none => rw [hrows] at hr; cases hr
  | some p =>
    obtain ⟨tiles, g₁⟩ := p
    rw [hrows] at hr
    obtain ⟨rfl, rfl⟩ := Prod.mk.inj (Option.some.inj hr)
    refine createRows_handlesOk d hfresh _ w h format rest _ _ _ _ _ _ _ hrows ?_
    have hq : ∀ g₀ : Globals, (queryTs d g₀).tileCache = g₀.tileCache ∧
        (queryTs d g₀).names = g₀.names := by
      intro g₀; unfold queryTs; split_ifs <;> exact ⟨rfl, rfl⟩
    rw [(hq _).1, (hq _).2, foldl_giveTile]
    simpa using hok

theorem split_at_index {α : Type} (l : List α) (i : Nat) (a : α) (h : l[i]? = some a) :
    ∃ A B, l = A ++ a :: B ∧ (∀ a', l.set i a' = A ++ a' :: B) ∧ l.eraseIdx i = A ++ B := by
  induction l generalizing i with
  | nil => simp at h
  | cons b rest ih =>
    cases i with
    | zero =>
      simp only [List.getElem?_cons_zero, Option.some.injEq] at h
      subst h
      exact ⟨[], rest, rfl, fun _ => rfl, rfl⟩
    | succ j =>
      simp only [List.getElem?_cons_succ] at h
      obtain ⟨A, B, h1, h2, h3⟩ := ih j h
      refine ⟨b :: A, B, by rw [h1]; rfl, fun a' => ?_, ?_⟩
      · rw [List.set_cons_succ, h2 a']; rfl
      · rw [List.eraseIdx_cons_succ, h3]; rfl

theorem foldl_uploadTile (d : Driver) (img : Image) (f : Nat) (tiles : List Tile)
    (g : Globals) :
    (tiles.foldl (uploadTile d img f) g).tileCache = g.tileCache ∧
      (tiles.foldl (uploadTile d img f) g).names = g.names := by
  induction tiles generalizing g with
  | nil => exact ⟨rfl, rfl⟩
  | cons t rest ih =>
    rw [List.foldl_cons]
    obtain ⟨h1, h2⟩ := ih (uploadTile d img f g t)
    exact ⟨h1, h2⟩

theorem upload_handlesOk (d : Driver) (hfresh : ∀ names, d.genTexture names ∉ names)
    (fuel : Nat) (self tex : Texture) (g g' : Globals) (img : Image) (area : ImRect)
    (rest : List Nat) (hr : self.upload d fuel g img area = some (tex, g'))
    (hok : HandlesOk g.names (g.tileCache.map Tile.id ++ (self.tiles.map Tile.id ++ rest))) :
    HandlesOk g'.names (g'.tileCache.map Tile.id ++ (tex.tiles.map Tile.id ++ rest)) := by
  unfold Texture.upload at hr
  cases hf : glFormatOf img.format with
  | none => rw [hf] at hr; cases hr
  | some f =>
    rw [hf] at hr
    simp only at hr
    by_cases hc : self.size.x ≠ img.w ∨ self.size.y ≠ img.h ∨ self.format ≠ f
    · rw [if_pos hc] at hr
      cases hcr : self.create d fuel g img.w img.h f with
      | none => rw [hcr] at hr; cases hr
      | some p =>
        obtain ⟨tex₁, g₁⟩ := p
        rw [hcr] at hr
        obtain ⟨rfl, rfl⟩ := Prod.mk.inj (Option.some.inj hr)
        obtain ⟨h1, h2⟩ := foldl_uploadTile d img f tex₁.tiles g₁
        rw [h1, h2]
        exact create_handlesOk d hfresh fuel self tex₁ g g₁ img.w img.h f rest hcr hok
    · rw [if_neg hc] at hr
      obtain ⟨rfl, rfl⟩ := Prod.mk.inj (Option.some.inj hr)
      obtain ⟨h1, h2⟩ := foldl_uploadTile d img f self.tiles g
      rw [h1, h2]
      exact hok

theorem World.step_handlesOk (d : Driver) (hfresh : ∀ names, d.genTexture names ∉ names)
    (wld wld' : World) (op : WorldOp) (hs : wld.step d op = some wld')
    (hok : HandlesOk wld.globals.names wld.handles) :
    HandlesOk wld'.globals.names wld'.handles := by
  have hsplit : ∀ (A B : List Texture) (tex : Texture) (g : Globals),
      List.Perm ((g.tileCache ++ (A ++ tex :: B).flatMap Texture.tiles).map Tile.id)
        (g.tileCache.map Tile.id ++ (tex.tiles.map Tile.id ++
          ((A.flatMap Texture.tiles).map Tile.id ++ (B.flatMap Texture.tiles).map Tile.id))) := by
    intro A B tex g
    simp only [List.flatMap_append, List.flatMap_cons, List.map_append]
    refine List.Perm.append_left _ ?_
    rw [← List.append_assoc, ← List.append_assoc]
    exact List.Perm.append_right _ List.perm_append_comm
  cases op with
  | construct =>
    simp only [World.step, Option.some.injEq] at hs
    subst hs
    simpa [World.handles, Texture.new] using hok
  | create i fuel w h format =>
    simp only [World.step] at hs
    cases hi : wld.textures[i]? with
    | none => rw [hi] at hs; cases hs
    | some tex =>
      rw [hi] at hs
      dsimp only at hs
      cases hc : tex.create d fuel wld.globals w h format with
      | none => rw [hc] at hs; cases hs
      | some p =>
        obtain ⟨tex', g'⟩ := p
        rw [hc] at hs
        simp only [Option.some.injEq] at hs
        subst hs
        obtain ⟨A, B, h1, h2, -⟩ := split_at_index _ _ _ hi
        unfold World.handles at hok ⊢
        simp only
        rw [h2 tex']
        rw [h1] at hok
        exact (create_handlesOk d hfresh fuel tex tex' _ g' w h format _ hc
          (hok.perm (hsplit A B tex _))).perm (hsplit A B tex' g').symm
  | upload i fuel img area =>
    simp only [World.step] at hs
    cases hi : wld.textures[i]? with
    | none => rw [hi] at hs; cases hs
    | some tex =>
      rw [hi] at hs
      dsimp only at hs
      cases hc : tex.upload d fuel wld.globals img area with
      | none => rw [hc] at hs; cases hs
      | some p =>
        obtain ⟨tex', g'⟩ := p
        rw [hc] at hs
        simp only [Option.some.injEq] at hs
        subst hs
        obtain ⟨A, B, h1, h2, -⟩ := split_at_index _ _ _ hi
        unfold World.handles at hok ⊢
        simp only
        rw [h2 tex']
        rw [h1] at hok
        exact (upload_handlesOk d hfresh fuel tex tex' _ g' img area _ hc
          (hok.perm (hsplit A B tex _))).perm (hsplit A B tex' g').symm
  | destroy i =>
    simp only [World.step] at hs
    cases hi : wld.textures[i]? with
    | none => rw [hi] at hs; cases hs
    | some tex =>
      rw [hi] at hs
      simp only [Option.some.injEq] at hs
      subst hs
      obtain ⟨A, B, h1, -, h3⟩ := split_at_index _ _ _ hi
      unfold World.handles at hok ⊢
      simp only [Texture.destroy, foldl_giveTile]
      rw [h3]
      rw [h1] at hok
      refine (hok.perm (hsplit A B tex _)).perm ?_
      simp only [List.flatMap_append, List.map_append, List.append_assoc]
      exact List.Perm.refl _

theorem World.run_handlesOk (d : Driver) (hfresh : ∀ names, d.genTexture names ∉ names)
    (ops : List WorldOp) (wld wld' : World) (hr : World.run d wld ops = some wld')
    (hok : HandlesOk wld.globals.names wld.handles) :
    HandlesOk wld'.globals.names wld'.handles := by
  induction ops generalizing wld with
  | nil =>
    simp only [World.run, Option.some.injEq] at hr
    subst hr
    exact hok
  | cons op rest ih =>
    simp only [World.run] at hr
    cases hs : wld.step d op with
    | none => rw [hs] at hr; cases hr
    | some w₁ =>
      rw [hs] at hr
      exact ih w₁ hr (World.step_handlesOk d hfresh wld w₁ op hs hok)

/-- C8 (pool/texture disjointness).  When `glGenTextures` returns handles not generated before,
then after every sequence of constructions, `create`, `upload` and destructor calls from an empty
pool, no handle of a tile in the pool is the handle of a tile of a live texture, and no handle
occurs twice across the pool and all the tile lists. -/
theorem pool_texture_disjoint (d : Driver) (hfresh : ∀ names, d.genTexture names ∉ names)
    (ops : List WorldOp) (wld : World) (hrun : World.run d World.init ops = some wld) :
    (∀ t ∈ wld.globals.tileCache, ∀ tex ∈ wld.textures, ∀ u ∈ tex.tiles, t.id ≠ u.id) ∧
      wld.handles.Nodup := by
  have hok := World.run_handlesOk d hfresh ops World.init wld hrun
    ⟨List.nodup_nil, fun x hx => by cases hx⟩
  refine ⟨?_, hok.1⟩
  intro t ht tex htex u hu heq
  have hnd := hok.1
  unfold World.handles at hnd
  rw [List.map_append] at hnd
  have hdis := (List.nodup_append.mp hnd).2.2
  exact hdis (List.mem_map_of_mem Tile.id ht)
    (heq ▸ List.mem_map_of_mem Tile.id (List.mem_flatMap.mpr ⟨tex, htex, hu⟩))

theorem driverFresh_fresh (names : List Nat) : driverFresh.genTexture names ∉ names := by
  have hle : ∀ (l : List Nat) (x : Nat), x ∈ l → x ≤ l.sum := by
    intro l
    induction l with
    | nil => intro x hx; cases hx
    | cons a rest ih =>
      intro x hx
      rw [List.sum_cons]
      rcases List.mem_cons.mp hx with rfl | hx
      · omega
      · have := ih x hx; omega
  intro hmem
  have := hle names _ hmem
  simp only [driverFresh] at this
  omega

/-- A run on two texture objects with a driver that generates fresh handles. -/
theorem pool_texture_disjoint_witness :
    ∃ wld, World.run driverFresh World.init opsW = some wld ∧
      (∀ t ∈ wld.globals.tileCache, ∀ tex ∈ wld.textures, ∀ u ∈ tex.tiles, t.id ≠ u.id) ∧
      wld.handles.Nodup :=
  ⟨_, rfl, pool_texture_disjoint driverFresh driverFresh_fresh opsW _ rfl⟩

/-! ## Properties of the normalizer -/

theorem autoScaleAndBias_some (env : Env) (s : Sequence) (colormap : Colormap) (img : Image)
    (himg : (getCurrentImage env s).1 = some img) :
    (autoScaleAndBias env s colormap).2 =
      { scale := 1 / (img.max - img.min), bias := - img.min * (1 / (img.max - img.min)) } := by
  unfold autoScaleAndBias
  generalize getCurrentImage env s = r at himg
  obtain ⟨o, s'⟩ := r
  simp only at himg
  subst himg
  rfl

theorem autoScaleAndBias_none (env : Env) (s : Sequence) (colormap : Colormap)
    (himg : (getCurrentImage env s).1 = none) :
    (autoScaleAndBias env s colormap).2 = { scale := 1, bias := 0 } := by
  unfold autoScaleAndBias
  generalize getCurrentImage env s = r at himg
  obtain ⟨o, s'⟩ := r
  simp only at himg
  subst himg
  rfl

/-- C11 (global range of `autoScaleAndBias`).  With an image available whose statistics have
`min ≠ max`, the colormap receives `scale = 1/(max - min)` and `bias = -min*scale`, so that
`scale*min + bias = 0` and `scale*max + bias = 1` (floats taken as exact rationals); with no
image available it receives `scale = 1` and `bias = 0`.  Scenario C: `min = -2`, `max = 3` give
`scale = 1/5` and `bias = 2/5`. -/
theorem autoScaleAndBias_global_range :
    (∀ (env : Env) (s : Sequence) (colormap : Colormap) (img : Image),
      (getCurrentImage env s).1 = some img → img.min ≠ img.max →
      (autoScaleAndBias env s colormap).2.scale = 1 / (img.max - img.min) ∧
      (autoScaleAndBias env s colormap).2.bias =
        - img.min * (autoScaleAndBias env s colormap).2.scale ∧
      (autoScaleAndBias env s colormap).2.scale * img.min +
        (autoScaleAndBias env s colormap).2.bias = 0 ∧
      (autoScaleAndBias env s colormap).2.scale * img.max +
        (autoScaleAndBias env s colormap).2.bias = 1) ∧
    (∀ (env : Env) (s : Sequence) (colormap : Colormap),
      (getCurrentImage env s).1 = none →
      (autoScaleAndBias env s colormap).2.scale = 1 ∧
      (autoScaleAndBias env s colormap).2.bias = 0) ∧
    (autoScaleAndBias (envA 0 0 1 1) (seqWith imgC) ⟨7, 7⟩).2 =
      { scale := 1 / 5, bias := 2 / 5 } := by
  refine ⟨?_, ?_, by decide!⟩
  · intro env s colormap img himg hne
    have hd : img.max - img.min ≠ 0 := sub_ne_zero.mpr (Ne.symm hne)
    rw [autoScaleAndBias_some env s colormap img himg]
    refine ⟨rfl, rfl, ?_, ?_⟩
    · simp only; ring
    · simp only; field_simp; ring
  · intro env s colormap hnone
    rw [autoScaleAndBias_none env s colormap hnone]
    exact ⟨rfl, rfl⟩

theorem foldl_min_le_init (f : Int × Int × Int → ℚ) (l : List (Int × Int × Int)) (m : ℚ) :
    l.foldl (fun a r => min a (f r)) m ≤ m := by
  induction l generalizing m with
  | nil => exact le_refl _
  | cons r rest ih =>
    rw [List.foldl_cons]
    exact le_trans (ih _) (min_le_left _ _)

theorem foldl_max_ge_init (f : Int × Int × Int → ℚ) (l : List (Int × Int × Int)) (m : ℚ) :
    m ≤ l.foldl (fun a r => max a (f r)) m := by
  induction l generalizing m with
  | nil => exact le_refl _
  | cons r rest ih =>
    rw [List.foldl_cons]
    exact le_trans (le_max_left _ _) (ih _)

/-- C12 (region range), the code at a failing input.  The locals `min` and `max` are not
initialised before the loops fold the pixel values into them: whatever the image and the region,
the `min` used is never above, and the `max` never below, the value the local held at the start.
On the 3x2 image with rows `5 7 9`, `p1 = (0,0)`, `p2 = (2,1)`, the values of the clamped
rectangle are 5 and 7; with both locals holding 0 at the start the code uses `min = 0`,
`max = 7` and sets `scale = 1/7`, `bias = 0`, where the minimum 5 and the maximum 7 of the region
give `scale = 1/2`, `bias = -5/2`. -/
theorem smartAutoScaleAndBias_uninitialised :
    (∀ (env : Env) (s : Sequence) (colormap : Colormap) (p1 p2 : ImVec2) (min₀ max₀ : ℚ),
      (smartAutoScaleAndBias env s colormap p1 p2 min₀ max₀).min ≤ min₀ ∧
      max₀ ≤ (smartAutoScaleAndBias env s colormap p1 p2 min₀ max₀).max) ∧
    regionValues imgS (clampP1 ⟨0, 0⟩) (clampP2 imgS ⟨2, 1⟩) = [5, 7] ∧
    (smartAutoScaleAndBias (envA 0 0 1 1) (seqWith imgS) ⟨1, 0⟩ ⟨0, 0⟩ ⟨2, 1⟩ 0 0).min = 0 ∧
    (smartAutoScaleAndBias (envA 0 0 1 1) (seqWith imgS) ⟨1, 0⟩ ⟨0, 0⟩ ⟨2, 1⟩ 0 0).max = 7 ∧
    (smartAutoScaleAndBias (envA 0 0 1 1) (seqWith imgS) ⟨1, 0⟩ ⟨0, 0⟩ ⟨2, 1⟩ 0 0).colormap =
      { scale := 1 / 7, bias := 0 } ∧
    (1 / ((7 : ℚ) - 5) = 1 / 2 ∧ -(5 : ℚ) * (1 / (7 - 5)) = -5 / 2) := by
  refine ⟨?_, by decide!, by decide!, by decide!, by decide!, by norm_num⟩
  intro env s colormap p1 p2 min₀ max₀
  unfold smartAutoScaleAndBias
  generalize getCurrentImage env s = r
  obtain ⟨o, s'⟩ := r
  cases o with
  | none => exact ⟨le_refl _, le_refl _⟩
  | some img => exact ⟨foldl_min_le_init _ _ _, foldl_max_ge_init _ _ _⟩

theorem mem_countUp (lo : Int) (hi : ℚ) (i : Int) :
    i ∈ countUp lo hi ↔ lo ≤ i ∧ (i : ℚ) < hi := by
  unfold countUp
  rw [List.mem_map]
  constructor
  · rintro ⟨k, hk, rfl⟩
    rw [List.mem_range] at hk
    refine ⟨by omega, ?_⟩
    rw [← Int.lt_ceil]
    omega
  · rintro ⟨h1, h2⟩
    rw [← Int.lt_ceil] at h2
    refine ⟨(i - lo).toNat, ?_, ?_⟩
    · rw [List.mem_range]; omega
    · omega

theorem mem_scanReads (img : Image) (p1 p2 : ImVec2) (r : Int × Int × Int) :
    r ∈ scanReads img p1 p2 ↔
      (truncToInt p1.x ≤ r.1 ∧ (r.1 : ℚ) < p2.x) ∧
      (truncToInt p1.y ≤ r.2.1 ∧ (r.2.1 : ℚ) < p2.y) ∧ 0 ≤ r.2.2 ∧ r.2.2 < img.format := by
  obtain ⟨x, y, d⟩ := r
  unfold scanReads
  simp only [List.mem_flatMap, List.mem_map, List.mem_range, mem_countUp, Prod.mk.injEq]
  constructor
  · rintro ⟨y', hy, x', hx, k, hk, rfl, rfl, rfl⟩
    exact ⟨hx, hy, by omega, by omega⟩
  · rintro ⟨hx, hy, hd0, hd1⟩
    exact ⟨y, hy, x, hx, d.toNat, by omega, rfl, rfl, by omega⟩

theorem smartAutoScaleAndBias_reads (env : Env) (s : Sequence) (colormap : Colormap)
    (p1 p2 : ImVec2) (min₀ max₀ : ℚ) :
    (smartAutoScaleAndBias env s colormap p1 p2 min₀ max₀).reads =
      match (getCurrentImage env s).1 with
      | none => []
      | some img => scanReads img (clampP1 p1) (clampP2 img p2) := by
  unfold smartAutoScaleAndBias
  generalize getCurrentImage env s = r
  obtain ⟨o, s'⟩ := r
  cases o <;> rfl

theorem clampP1_nonneg (p1 : ImVec2) : 0 ≤ (clampP1 p1).x ∧ 0 ≤ (clampP1 p1).y := by
  unfold clampP1
  constructor <;> simp only <;> split_ifs with h
  · exact le_refl _
  · exact not_lt.mp h
  · exact le_refl _
  · exact not_lt.mp h

theorem clampP1_lt (p1 : ImVec2) (b : ℚ) (hb : 0 < b) (hx : p1.x < b) (hy : p1.y < b) :
    (clampP1 p1).x < b ∧ (clampP1 p1).y < b := by
  unfold clampP1
  constructor <;> simp only <;> split_ifs <;> assumption

theorem clampP2_lt (img : Image) (p2 : ImVec2) :
    (clampP2 img p2).x < img.w ∧ (clampP2 img p2).y < img.h := by
  unfold clampP2
  constructor <;> simp only <;> split_ifs with h
  · linarith
  · exact not_le.mp h
  · linarith
  · exact not_le.mp h

/-- For a read whose pixel lies in the image, in an image of fewer than `2^31` elements, the
`int` index is the mathematical one and lies in `[0, w*h*c)`. -/
theorem scanIndex_eq (img : Image) (r : Int × Int × Int)
    (hsize : img.w * img.h * img.format < 2147483648)
    (hx : 0 ≤ r.1 ∧ r.1 ≤ img.w - 1) (hy : 0 ≤ r.2.1 ∧ r.2.1 ≤ img.h - 1)
    (hd : 0 ≤ r.2.2 ∧ r.2.2 < img.format) :
    scanIndex img r = r.2.2 + img.format * (r.1 + r.2.1 * img.w) ∧
      0 ≤ scanIndex img r ∧ scanIndex img r < img.w * img.h * img.format := by
  obtain ⟨hx0, hxw⟩ := hx
  obtain ⟨hy0, hyh⟩ := hy
  obtain ⟨hd0, hd1⟩ := hd
  have hw : 0 ≤ img.w := by omega
  have hc1 : (1 : Int) ≤ (img.format : Int) := by omega
  have h0 : 0 ≤ r.2.1 * img.w := mul_nonneg hy0 hw
  have h1 : r.2.1 * img.w ≤ (img.h - 1) * img.w := mul_le_mul_of_nonneg_right hyh hw
  have h2 : (img.h - 1) * img.w = img.w * img.h - img.w := by ring
  have h3 : 0 ≤ img.w * img.h := mul_nonneg hw (by omega)
  have h4 : img.w * img.h * 1 ≤ img.w * img.h * img.format :=
    mul_le_mul_of_nonneg_left hc1 h3
  have h5 : (img.format : Int) * (r.1 + r.2.1 * img.w) ≤
      (img.format : Int) * (img.w * img.h - 1) :=
    mul_le_mul_of_nonneg_left (by omega) (by omega)
  have h6 : (img.format : Int) * (img.w * img.h - 1) =
      img.w * img.h * img.format - img.format := by ring
  have h7 : 0 ≤ (img.format : Int) * (r.1 + r.2.1 * img.w) :=
    mul_nonneg (by omega) (by omega)
  have he : scanIndex img r = r.2.2 + img.format * (r.1 + r.2.1 * img.w) := by
    unfold scanIndex
    rw [wrapInt_eq (r.2.1 * img.w) (by omega) (by omega),
      wrapInt_eq (r.1 + r.2.1 * img.w) (by omega) (by omega),
      wrapInt_eq (img.format * (r.1 + r.2.1 * img.w)) (by omega) (by omega),
      wrapInt_eq (r.2.2 + img.format * (r.1 + r.2.1 * img.w)) (by omega) (by omega)]
  rw [he]
  exact ⟨rfl, by omega, by omega⟩

theorem Image.byteSize_float (img : Image) (h : img.type = Image.FLOAT) :
    img.byteSize = 4 * (img.w * img.h * img.format) := by
  unfold Image.byteSize
  rw [h]
  rfl

theorem mem_reads_iff (env : Env) (s : Sequence) (colormap : Colormap) (p1 p2 : ImVec2)
    (min₀ max₀ : ℚ) (img : Image) (himg : (getCurrentImage env s).1 = some img)
    (r : Int × Int × Int) :
    r ∈ (smartAutoScaleAndBias env s colormap p1 p2 min₀ max₀).reads ↔
      (truncToInt (clampP1 p1).x ≤ r.1 ∧ (r.1 : ℚ) < (clampP2 img p2).x) ∧
      (truncToInt (clampP1 p1).y ≤ r.2.1 ∧ (r.2.1 : ℚ) < (clampP2 img p2).y) ∧
      0 ≤ r.2.2 ∧ r.2.2 < img.format := by
  rw [smartAutoScaleAndBias_reads, himg]
  exact mem_scanReads img _ _ r

/-- C19 (the region scan and the pixel buffer), the code at failing inputs.  The reads of the
loops of `smartAutoScaleAndBias` stay inside the pixel buffer for an image of float elements, of
at most `2^24` pixels a side and fewer than `2^31` elements, and `p1` below `2^31`: every read
`data[d + c*(x + y*w)]` then has `0 ≤ x ≤ w-1`, `0 ≤ y ≤ h-1`, `0 ≤ d < c`, its index lies in
`[0, w*h*c)` and its four bytes lie in the buffer.  Outside these conditions the reads can
leave the buffer.  On the 100x100 byte image with `p1 = (0,0)`, `p2 = (100,100)` the buffer of 10000 bytes
is read as floats: the read of pixel `(98, 98)` has index 9898 and takes the bytes 39592 to 39595.
On the 3x2 float image with `p1 = (3000000000, 0)`, `p2 = (2, 1)`, the coordinate `p1.x` is not
clamped, `int x = p1.x` gives `INT_MIN`, and the pixel `(-2147483648, 0)` is read, at index
`-2147483648`.  On the 50000x50000 float image with `p1 = (0,0)`, `p2 = (50000, 50000)` the read
of pixel `(0, 49998)` has the `int` index `-1795067296`. -/
theorem scan_reads_leave_buffer :
    (∀ (env : Env) (s : Sequence) (colormap : Colormap) (p1 p2 : ImVec2) (min₀ max₀ : ℚ)
        (img : Image), (getCurrentImage env s).1 = some img → img.type = Image.FLOAT →
      img.w ≤ 16777216 → img.h ≤ 16777216 → img.w * img.h * img.format < 2147483648 →
      p1.x < 2147483648 → p1.y < 2147483648 →
      ∀ r ∈ (smartAutoScaleAndBias env s colormap p1 p2 min₀ max₀).reads,
        (0 ≤ r.1 ∧ r.1 ≤ img.w - 1) ∧ (0 ≤ r.2.1 ∧ r.2.1 ≤ img.h - 1) ∧
        (0 ≤ r.2.2 ∧ r.2.2 < img.format) ∧
        scanIndex img r = r.2.2 + img.format * (r.1 + r.2.1 * img.w) ∧
        0 ≤ scanIndex img r ∧ scanIndex img r < img.w * img.h * img.format ∧
        img.floatReadInside (scanIndex img r)) ∧
    ((98, 98, 0) ∈
        (smartAutoScaleAndBias (envA 0 0 1 1) (seqWith imgA) ⟨1, 0⟩ ⟨0, 0⟩ ⟨100, 100⟩ 0 0).reads ∧
      scanIndex imgA (98, 98, 0) = 9898 ∧ imgA.byteSize = 10000 ∧
      ¬ imgA.floatReadInside (scanIndex imgA (98, 98, 0))) ∧
    ((-2147483648, 0, 0) ∈
        (smartAutoScaleAndBias (envA 0 0 1 1) (seqWith imgS) ⟨1, 0⟩ ⟨3000000000, 0⟩ ⟨2, 1⟩
          0 0).reads ∧
      scanIndex imgS (-2147483648, 0, 0) = -2147483648 ∧
      ¬ imgS.floatReadInside (scanIndex imgS (-2147483648, 0, 0))) ∧
    ((0, 49998, 0) ∈
        (smartAutoScaleAndBias (envA 0 0 1 1) (seqWith imgM) ⟨1, 0⟩ ⟨0, 0⟩ ⟨50000, 50000⟩
          0 0).reads ∧
      scanIndex imgM (0, 49998, 0) = -1795067296 ∧
      ¬ imgM.floatReadInside (scanIndex imgM (0, 49998, 0))) := by
  refine ⟨?_, ⟨?_, by decide!, by decide!, by decide!⟩, ⟨?_, by decide!, by decide!⟩,
    ⟨?_, by decide!, by decide!⟩⟩
  · intro env s colormap p1 p2 min₀ max₀ img himg htype _ _ hsize hp1x hp1y r hr
    rw [mem_reads_iff env s colormap p1 p2 min₀ max₀ img himg] at hr
    obtain ⟨⟨hx1, hx2⟩, ⟨hy1, hy2⟩, hd1, hd2⟩ := hr
    obtain ⟨n1, n2⟩ := clampP1_nonneg p1
    obtain ⟨l1, l2⟩ := clampP1_lt p1 2147483648 (by norm_num) hp1x hp1y
    obtain ⟨c1, c2⟩ := clampP2_lt img p2
    have tx := (truncToInt_nonneg _ n1 l1).1
    have ty := (truncToInt_nonneg _ n2 l2).1
    have hxw : (r.1 : ℚ) < img.w := lt_trans hx2 c1
    have hyh : (r.2.1 : ℚ) < img.h := lt_trans hy2 c2
    have hxw' : r.1 < img.w := by exact_mod_cast hxw
    have hyh' : r.2.1 < img.h := by exact_mod_cast hyh
    have hx : 0 ≤ r.1 ∧ r.1 ≤ img.w - 1 := ⟨by omega, by omega⟩
    have hy : 0 ≤ r.2.1 ∧ r.2.1 ≤ img.h - 1 := ⟨by omega, by omega⟩
    obtain ⟨e1, e2, e3⟩ := scanIndex_eq img r hsize hx hy ⟨hd1, hd2⟩
    refine ⟨hx, hy, ⟨hd1, hd2⟩, e1, e2, e3, ?_⟩
    unfold Image.floatReadInside
    rw [Image.byteSize_float img htype]
    constructor <;> omega
  · rw [mem_reads_iff (envA 0 0 1 1) (seqWith imgA) ⟨1, 0⟩ ⟨0, 0⟩ ⟨100, 100⟩ 0 0 imgA rfl]
    decide!
  · rw [mem_reads_iff (envA 0 0 1 1) (seqWith imgS) ⟨1, 0⟩ ⟨3000000000, 0⟩ ⟨2, 1⟩ 0 0 imgS rfl]
    decide!
  · rw [mem_reads_iff (envA 0 0 1 1) (seqWith imgM) ⟨1, 0⟩ ⟨0, 0⟩ ⟨50000, 50000⟩ 0 0 imgM rfl]
    decide!

/-- An instance of the safe case: on the 3x2 float image, with `p1 = (-4, -4)` and
`p2 = (100, 100)`, the read of the pixel `(1, 0)` has index 1 and lies in the buffer. -/
theorem scan_reads_leave_buffer_witness :
    (0 ≤ (1 : Int) ∧ (1 : Int) ≤ imgS.w - 1) ∧ (0 ≤ (0 : Int) ∧ (0 : Int) ≤ imgS.h - 1) ∧
      (0 ≤ (0 : Int) ∧ (0 : Int) < imgS.format) ∧
      scanIndex imgS (1, 0, 0) = 0 + imgS.format * (1 + 0 * imgS.w) ∧
      0 ≤ scanIndex imgS (1, 0, 0) ∧ scanIndex imgS (1, 0, 0) < imgS.w * imgS.h * imgS.format ∧
      imgS.floatReadInside (scanIndex imgS (1, 0, 0)) :=
  scan_reads_leave_buffer.1 (envA 0 0 1 1) (seqWith imgS) ⟨1, 0⟩ ⟨-4, -4⟩ ⟨100, 100⟩ 0 0 imgS
    rfl rfl (by decide) (by decide) (by decide) (by decide!) (by decide!) (1, 0, 0) (by decide!)

/-! ## Properties of the format mapping and of the transfers -/

theorem glTypeOf_some_iff (type : Nat) :
    (∃ t, glTypeOf type = some t) ↔ (type = Image.UINT8 ∨ type = Image.FLOAT) := by
  unfold glTypeOf
  constructor
  · rintro ⟨t, ht⟩
    split_ifs at ht with h1 h2
    · exact Or.inl h1
    · exact Or.inr h2
  · rintro (h | h)
    · rw [if_pos h]; exact ⟨_, rfl⟩
    · subst h; exact ⟨GL_FLOAT, by decide⟩

theorem glFormatOf_some_iff (format : Nat) :
    (∃ f, glFormatOf format = some f) ↔
      (format = Image.R ∨ format = Image.RG ∨ format = Image.RGB ∨ format = Image.RGBA) := by
  unfold glFormatOf
  constructor
  · rintro ⟨f, hf⟩
    split_ifs at hf with h1 h2 h3 h4
    · exact Or.inl h1
    · exact Or.inr (Or.inl h2)
    · exact Or.inr (Or.inr (Or.inl h3))
    · exact Or.inr (Or.inr (Or.inr h4))
  · rintro (h | h | h | h) <;> subst h
    · exact ⟨GL_RED, by decide⟩
    · exact ⟨GL_RG, by decide⟩
    · exact ⟨GL_RGB, by decide⟩
    · exact ⟨GL_RGBA, by decide⟩

theorem glTypeOf_injective (t₁ t₂ a : Nat) (h₁ : glTypeOf t₁ = some a)
    (h₂ : glTypeOf t₂ = some a) : t₁ = t₂ := by
  unfold glTypeOf at h₁ h₂
  split_ifs at h₁ h₂ <;>
    simp only [GL_UNSIGNED_BYTE, GL_FLOAT, Option.some.injEq] at h₁ h₂ <;>
    first | (exfalso; omega) | (subst_vars; rfl)

theorem glFormatOf_injective (f₁ f₂ b : Nat) (h₁ : glFormatOf f₁ = some b)
    (h₂ : glFormatOf f₂ = some b) : f₁ = f₂ := by
  unfold glFormatOf at h₁ h₂
  split_ifs at h₁ h₂ <;>
    simp only [GL_RED, GL_RG, GL_RGB, GL_RGBA, Option.some.injEq] at h₁ h₂ <;>
    first | (exfalso; omega) | (subst_vars; rfl)

theorem reuploadBranch_unsupported (env : Env) (s : Sequence) (frame : Int) (img : Image)
    (area : ImRect) (h : ¬ img.Supported) : reuploadBranch env s frame img area = none := by
  unfold reuploadBranch
  cases ht : glTypeOf img.type with
  | none => rfl
  | some t =>
    cases hf : glFormatOf img.format with
    | none => rfl
    | some f =>
      exact absurd ⟨(glTypeOf_some_iff _).mp ⟨t, ht⟩, (glFormatOf_some_iff _).mp ⟨f, hf⟩⟩ h

/-- C13 (format mapping of the upload path).  The mapping of lines 127-146 succeeds exactly for
a type among `UINT8`, `FLOAT` and a format among `R`, `RG`, `RGB`, `RGBA`; it sends `UINT8` to
`GL_UNSIGNED_BYTE`, `FLOAT` to `GL_FLOAT`, and `R`, `RG`, `RGB`, `RGBA` to `GL_RED`, `GL_RG`,
`GL_RGB`, `GL_RGBA`; distinct inputs give distinct pairs; for any other type or format the
upload branch of the planner stops at the assertion, so a planner call that obtains such an
image stops there or issues no call, and `Texture::upload` stops at its assertion for any other
format. -/
theorem format_mapping :
    (∀ type format : Nat,
      (∃ t f, glTypeOf type = some t ∧ glFormatOf format = some f) ↔
        ((type = Image.UINT8 ∨ type = Image.FLOAT) ∧
          (format = Image.R ∨ format = Image.RG ∨ format = Image.RGB ∨
            format = Image.RGBA))) ∧
    (glTypeOf Image.UINT8 = some GL_UNSIGNED_BYTE ∧ glTypeOf Image.FLOAT = some GL_FLOAT ∧
      glFormatOf Image.R = some GL_RED ∧ glFormatOf Image.RG = some GL_RG ∧
      glFormatOf Image.RGB = some GL_RGB ∧ glFormatOf Image.RGBA = some GL_RGBA) ∧
    (∀ t₁ t₂ f₁ f₂ a b : Nat, glTypeOf t₁ = some a → glFormatOf f₁ = some b →
      glTypeOf t₂ = some a → glFormatOf f₂ = some b → t₁ = t₂ ∧ f₁ = f₂) ∧
    (∀ (env : Env) (s : Sequence) (frame : Int) (img : Image) (area : ImRect),
      ¬ img.Supported → reuploadBranch env s frame img area = none) ∧
    (∀ (env : Env) (s : Sequence) (player : Player) (img : Image),
      s.valid = true → s.player = some player → 0 < player.frame →
      (getCurrentImage env (resetStale s player.frame)).1 = some img → ¬ img.Supported →
      loadTextureIfNeeded env s = none ∨
        loadTextureIfNeeded env s =
          some ((resetStale s player.frame).setImage (some img), [])) ∧
    (∀ (d : Driver) (fuel : Nat) (tex : Texture) (g : Globals) (img : Image) (area : ImRect),
      ¬ (img.format = Image.R ∨ img.format = Image.RG ∨ img.format = Image.RGB ∨
          img.format = Image.RGBA) →
      tex.upload d fuel g img area = none) := by
  refine ⟨?_, by decide, ?_, reuploadBranch_unsupported, ?_, ?_⟩
  · intro type format
    constructor
    · rintro ⟨t, f, ht, hf⟩
      exact ⟨(glTypeOf_some_iff _).mp ⟨t, ht⟩, (glFormatOf_some_iff _).mp ⟨f, hf⟩⟩
    · rintro ⟨ht, hf⟩
      obtain ⟨t, ht⟩ := (glTypeOf_some_iff _).mpr ht
      obtain ⟨f, hf⟩ := (glFormatOf_some_iff _).mpr hf
      exact ⟨t, f, ht, hf⟩
  · intro t₁ t₂ f₁ f₂ a b h1 h2 h3 h4
    exact ⟨glTypeOf_injective _ _ _ h1 h3, glFormatOf_injective _ _ _ h2 h4⟩
  · intro env s player img hvalid hplayer hframe himg hns
    rw [loadTextureIfNeeded_some env s player img hvalid hplayer hframe himg]
    split_ifs
    · exact Or.inl (reuploadBranch_unsupported _ _ _ _ _ hns)
    · exact Or.inr rfl
  · intro d fuel tex g img area hnf
    unfold Texture.upload
    cases hf : glFormatOf img.format with
    | none => rfl
    | some f => exact absurd ((glFormatOf_some_iff _).mp ⟨f, hf⟩) hnf

theorem foldl_uploadTile_calls (d : Driver) (img : Image) (f : Nat) (tiles : List Tile)
    (g : Globals) :
    (tiles.foldl (uploadTile d img f) g).calls =
      g.calls ++ tiles.flatMap (tileUploadCalls d img f) := by
  induction tiles generalizing g with
  | nil => simp
  | cons t rest ih =>
    rw [List.foldl_cons, ih, List.flatMap_cons, ← List.append_assoc]
    congr 1
    unfold uploadTile tileUploadCalls
    simp only
    split_ifs <;> simp

theorem glFormatOf_channels (format glformat : Nat) (h : glFormatOf format = some glformat) :
    1 ≤ format ∧ format ≤ 4 := by
  rcases (glFormatOf_some_iff format).mp ⟨glformat, h⟩ with h | h | h | h <;> subst h <;>
    decide

/-- For a tile whose origin lies in the image, and an image of fewer than `2^31` elements, the
`int` offset of line 152 does not leave the range of `int`. -/
theorem tileUploadCalls_eq (d : Driver) (img : Image) (glformat : Nat) (t : Tile)
    (hformat : glFormatOf img.format = some glformat)
    (hsize : img.w * img.h * img.format < 2147483648)
    (ht : 0 ≤ t.x ∧ t.x < img.w ∧ 0 ≤ t.y ∧ t.y < img.h) :
    tileUploadCalls d img glformat t = wholeTileCalls d img glformat t := by
  obtain ⟨hx0, hxw, hy0, hyh⟩ := ht
  obtain ⟨hc1, hc4⟩ := glFormatOf_channels _ _ hformat
  have hc1' : (1 : Int) ≤ (img.format : Int) := by exact_mod_cast hc1
  have hw0 : 0 ≤ img.w := by omega
  have h1 : 0 ≤ img.w * t.y := mul_nonneg hw0 hy0
  have h2 : img.w * t.y ≤ img.w * (img.h - 1) := mul_le_mul_of_nonneg_left (by omega) hw0
  have h3 : img.w * (img.h - 1) = img.w * img.h - img.w := by ring
  have h4 : 0 ≤ img.w * img.h := mul_nonneg hw0 (by omega)
  have h5 : img.w * img.h * 1 ≤ img.w * img.h * img.format :=
    mul_le_mul_of_nonneg_left hc1' h4
  have h6 : (img.w * t.y + t.x) * img.format ≤ (img.w * img.h - 1) * img.format :=
    mul_le_mul_of_nonneg_right (by omega) (by omega)
  have h7 : (img.w * img.h - 1) * (img.format : Int) =
      img.w * img.h * img.format - img.format := by ring
  have h8 : 0 ≤ (img.w * t.y + t.x) * (img.format : Int) :=
    mul_nonneg (by omega) (by omega)
  unfold tileUploadCalls wholeTileCalls
  rw [wrapInt_eq (img.w * t.y) (by omega) (by omega),
    wrapInt_eq (img.w * t.y + t.x) (by omega) (by omega),
    wrapInt_eq ((img.w * t.y + t.x) * img.format) (by omega) (by omega)]

theorem flatMap_eq_of_forall {α β : Type} (l : List α) (f f' : α → List β)
    (h : ∀ a ∈ l, f a = f' a) : l.flatMap f = l.flatMap f' := by
  induction l with
  | nil => rfl
  | cons a rest ih =>
    rw [List.flatMap_cons, List.flatMap_cons, h a (List.mem_cons_self _ _),
      ih (fun b hb => h b (List.mem_cons_of_mem _ hb))]

/-- C14 (transfers of `Texture::upload`), as the code has it.  For an image of a supported format
with fewer than `2^31` elements, a tile limit `ts ≥ 1` and a texture whose tiles have their
origins inside it, `upload(img, area)` returns (given fuel for `w` and `h` iterations of the
loops of `create`), and the argument `area` plays no part: the result is the same for every other
area.  After the (re)creation of the tiles, which happens exactly when the size or the format
differs, it issues for every owned tile, in order, one transfer of the whole tile (`t.w` x `t.h`
at offset 0, 0), read at the offset `(w * t.y + t.x) * format` of the tile's origin in the image
buffer with the full image width as the source row stride. -/
theorem upload_whole_tiles (d : Driver) (fuel : Nat) (tex : Texture) (g : Globals) (img : Image)
    (area : ImRect) (glformat : Nat) (hformat : glFormatOf img.format = some glformat)
    (hts : 1 ≤ (queryTs d g).ts) (hfw : img.w.toNat ≤ fuel) (hfh : img.h.toNat ≤ fuel)
    (hsize : img.w * img.h * img.format < 2147483648)
    (htiles : ∀ t ∈ tex.tiles,
      0 ≤ t.x ∧ (t.x : ℚ) < tex.size.x ∧ 0 ≤ t.y ∧ (t.y : ℚ) < tex.size.y) :
    ∃ tex' g' g₁, tex.upload d fuel g img area = some (tex', g') ∧
      (∀ area' : ImRect, tex.upload d fuel g img area' = some (tex', g')) ∧
      ((tex.size.x ≠ img.w ∨ tex.size.y ≠ img.h ∨ tex.format ≠ glformat) →
        tex.create d fuel g img.w img.h glformat = some (tex', g₁)) ∧
      (¬ (tex.size.x ≠ img.w ∨ tex.size.y ≠ img.h ∨ tex.format ≠ glformat) →
        tex' = tex ∧ g₁ = g) ∧
      g'.calls = g₁.calls ++ tex'.tiles.flatMap (wholeTileCalls d img glformat) := by
  by_cases hc : tex.size.x ≠ img.w ∨ tex.size.y ≠ img.h ∨ tex.format ≠ glformat
  · have hq := queryTs_foldl_giveTile d tex.tiles g
    rw [← hq] at hts
    obtain ⟨⟨tiles, g₁⟩, hres⟩ := createRows_returns d _ img.w img.h glformat hts fuel hfw fuel 0
      [] (queryTs d (tex.tiles.foldl giveTile g)) (by simpa using hfh)
    obtain ⟨L, hL, l1, -, -⟩ := createRows_spec d _ img.w img.h glformat hts _ _ _ _ _ _ _ hres
    rw [List.nil_append] at hL
    subst hL
    have hcr : tex.create d fuel g img.w img.h glformat =
        some ({ tiles := tiles, size := ⟨img.w, img.h⟩, format := glformat }, g₁) := by
      rw [create_eq, hres]; rfl
    have hup : ∀ area' : ImRect, tex.upload d fuel g img area' =
        some ({ tiles := tiles, size := ⟨img.w, img.h⟩, format := glformat },
          tiles.foldl (uploadTile d img glformat) g₁) := by
      intro area'
      unfold Texture.upload
      rw [hformat]
      simp only
      rw [if_pos hc, hcr]
    refine ⟨_, _, g₁, hup area, hup, fun _ => hcr, fun hn => absurd hc hn, ?_⟩
    rw [foldl_uploadTile_calls]
    congr 1
    apply flatMap_eq_of_forall
    intro t ht
    obtain ⟨a1, a2, a3, a4, a5, a6, a7, a8⟩ := l1 t ht
    exact tileUploadCalls_eq d img glformat t hformat hsize
      ⟨a5, by omega, by omega, by omega⟩
  · have hup : ∀ area' : ImRect, tex.upload d fuel g img area' =
        some (tex, tex.tiles.foldl (uploadTile d img glformat) g) := by
      intro area'
      unfold Texture.upload
      rw [hformat]
      simp only
      rw [if_neg hc]
    refine ⟨tex, _, g, hup area, hup, fun h => absurd h hc, fun _ => ⟨rfl, rfl⟩, ?_⟩
    rw [foldl_uploadTile_calls]
    congr 1
    apply flatMap_eq_of_forall
    intro t ht
    obtain ⟨a1, a2, a3, a4⟩ := htiles t ht
    rw [not_or, not_or] at hc
    obtain ⟨c1, c2, -⟩ := hc
    have c1' : tex.size.x = img.w := not_not.mp c1
    have c2' : tex.size.y = img.h := not_not.mp c2
    rw [c1'] at a2
    rw [c2'] at a4
    exact tileUploadCalls_eq d img glformat t hformat hsize
      ⟨a1, by exact_mod_cast a2, a3, by exact_mod_cast a4⟩

/-- The upload of the 8x4 image into a fresh texture with tiles of 4x4, for the area
`(0,0)-(2,2)`: it returns, with the same result for every area, and the two tiles receive their
4x4 pixels from the offsets 0 and 4. -/
theorem upload_whole_tiles_witness :
    ∃ tex' g', Texture.new.upload driverSmall 8 Globals.init imgT (ImRect.mk4 0 0 2 2) =
        some (tex', g') ∧
      (∀ area' : ImRect, Texture.new.upload driverSmall 8 Globals.init imgT area' =
        some (tex', g')) ∧
      ∃ g₁ : Globals,
        g'.calls = g₁.calls ++ tex'.tiles.flatMap (wholeTileCalls driverSmall imgT GL_RED) :=
  let ⟨tex', g', g₁, h1, h2, _, _, h5⟩ :=
    upload_whole_tiles driverSmall 8 Texture.new Globals.init imgT (ImRect.mk4 0 0 2 2) GL_RED
      rfl (by decide) (by decide) (by decide) (by decide) (fun _ ht => by cases ht)
  ⟨tex', g', h1, h2, g₁, h5⟩

/-- C14, counterexample to the claim as stated: the 8x4 image is uploaded into tiles of 4x4 for
the area `(0,0)-(2,2)`.  The tile at `(4,0)` does not intersect the area and yet receives a
transfer, and the tile at `(0,0)` receives all its 4x4 pixels, not the 2x2 of the
intersection. -/
theorem upload_ignores_area :
    (Texture.new.upload driverSmall 8 Globals.init imgT (ImRect.mk4 0 0 2 2)).map
        (fun r => (r.1.tiles, r.2.calls)) =
      some ([{ id := 0, x := 0, y := 0, w := 4, h := 4, format := GL_RED },
             { id := 1, x := 4, y := 0, w := 4, h := 4, format := GL_RED }],
            [GLCall.genTextures 0, GLCall.texImage2D 0 4 4 GL_RED,
             GLCall.genTextures 1, GLCall.texImage2D 1 4 4 GL_RED,
             GLCall.texSubImage2D 0 4 4 GL_RED GL_FLOAT 8 0,
             GLCall.texSubImage2D 1 4 4 GL_RED GL_FLOAT 8 4]) ∧
    ¬ Tile.intersects { id := 1, x := 4, y := 0, w := 4, h := 4, format := GL_RED }
        (ImRect.mk4 0 0 2 2) := by
  decide!

theorem area_apart (p : ImVec2) (h : (ImRect.mk4 368 368 443 443).Contains p) :
    ¬ (ImRect.mk4 0 0 43 43).Contains p ∧ ¬ (ImRect.mk4 868 868 943 943).Contains p := by
  obtain ⟨h1, h2, h3, h4⟩ := h
  simp only [ImRect.mk4] at h1 h2 h3 h4
  constructor
  · rintro ⟨-, -, c3, -⟩
    simp only [ImRect.mk4] at c3
    linarith
  · rintro ⟨c1, -, -, -⟩
    simp only [ImRect.mk4] at c1
    linarith

/-- C15 (bounding-box over-approximation of the resident region).  On one unchanged frame of a
1000x1000 image, the view near `(0,0)` transfers `(0,0)-(43,43)` and the view near `(900,900)`
transfers `(868,868)-(943,943)`; `loadedRect` is then their bounding box `(0,0)-(943,943)`;
the later view around `(400,400)` has the area `(368,368)-(443,443)`, none of whose points lies
in a transferred rectangle, and it issues no call. -/
theorem bounding_box_overapproximation :
    loadTextureIfNeeded (envK 0 0 10 10) seqA =
      some (seqK (ImRect.mk4 0 0 43 43),
        [Call.create 1000 1000 GL_UNSIGNED_BYTE GL_RED,
         Call.texSubImage2D 1 0 0 43 43 GL_RED GL_UNSIGNED_BYTE 1000 0]) ∧
    loadTextureIfNeeded (envK 900 900 910 910) (seqK (ImRect.mk4 0 0 43 43)) =
      some (seqK (ImRect.mk4 0 0 943 943),
        [Call.texSubImage2D 1 868 868 75 75 GL_RED GL_UNSIGNED_BYTE 1000 868868]) ∧
    (seqK (ImRect.mk4 0 0 943 943)).loadedRect =
      (ImRect.mk4 0 0 43 43).Add (ImRect.mk4 868 868 943 943) ∧
    uploadArea (envK 400 400 410 410) 1000 1000 = ImRect.mk4 368 368 443 443 ∧
    (∀ p : ImVec2, (ImRect.mk4 368 368 443 443).Contains p →
      (seqK (ImRect.mk4 0 0 943 943)).loadedRect.Contains p ∧
      ¬ (ImRect.mk4 0 0 43 43).Contains p ∧ ¬ (ImRect.mk4 868 868 943 943).Contains p) ∧
    loadTextureIfNeeded (envK 400 400 410 410) (seqK (ImRect.mk4 0 0 943 943)) =
      some (seqK (ImRect.mk4 0 0 943 943), []) := by
  refine ⟨by decide!, by decide!, by decide!, by decide!, ?_, by decide!⟩
  intro p hp
  refine ⟨?_, area_apart p hp⟩
  obtain ⟨h1, h2, h3, h4⟩ := hp
  simp only [ImRect.mk4] at h1 h2 h3 h4
  refine ⟨?_, ?_, ?_, ?_⟩ <;> simp only [seqK, ImRect.mk4] <;> linarith

/-! ## The tile grid of `Texture::create` -/

theorem cellCount_step (ts len : Int) (hts : 1 ≤ ts) (hlen : 0 < len) :
    cellCount ts len = cellCount ts (len - ts) + 1 := by
  unfold cellCount
  have h1 : len + ts - 1 = (len - 1) + 1 * ts := by ring
  have h2 : len - ts + ts - 1 = len - 1 := by ring
  rw [h1, Int.add_mul_ediv_right _ _ (by omega), h2]
  have : 0 ≤ (len - 1) / ts := Int.ediv_nonneg (by omega) (by omega)
  omega

theorem cellCount_done (ts len : Int) (hts : 1 ≤ ts) (hlen : len ≤ 0) :
    cellCount ts len = 0 := by
  unfold cellCount
  have : (len + ts - 1) / ts < 1 := Int.ediv_lt_of_lt_mul (by omega) (by omega)
  omega

theorem rowCellsFrom_step (ts w h y x : Int) (hts : 1 ≤ ts) (hx : x < w) :
    rowCellsFrom ts w h y x =
      (x, y, min ts (w - x), min ts (h - y)) :: rowCellsFrom ts w h y (x + ts) := by
  unfold rowCellsFrom
  have hc : cellCount ts (w - x) = cellCount ts (w - (x + ts)) + 1 := by
    rw [cellCount_step ts (w - x) hts (by omega)]
    congr 2
    ring
  rw [hc, List.range_succ_eq_map, List.map_cons, List.map_map]
  congr 1
  · simp
  · apply List.map_congr_left
    intro i _
    simp only [Function.comp, Nat.succ_eq_add_one, Nat.cast_add, Nat.cast_one]
    have : x + ((i : Int) + 1) * ts = x + ts + i * ts := by ring
    rw [this]

theorem rowCellsFrom_done (ts w h y x : Int) (hts : 1 ≤ ts) (hx : ¬ x < w) :
    rowCellsFrom ts w h y x = [] := by
  unfold rowCellsFrom
  rw [cellCount_done ts (w - x) hts (by omega)]
  rfl

theorem gridCellsFrom_step (ts w h y : Int) (hts : 1 ≤ ts) (hy : y < h) :
    gridCellsFrom ts w h y = rowCellsFrom ts w h y 0 ++ gridCellsFrom ts w h (y + ts) := by
  unfold gridCellsFrom
  have hc : cellCount ts (h - y) = cellCount ts (h - (y + ts)) + 1 := by
    rw [cellCount_step ts (h - y) hts (by omega)]
    congr 2
    ring
  rw [hc, List.range_succ_eq_map, List.flatMap_cons, List.flatMap_map]
  congr 1
  · simp
  · apply List.flatMap_congr
    intro j _
    simp only [Function.comp, Nat.succ_eq_add_one, Nat.cast_add, Nat.cast_one]
    have : y + ((j : Int) + 1) * ts = y + ts + j * ts := by ring
    rw [this]

theorem gridCellsFrom_done (ts w h y : Int) (hts : 1 ≤ ts) (hy : ¬ y < h) :
    gridCellsFrom ts w h y = [] := by
  unfold gridCellsFrom
  rw [cellCount_done ts (h - y) hts (by omega)]
  rfl

theorem createRow_cells (d : Driver) (ts w h : Int) (format : Nat) (y : Int) (hts : 1 ≤ ts)
    (fuel : Nat) (x : Int) (tiles tiles' : List Tile) (g g' : Globals)
    (hr : createRow d ts w h format y fuel x tiles g = some (tiles', g')) :
    tiles'.map Tile.geom = tiles.map Tile.geom ++ rowCellsFrom ts w h y x := by
  induction fuel generalizing x tiles g with
  | zero =>
    unfold createRow at hr
    by_cases hx : x < w
    · rw [if_pos hx] at hr; cases hr
    · rw [if_neg hx] at hr
      obtain ⟨rfl, -⟩ := Prod.mk.inj (Option.some.inj hr)
      rw [rowCellsFrom_done ts w h y x hts hx, List.append_nil]
  | succ n ih =>
    unfold createRow at hr
    by_cases hx : x < w
    · rw [if_pos hx] at hr
      dsimp only at hr
      have hd := takeTile_dims d g (min ts (w - x)) (min ts (h - y)) format
      generalize takeTile d g (min ts (w - x)) (min ts (h - y)) format = tt at hr hd
      obtain ⟨t, g₁⟩ := tt
      rw [ih _ _ _ hr, rowCellsFrom_step ts w h y x hts hx, List.map_append, List.map_cons,
        List.map_nil, List.append_assoc, List.singleton_append]
      congr 2
      simp only at hd
      simp only [Tile.geom, hd.1, hd.2]
    · rw [if_neg hx] at hr
      obtain ⟨rfl, -⟩ := Prod.mk.inj (Option.some.inj hr)
      rw [rowCellsFrom_done ts w h y x hts hx, List.append_nil]

theorem createRows_cells (d : Driver) (ts w h : Int) (format : Nat) (hts : 1 ≤ ts)
    (rowFuel fuel : Nat) (y : Int) (tiles tiles' : List Tile) (g g' : Globals)
    (hr : createRows d ts w h format rowFuel fuel y tiles g = some (tiles', g')) :
    tiles'.map Tile.geom = tiles.map Tile.geom ++ gridCellsFrom ts w h y := by
  induction fuel generalizing y tiles g with
  | zero =>
    unfold createRows at hr
    by_cases hy : y < h
    · rw [if_pos hy] at hr; cases hr
    · rw [if_neg hy] at hr
      obtain ⟨rfl, -⟩ := Prod.mk.inj (Option.some.inj hr)
      rw [gridCellsFrom_done ts w h y hts hy, List.append_nil]
  | succ n ih =>
    unfold createRows at hr
    by_cases hy : y < h
    · rw [if_pos hy] at hr
      cases hrow : createRow d ts w h format y rowFuel 0 tiles g with
      | none => rw [hrow] at hr; cases hr
      | some p =>
        obtain ⟨tiles₁, g₁⟩ := p
        rw [hrow] at hr
        rw [ih _ _ _ hr, createRow_cells d ts w h format y hts _ _ _ _ _ _ hrow,
          gridCellsFrom_step ts w h y hts hy, List.append_assoc]
    · rw [if_neg hy] at hr
      obtain ⟨rfl, -⟩ := Prod.mk.inj (Option.some.inj hr)
      rw [gridCellsFrom_done ts w h y hts hy, List.append_nil]

theorem length_rowCellsFrom (ts w h y x : Int) :
    (rowCellsFrom ts w h y x).length = cellCount ts (w - x) := by
  unfold rowCellsFrom
  rw [List.length_map, List.length_range]

theorem length_flatMap_const {α β : Type} (l : List α) (f : α → List β) (n : Nat)
    (hf : ∀ a ∈ l, (f a).length = n) : (l.flatMap f).length = l.length * n := by
  induction l with
  | nil => simp
  | cons a rest ih =>
    rw [List.flatMap_cons, List.length_append, hf a (List.mem_cons_self _ _),
      ih (fun b hb => hf b (List.mem_cons_of_mem _ hb)), List.length_cons]
    ring

theorem length_gridCells (ts w h : Int) :
    (gridCells ts w h).length = cellCount ts w * cellCount ts h := by
  unfold gridCells gridCellsFrom
  rw [length_flatMap_const _ _ (cellCount ts w), List.length_range]
  · simp only [sub_zero]
    ring
  · intro j _
    rw [length_rowCellsFrom]
    simp

/-- C16 (tile grid of `Texture::create`).  For every `w`, `h` and every tile limit `ts ≥ 1`,
`create` returns (given fuel for `w` and `h` loop iterations), and its tiles are, in order, the
cells of the grid in row-major order: the row `y = 0` by increasing `x`, then `y = ts`, ..., the
cell at `(x, y)` of width `min(ts, w - x)` and height `min(ts, h - y)`; their number is
`ceil(w/ts) * ceil(h/ts)`. -/
theorem create_grid (d : Driver) (self : Texture) (g : Globals) (w h : Int) (format : Nat)
    (fuel : Nat) (hts : 1 ≤ (queryTs d g).ts) (hfw : w.toNat ≤ fuel) (hfh : h.toNat ≤ fuel) :
    ∃ tex g', self.create d fuel g w h format = some (tex, g') ∧
      tex.tiles.map Tile.geom = gridCells (queryTs d g).ts w h ∧
      tex.tiles.length = cellCount (queryTs d g).ts w * cellCount (queryTs d g).ts h := by
  have hq := queryTs_foldl_giveTile d self.tiles g
  rw [← hq] at hts ⊢
  obtain ⟨⟨tiles, g'⟩, hres⟩ := createRows_returns d _ w h format hts fuel hfw fuel 0 []
    (queryTs d (self.tiles.foldl giveTile g)) (by simpa using hfh)
  have hcells := createRows_cells d _ w h format hts _ _ _ _ _ _ _ hres
  rw [List.map_nil, List.nil_append] at hcells
  refine ⟨{ tiles := tiles, size := ⟨w, h⟩, format := format }, g', ?_, hcells, ?_⟩
  · rw [create_eq, hres]; rfl
  · have := congrArg List.length hcells
    rw [List.length_map] at this
    rw [this]
    exact length_gridCells _ w h

/-- Scenario B: 9000x9000 with `ts = 4096` gives the nine cells of a 3x3 grid. -/
theorem create_grid_witness :
    ∃ tex g', Texture.new.create driverB 9000 Globals.init 9000 9000 GL_RGB = some (tex, g') ∧
      tex.tiles.map Tile.geom = gridCells 4096 9000 9000 ∧
      tex.tiles.length = cellCount 4096 9000 * cellCount 4096 9000 :=
  create_grid driverB Texture.new Globals.init 9000 9000 GL_RGB 9000 (by decide) (by decide)
    (by decide)

theorem takeTile_of_match (d : Driver) (g : Globals) (w h : Int) (format : Nat)
    (hex : (w, h, format) ∈ g.tileCache.map Tile.key) :
    ∃ t cache, takeTile d g w h format = (t, { g with tileCache := cache }) ∧
      List.Perm g.tileCache (t :: cache) ∧ t.key = (w, h, format) := by
  obtain ⟨u, hu, hk⟩ := List.mem_map.mp hex
  simp only [Tile.key, Prod.mk.injEq] at hk
  cases hm : takeMatching w h format g.tileCache with
  | none => exact absurd hk ((takeMatching_none w h format _).mp hm u hu)
  | some p =>
    obtain ⟨t, cache⟩ := p
    obtain ⟨-, ⟨k1, k2, k3⟩, -, hperm⟩ := takeMatching_some w h format _ _ _ hm
    refine ⟨t, cache, ?_, hperm, ?_⟩
    · unfold takeTile
      rw [hm]
    · simp only [Tile.key, k1, k2, k3]

theorem PoolCovers.take {pool cache : List Tile} {t : Tile} {k₀ : Int × Int × Nat}
    {need : List (Int × Int × Nat)} (hcov : PoolCovers pool (k₀ :: need))
    (hperm : List.Perm pool (t :: cache)) (hk : t.key = k₀) : PoolCovers cache need := by
  intro k
  have h1 := hcov k
  have h2 := (hperm.map Tile.key).countP_eq (fun c => decide (c = k))
  rw [h2, List.map_cons, hk, List.countP_cons, List.countP_cons] at h1
  omega

theorem PoolCovers.head_mem {pool : List Tile} {k₀ : Int × Int × Nat}
    {need : List (Int × Int × Nat)} (hcov : PoolCovers pool (k₀ :: need)) :
    k₀ ∈ pool.map Tile.key := by
  have h1 := hcov k₀
  rw [List.countP_cons] at h1
  simp only [decide_True, if_true] at h1
  have hpos : 0 < (pool.map Tile.key).countP (fun c => decide (c = k₀)) := by omega
  obtain ⟨c, hc, hd⟩ := List.countP_pos_iff.mp hpos
  simp only [decide_eq_true_eq] at hd
  exact hd ▸ hc

theorem createRow_reuse (d : Driver) (ts w h : Int) (format : Nat) (y : Int) (hts : 1 ≤ ts)
    (rest : List (Int × Int × Nat)) (fuel : Nat) (x : Int) (tiles tiles' : List Tile)
    (g g' : Globals)
    (hr : createRow d ts w h format y fuel x tiles g = some (tiles', g'))
    (hcov : PoolCovers g.tileCache ((rowCellsFrom ts w h y x).map (cellKey format) ++ rest)) :
    g'.names = g.names ∧ g'.calls = g.calls ∧ g'.ts = g.ts ∧ PoolCovers g'.tileCache rest ∧
      g'.tileCache.length + (rowCellsFrom ts w h y x).length = g.tileCache.length := by
  induction fuel generalizing x tiles g with
  | zero =>
    unfold createRow at hr
    by_cases hx : x < w
    · rw [if_pos hx] at hr; cases hr
    · rw [if_neg hx] at hr
      obtain ⟨-, rfl⟩ := Prod.mk.inj (Option.some.inj hr)
      rw [rowCellsFrom_done ts w h y x hts hx] at hcov ⊢
      exact ⟨rfl, rfl, rfl, hcov, rfl⟩
  | succ n ih =>
    unfold createRow at hr
    by_cases hx : x < w
    · rw [if_pos hx] at hr
      dsimp only at hr
      rw [rowCellsFrom_step ts w h y x hts hx] at hcov ⊢
      rw [List.map_cons, List.cons_append] at hcov
      obtain ⟨t, cache, htake, hperm, hk⟩ :=
        takeTile_of_match d g (min ts (w - x)) (min ts (h - y)) format hcov.head_mem
      rw [htake] at hr
      obtain ⟨h1, h2, h3, h4, h5⟩ := ih _ _ _ hr (hcov.take hperm hk)
      refine ⟨h1, h2, h3, h4, ?_⟩
      have hl := hperm.length_eq
      simp only [List.length_cons] at hl h5 ⊢
      omega
    · rw [if_neg hx] at hr
      obtain ⟨-, rfl⟩ := Prod.mk.inj (Option.some.inj hr)
      rw [rowCellsFrom_done ts w h y x hts hx] at hcov ⊢
      exact ⟨rfl, rfl, rfl, hcov, rfl⟩

theorem createRows_reuse (d : Driver) (ts w h : Int) (format : Nat) (hts : 1 ≤ ts)
    (rowFuel fuel : Nat) (y : Int) (tiles tiles' : List Tile) (g g' : Globals)
    (hr : createRows d ts w h format rowFuel fuel y tiles g = some (tiles', g'))
    (hcov : PoolCovers g.tileCache ((gridCellsFrom ts w h y).map (cellKey format))) :
    g'.names = g.names ∧ g'.calls = g.calls ∧ g'.ts = g.ts ∧
      g'.tileCache.length + (gridCellsFrom ts w h y).length = g.tileCache.length := by
  induction fuel generalizing y tiles g with
  | zero =>
    unfold createRows at hr
    by_cases hy : y < h
    · rw [if_pos hy] at hr; cases hr
    · rw [if_neg hy] at hr
      obtain ⟨-, rfl⟩ := Prod.mk.inj (Option.some.inj hr)
      rw [gridCellsFrom_done ts w h y hts hy]
      exact ⟨rfl, rfl, rfl, rfl⟩
  | succ n ih =>
    unfold createRows at hr
    by_cases hy : y < h
    · rw [if_pos hy] at hr
      cases hrow : createRow d ts w h format y rowFuel 0 tiles g with
      | none => rw [hrow] at hr; cases hr
      | some p =>
        obtain ⟨tiles₁, g₁⟩ := p
        rw [hrow] at hr
        rw [gridCellsFrom_step ts w h y hts hy, List.map_append] at hcov
        obtain ⟨a1, a2, a3, a4, a5⟩ :=
          createRow_reuse d ts w h format y hts _ _ _ _ _ _ _ hrow hcov
        obtain ⟨b1, b2, b3, b5⟩ := ih _ _ _ hr a4
        refine ⟨b1.trans a1, b2.trans a2, b3.trans a3, ?_⟩
        rw [gridCellsFrom_step ts w h y hts hy, List.length_append]
        omega
    · rw [if_neg hy] at hr
      obtain ⟨-, rfl⟩ := Prod.mk.inj (Option.some.inj hr)
      rw [gridCellsFrom_done ts w h y hts hy]
      exact ⟨rfl, rfl, rfl, rfl⟩

theorem takeTile_format (d : Driver) (g : Globals) (w h : Int) (format : Nat) :
    (takeTile d g w h format).1.format = format := by
  unfold takeTile
  cases hm : takeMatching w h format g.tileCache with
  | none => cases hl : g.tileCache.getLast? <;> rfl
  | some p =>
    obtain ⟨t, cache⟩ := p
    exact (takeMatching_some w h format _ _ _ hm).2.1.2.2

theorem createRow_ts_format (d : Driver) (ts w h : Int) (format : Nat) (y : Int) (fuel : Nat)
    (x : Int) (tiles tiles' : List Tile) (g g' : Globals)
    (hr : createRow d ts w h format y fuel x tiles g = some (tiles', g'))
    (hf : ∀ t ∈ tiles, t.format = format) :
    g'.ts = g.ts ∧ ∀ t ∈ tiles', t.format = format := by
  induction fuel generalizing x tiles g with
  | zero =>
    unfold createRow at hr
    by_cases hx : x < w
    · rw [if_pos hx] at hr; cases hr
    · rw [if_neg hx] at hr
      obtain ⟨rfl, rfl⟩ := Prod.mk.inj (Option.some.inj hr)
      exact ⟨rfl, hf⟩
  | succ n ih =>
    unfold createRow at hr
    by_cases hx : x < w
    · rw [if_pos hx] at hr
      dsimp only at hr
      have h1 := takeTile_ts d g (min ts (w - x)) (min ts (h - y)) format
      have h2 := takeTile_format d g (min ts (w - x)) (min ts (h - y)) format
      generalize takeTile d g (min ts (w - x)) (min ts (h - y)) format = tt at hr h1 h2
      obtain ⟨t, g₁⟩ := tt
      obtain ⟨a1, a2⟩ := ih _ _ _ hr (by
        intro u hu
        rcases List.mem_append.mp hu with hu | hu
        · exact hf u hu
        · rw [List.mem_singleton] at hu
          subst hu
          exact h2)
      exact ⟨a1.trans h1, a2⟩
    · rw [if_neg hx] at hr
      obtain ⟨rfl, rfl⟩ := Prod.mk.inj (Option.some.inj hr)
      exact ⟨rfl, hf⟩

theorem createRows_ts_format (d : Driver) (ts w h : Int) (format : Nat) (rowFuel fuel : Nat)
    (y : Int) (tiles tiles' : List Tile) (g g' : Globals)
    (hr : createRows d ts w h format rowFuel fuel y tiles g = some (tiles', g'))
    (hf : ∀ t ∈ tiles, t.format = format) :
    g'.ts = g.ts ∧ ∀ t ∈ tiles', t.format = format := by
  induction fuel generalizing y tiles g with
  | zero =>
    unfold createRows at hr
    by_cases hy : y < h
    · rw [if_pos hy] at hr; cases hr
    · rw [if_neg hy] at hr
      obtain ⟨rfl, rfl⟩ := Prod.mk.inj (Option.some.inj hr)
      exact ⟨rfl, hf⟩
  | succ n ih =>
    unfold createRows at hr
    by_cases hy : y < h
    · rw [if_pos hy] at hr
      cases hrow : createRow d ts w h format y rowFuel 0 tiles g with
      | none => rw [hrow] at hr; cases hr
      | some p =>
        obtain ⟨tiles₁, g₁⟩ := p
        rw [hrow] at hr
        obtain ⟨a1, a2⟩ := createRow_ts_format d ts w h format y _ _ _ _ _ _ hrow hf
        obtain ⟨b1, b2⟩ := ih _ _ _ hr a2
        exact ⟨b1.trans a1, b2⟩
    · rw [if_neg hy] at hr
      obtain ⟨rfl, rfl⟩ := Prod.mk.inj (Option.some.inj hr)
      exact ⟨rfl, hf⟩

theorem queryTs_fields (d : Driver) (g : Globals) :
    (queryTs d g).tileCache = g.tileCache ∧ (queryTs d g).names = g.names ∧
      (queryTs d g).calls = g.calls := by
  unfold queryTs
  split_ifs <;> exact ⟨rfl, rfl, rfl⟩

theorem queryTs_of_pos (d : Driver) (g : Globals) (h : 1 ≤ g.ts) : (queryTs d g).ts = g.ts := by
  unfold queryTs
  rw [if_neg (by omega)]

/-- C17 (re-creation reuses tiles without GPU work).  If the tiles of a texture were produced
by `create(w, h, format)` with a tile limit `ts ≥ 1`, then for every pool state (with the same
static `ts`) a further `create(w, h, format)` on it returns, generates no handle and issues no
driver call at all (so `initTile` is never called: every cell is served by the exact-match path
of `takeTile`), leaves the texture with the same number of tiles, of the same offsets and
dimensions and of the requested format, and leaves the pool with the size it had. -/
theorem recreate_reuses_tiles (d : Driver) (tex₀ tex : Texture) (g₀ g₁ g : Globals)
    (w h : Int) (format : Nat) (fuel₀ fuel : Nat)
    (hprod : tex₀.create d fuel₀ g₀ w h format = some (tex, g₁))
    (hts : 1 ≤ g₁.ts) (hg : g.ts = g₁.ts) (hfw : w.toNat ≤ fuel) (hfh : h.toNat ≤ fuel) :
    ∃ tex' g', tex.create d fuel g w h format = some (tex', g') ∧
      g'.names = g.names ∧ g'.calls = g.calls ∧
      tex'.tiles.map Tile.geom = tex.tiles.map Tile.geom ∧
      tex'.tiles.length = tex.tiles.length ∧ (∀ t ∈ tex'.tiles, t.format = format) ∧
      g'.tileCache.length = g.tileCache.length := by
  -- the first creation: its tiles are the grid cells, of the requested format
  rw [create_eq] at hprod
  cases hrows₀ : createRows d (queryTs d (tex₀.tiles.foldl giveTile g₀)).ts w h format fuel₀
      fuel₀ 0 [] (queryTs d (tex₀.tiles.foldl giveTile g₀)) with
  | none => rw [hrows₀] at hprod; cases hprod
  | some p =>
    obtain ⟨tiles₀, g₁'⟩ := p
    rw [hrows₀] at hprod
    obtain ⟨rfl, rfl⟩ := Prod.mk.inj (Option.some.inj hprod)
    obtain ⟨hts₀, hfmt₀⟩ := createRows_ts_format d _ w h format _ _ _ _ _ _ _ hrows₀
      (fun t ht => by cases ht)
    rw [hts₀] at hts hg
    have hcells₀ := createRows_cells d _ w h format hts _ _ _ _ _ _ _ hrows₀
    rw [List.map_nil, List.nil_append] at hcells₀
    generalize (queryTs d (tex₀.tiles.foldl giveTile g₀)).ts = ts at hts hg hcells₀ hrows₀
    -- the second creation
    have hq2 : (queryTs d (tiles₀.foldl giveTile g)).ts = ts := by
      rw [queryTs_foldl_giveTile, queryTs_of_pos d g (by omega), hg]
    have hqc : (queryTs d (tiles₀.foldl giveTile g)).tileCache = g.tileCache ++ tiles₀ := by
      rw [(queryTs_fields d _).1, foldl_giveTile]
    have hqn : (queryTs d (tiles₀.foldl giveTile g)).names = g.names := by
      rw [(queryTs_fields d _).2.1, foldl_giveTile]
    have hql : (queryTs d (tiles₀.foldl giveTile g)).calls = g.calls := by
      rw [(queryTs_fields d _).2.2, foldl_giveTile]
    obtain ⟨⟨tiles', g'⟩, hres⟩ := createRows_returns d ts w h format hts fuel hfw fuel 0 []
      (queryTs d (tiles₀.foldl giveTile g)) (by simpa using hfh)
    have hkeys : tiles₀.map Tile.key = (gridCellsFrom ts w h 0).map (cellKey format) := by
      have : tiles₀.map Tile.key = (tiles₀.map Tile.geom).map (cellKey format) := by
        rw [List.map_map]
        apply List.map_congr_left
        intro t ht
        simp only [Function.comp, Tile.key, cellKey, Tile.geom, hfmt₀ t ht]
      rw [this, hcells₀]
    have hcov : PoolCovers (queryTs d (tiles₀.foldl giveTile g)).tileCache
        ((gridCellsFrom ts w h 0).map (cellKey format)) := by
      intro k
      rw [hqc, List.map_append, List.countP_append, hkeys]
      omega
    obtain ⟨r1, r2, -, r4⟩ := createRows_reuse d ts w h format hts _ _ _ _ _ _ _ hres hcov
    have hcells := createRows_cells d ts w h format hts _ _ _ _ _ _ _ hres
    rw [List.map_nil, List.nil_append] at hcells
    obtain ⟨-, hfmt⟩ := createRows_ts_format d ts w h format _ _ _ _ _ _ _ hres
      (fun t ht => by cases ht)
    have hlen : tiles'.length = tiles₀.length := by
      have e1 := congrArg List.length hcells
      have e2 := congrArg List.length hcells₀
      rw [List.length_map] at e1 e2
      rw [e1, e2]
    refine ⟨{ tiles := tiles', size := ⟨w, h⟩, format := format }, g', ?_, ?_, ?_, ?_, hlen,
      hfmt, ?_⟩
    · rw [create_eq, hq2, hres]; rfl
    · rw [r1, hqn]
    · rw [r2, hql]
    · show tiles'.map Tile.geom = tiles₀.map Tile.geom
      rw [hcells, hcells₀]
    · rw [hqc, List.length_append] at r4
      have e2 := congrArg List.length hcells₀
      rw [List.length_map] at e2
      omega

/-- A 9000x9000 texture created with `ts = 4096` and created again. -/
theorem recreate_reuses_tiles_witness :
    ∃ tex g₁ tex' g', Texture.new.create driverB 3 Globals.init 9000 9000 GL_RGB =
        some (tex, g₁) ∧
      tex.create driverB 9000 g₁ 9000 9000 GL_RGB = some (tex', g') ∧
      g'.names = g₁.names ∧ g'.calls = g₁.calls ∧
      tex'.tiles.map Tile.geom = tex.tiles.map Tile.geom ∧
      tex'.tiles.length = tex.tiles.length ∧ (∀ t ∈ tex'.tiles, t.format = GL_RGB) ∧
      g'.tileCache.length = g₁.tileCache.length := by
  have h₀ : ∃ r, Texture.new.create driverB 3 Globals.init 9000 9000 GL_RGB = some r ∧
      r.2.ts = 4096 := ⟨_, rfl, rfl⟩
  obtain ⟨⟨tex, g₁⟩, hprod, hts⟩ := h₀
  obtain ⟨tex', g', h⟩ := recreate_reuses_tiles driverB Texture.new tex Globals.init g₁ g₁
    9000 9000 GL_RGB 3 9000 hprod (by rw [hts]; decide) rfl (by decide) (by decide)
  exact ⟨tex, g₁, tex', g', hprod, h⟩

/-! ## The transfer source of the planner -/

theorem uploadArea_min_int (env : Env) (w h : Int) :
    ∃ x₀ y₀ : Int, (uploadArea env w h).Min.x = x₀ ∧ (uploadArea env w h).Min.y = y₀ := by
  unfold uploadArea
  simp only [ImRect.Clip, ImRect.mk4, ImRect.Expand, ImRect.Floor]
  have hx : ∀ a : Int, ∃ x₀ : Int,
      (if (if (a : ℚ) < 0 then (0 : ℚ) else a) - 32 < 0 then (0 : ℚ)
        else (if (a : ℚ) < 0 then (0 : ℚ) else a) - 32) = x₀ := by
    intro a
    split_ifs
    · exact ⟨0, by simp⟩
    · exact ⟨-32, by push_cast; ring⟩
    · exact ⟨0, by simp⟩
    · exact ⟨a - 32, by push_cast; ring⟩
  obtain ⟨x₀, hx₀⟩ := hx (truncToInt (viewRect env w h).Min.x)
  obtain ⟨y₀, hy₀⟩ := hx (truncToInt (viewRect env w h).Min.y)
  exact ⟨x₀, y₀, hx₀, hy₀⟩

theorem reuploadBranch_source (env : Env) (s s' : Sequence) (frame : Int) (img : Image)
    (area : ImRect) (calls : List Call) (c : Call)
    (h : reuploadBranch env s frame img area = some (s', calls)) (hc : c ∈ transfers calls) :
    c.rowLength = img.w ∧
      ∃ e, elsizeOf img.type = some e ∧
        c.dataOffset =
          wrapSize (wrapSize (e *
            wrapInt (wrapInt (img.w * truncToInt area.Min.y) + truncToInt area.Min.x)) *
              img.format) := by
  unfold reuploadBranch at h
  cases ht : glTypeOf img.type with
  | none => rw [ht] at h; cases h
  | some t =>
    cases hf : glFormatOf img.format with
    | none => rw [ht, hf] at h; cases h
    | some f =>
      cases he : elsizeOf img.type with
      | none => rw [ht, hf, he] at h; cases h
      | some e =>
        rw [ht, hf, he] at h
        obtain ⟨-, rfl⟩ := Prod.mk.inj (Option.some.inj h)
        rw [transfers_create_append] at hc
        by_cases hpos : area.GetWidth > 0 ∧ area.GetHeight > 0
        · rw [if_pos hpos] at hc
          have hc' : c ∈ [Call.texSubImage2D _ area.Min.x area.Min.y area.GetWidth
              area.GetHeight f t img.w _] := hc
          rw [List.mem_singleton] at hc'
          subst hc'
          exact ⟨rfl, e, rfl, rfl⟩
        · rw [if_neg hpos] at hc
          cases hc

theorem reuploadBranch_supported (env : Env) (s s' : Sequence) (frame : Int) (img : Image)
    (area : ImRect) (calls : List Call)
    (h : reuploadBranch env s frame img area = some (s', calls)) : img.Supported := by
  by_contra hn
  rw [reuploadBranch_unsupported env s frame img area hn] at h
  cases h

theorem loadTextureIfNeeded_source (env : Env) (s s' : Sequence) (calls : List Call)
    (c : Call) (h : loadTextureIfNeeded env s = some (s', calls)) (hc : c ∈ transfers calls) :
    ∃ img, s'.image = some img ∧ img.Supported ∧ c.rowLength = img.w ∧
      ∃ e, elsizeOf img.type = some e ∧
        c.dataOffset =
          wrapSize (wrapSize (e *
            wrapInt (wrapInt (img.w * truncToInt (uploadArea env img.w img.h).Min.y) +
              truncToInt (uploadArea env img.w img.h).Min.x)) * img.format) := by
  by_cases hvp : s.valid = true ∧ ∃ player, s.player = some player
  swap
  · have hs : loadTextureIfNeeded env s = some (s, []) := by
      unfold loadTextureIfNeeded
      split
      · rename_i p hv hp
        exact absurd ⟨hv, p, hp⟩ hvp
      · rfl
    rw [hs] at h
    obtain ⟨-, rfl⟩ := Prod.mk.inj (Option.some.inj h)
    cases hc
  obtain ⟨hvalid, player, hplayer⟩ := hvp
  by_cases hframe : 0 < player.frame
  swap
  · unfold loadTextureIfNeeded at h
    rw [hvalid, hplayer] at h
    simp [hframe] at h
  cases hi : (getCurrentImage env (resetStale s player.frame)).1 with
  | none =>
    rw [loadTextureIfNeeded_none env s player hvalid hplayer hframe hi] at h
    obtain ⟨-, rfl⟩ := Prod.mk.inj (Option.some.inj h)
    cases hc
  | some img =>
    rw [loadTextureIfNeeded_some env s player img hvalid hplayer hframe hi] at h
    split_ifs at h with hcond
    · obtain ⟨-, -, h3, -, -, -⟩ := reuploadBranch_some _ _ _ _ _ _ _ h
      obtain ⟨r1, r2⟩ := reuploadBranch_source _ _ _ _ _ _ _ c h hc
      exact ⟨img, h3, reuploadBranch_supported _ _ _ _ _ _ _ h, r1, r2⟩
    · obtain ⟨-, rfl⟩ := Prod.mk.inj (Option.some.inj h)
      cases hc

theorem elsizeOf_values (type : Nat) (e : Int) (h : elsizeOf type = some e) : e = 1 ∨ e = 4 := by
  unfold elsizeOf at h
  split_ifs at h
  · exact Or.inl (Option.some.inj h).symm
  · exact Or.inr (Option.some.inj h).symm

/-- For an origin `(x₀, y₀)` inside an image of fewer than `2^31` pixels, the `int` pixel index of
line 157 and its `size_t` products are the mathematical ones. -/
theorem dataOffset_exact (img : Image) (e x₀ y₀ : Int) (hsupp : img.Supported)
    (he : elsizeOf img.type = some e) (hsize : img.w * img.h < 2147483648)
    (hx : 0 ≤ x₀ ∧ x₀ < img.w) (hy : 0 ≤ y₀ ∧ y₀ < img.h) :
    wrapSize (wrapSize (e * wrapInt (wrapInt (img.w * truncToInt (y₀ : ℚ)) +
        truncToInt (x₀ : ℚ))) * img.format) = e * (img.format * (img.w * y₀ + x₀)) ∧
      0 ≤ e * (img.format * (img.w * y₀ + x₀)) ∧
      e * (img.format * (img.w * y₀ + x₀)) < img.byteSize := by
  obtain ⟨hx0, hxw⟩ := hx
  obtain ⟨hy0, hyh⟩ := hy
  have hw0 : 0 ≤ img.w := by omega
  have h1 : 0 ≤ img.w * y₀ := mul_nonneg hw0 hy0
  have h2 : img.w * y₀ ≤ img.w * (img.h - 1) := mul_le_mul_of_nonneg_left (by omega) hw0
  have h3 : img.w * (img.h - 1) = img.w * img.h - img.w := by ring
  have h4 : 1 * img.w ≤ img.h * img.w := mul_le_mul_of_nonneg_right (by omega) hw0
  have h5 : img.h * img.w = img.w * img.h := by ring
  have h6 : 1 * img.h ≤ img.w * img.h := mul_le_mul_of_nonneg_right (by omega) (by omega)
  obtain ⟨c1, c4⟩ : 1 ≤ img.format ∧ img.format ≤ 4 := by
    rcases hsupp.2 with h | h | h | h <;> rw [h] <;> decide
  have hbs : img.byteSize = e * (img.w * img.h * img.format) := by
    unfold Image.byteSize
    rw [he]
    rfl
  have he1 : 1 ≤ e ∧ e ≤ 4 := by
    rcases elsizeOf_values _ _ he with rfl | rfl <;> exact ⟨by norm_num, by norm_num⟩
  have hN0 : 0 ≤ img.w * y₀ + x₀ := by omega
  have hN1 : img.w * y₀ + x₀ ≤ img.w * img.h - 1 := by omega
  have hA0 : 0 ≤ e * (img.w * y₀ + x₀) := mul_nonneg (by omega) hN0
  have hA1 : e * (img.w * y₀ + x₀) ≤ 4 * (img.w * y₀ + x₀) :=
    mul_le_mul_of_nonneg_right he1.2 hN0
  have hB0 : 0 ≤ e * (img.w * y₀ + x₀) * (img.format : Int) := mul_nonneg hA0 (by omega)
  have hB1 : e * (img.w * y₀ + x₀) * (img.format : Int) ≤ e * (img.w * y₀ + x₀) * 4 :=
    mul_le_mul_of_nonneg_left (by omega) hA0
  have hM1 : (img.w * y₀ + x₀) * (img.format : Int) ≤ (img.w * img.h - 1) * img.format :=
    mul_le_mul_of_nonneg_right hN1 (by omega)
  have hM2 : (img.w * img.h - 1) * (img.format : Int) =
      img.w * img.h * img.format - img.format := by ring
  have hM3 : (img.w * y₀ + x₀) * (img.format : Int) < img.w * img.h * img.format := by omega
  have hlt : e * ((img.w * y₀ + x₀) * (img.format : Int)) < e * (img.w * img.h * img.format) :=
    mul_lt_mul_of_pos_left hM3 (by omega)
  have hring : e * (img.w * y₀ + x₀) * (img.format : Int) =
      e * (img.format * (img.w * y₀ + x₀)) := by ring
  have hring' : e * ((img.w * y₀ + x₀) * (img.format : Int)) =
      e * (img.format * (img.w * y₀ + x₀)) := by ring
  rw [truncToInt_intCast y₀ (by omega) (by omega), truncToInt_intCast x₀ (by omega) (by omega),
    wrapInt_eq (img.w * y₀) (by omega) (by omega),
    wrapInt_eq (img.w * y₀ + x₀) (by omega) (by omega),
    wrapSize_eq (e * (img.w * y₀ + x₀)) (by omega) (by omega),
    wrapSize_eq (e * (img.w * y₀ + x₀) * img.format) (by omega) (by omega), hbs, ← hring']
  exact ⟨by ring, by rw [hring', ← hring]; exact hB0, hlt⟩

/-- C18 (the transfer source and the pixel buffer), the code at a failing input.  Whenever the
planner issues the sub-rectangle transfer, the row length is `w`, and for an image of at most
`2^24` pixels a side (where a float holds every pixel coordinate): its rectangle is `area`, with
`0 ≤ Min.x < Max.x ≤ w` and `0 ≤ Min.y < Max.y ≤ h`; every element index `c*(w*y + x) + d` of the
rectangle lies in `[0, w*h*c)`; the source pointer is `img->pixels` displaced by
`elsize * index * format` bytes, where the pixel index `w * Min.y + Min.x` of line 157 is
computed in `int`; and if the image has fewer than `2^31` pixels, that pointer is at the first
element of the rectangle, byte `elsize * c * (w * Min.y + Min.x)` of the buffer.  On the
50000x50000 byte image with a visible region near `(49218, 49218)` the rectangle is
`(49186,49186)-(49261,49261)`, inside the image; its first element has index 2459349186, and the
`int` computation gives `-1835618110`: the source pointer lies before the buffer. -/
theorem transfer_source_wraps :
    (∀ (env : Env) (s s' : Sequence) (calls : List Call) (c : Call),
      loadTextureIfNeeded env s = some (s', calls) → c ∈ transfers calls →
      ∃ img e, s'.image = some img ∧ elsizeOf img.type = some e ∧ c.rowLength = img.w ∧
        (img.w ≤ 16777216 → img.h ≤ 16777216 →
          c.isTransferOf (uploadArea env img.w img.h) ∧
          (0 ≤ (uploadArea env img.w img.h).Min.x ∧
            (uploadArea env img.w img.h).Min.x < (uploadArea env img.w img.h).Max.x ∧
            (uploadArea env img.w img.h).Max.x ≤ img.w) ∧
          (0 ≤ (uploadArea env img.w img.h).Min.y ∧
            (uploadArea env img.w img.h).Min.y < (uploadArea env img.w img.h).Max.y ∧
            (uploadArea env img.w img.h).Max.y ≤ img.h) ∧
          (∀ x y d : Int,
            (uploadArea env img.w img.h).Min.x ≤ x →
            (x : ℚ) < (uploadArea env img.w img.h).Max.x →
            (uploadArea env img.w img.h).Min.y ≤ y →
            (y : ℚ) < (uploadArea env img.w img.h).Max.y →
            0 ≤ d → d < img.format →
            0 ≤ img.format * (img.w * y + x) + d ∧
              img.format * (img.w * y + x) + d < img.w * img.h * img.format) ∧
          c.dataOffset =
            wrapSize (wrapSize (e *
              wrapInt (wrapInt (img.w * truncToInt (uploadArea env img.w img.h).Min.y) +
                truncToInt (uploadArea env img.w img.h).Min.x)) * img.format) ∧
          (img.w * img.h < 2147483648 →
            ∃ x₀ y₀ : Int, (x₀ : ℚ) = (uploadArea env img.w img.h).Min.x ∧
              (y₀ : ℚ) = (uploadArea env img.w img.h).Min.y ∧
              c.dataOffset = e * (img.format * (img.w * y₀ + x₀)) ∧
              0 ≤ c.dataOffset ∧ c.dataOffset < img.byteSize))) ∧
    ((loadTextureIfNeeded envL seqA).map (fun r => r.2) =
        some [Call.create 50000 50000 GL_UNSIGNED_BYTE GL_RED,
              Call.texSubImage2D 1 49186 49186 75 75 GL_RED GL_UNSIGNED_BYTE 50000
                (-1835618110)] ∧
      uploadArea envL 50000 50000 = ImRect.mk4 49186 49186 49261 49261 ∧
      (ImRect.mk4 0 0 50000 50000).ContainsInclusive (ImRect.mk4 49186 49186 49261 49261) ∧
      imgL.format * (imgL.w * 49186 + 49186) + 0 = 2459349186 ∧
      (2459349186 : Int) < imgL.w * imgL.h * imgL.format ∧
      wrapInt (imgL.w * 49186 + 49186) = -1835618110) := by
  refine ⟨?_, by decide!, by decide!, by decide!, by decide!, by decide!, by decide!⟩
  intro env s s' calls c h hc
  obtain ⟨img, himg, hsupp, hrow, e, he, hdata⟩ :=
    loadTextureIfNeeded_source env s s' calls c h hc
  rcases loadTextureIfNeeded_transfers env s s' calls h with h0 | ⟨img', c', h1, h2, h3, hw, hh⟩
  · rw [h0] at hc; cases hc
  have himg' : img' = img := by
    rw [h1] at himg; exact Option.some.inj himg
  subst himg'
  rw [h2, List.mem_singleton] at hc
  subst hc
  obtain ⟨b1, b2, b3, b4⟩ := uploadArea_bounds env img'.w img'.h
  unfold ImRect.GetWidth at hw
  unfold ImRect.GetHeight at hh
  obtain ⟨x₀, y₀, hx₀, hy₀⟩ := uploadArea_min_int env img'.w img'.h
  refine ⟨img', e, h1, he, hrow, fun _ _ =>
    ⟨h3, ⟨b1, by linarith, b3⟩, ⟨b2, by linarith, b4⟩, ?_, hdata, ?_⟩⟩
  · intro x y d hx1 hx2 hy1 hy2 hd1 hd2
    have hx0 : (0 : ℚ) ≤ x := le_trans b1 hx1
    have hy0 : (0 : ℚ) ≤ y := le_trans b2 hy1
    have hxw : (x : ℚ) < img'.w := lt_of_lt_of_le hx2 b3
    have hyh : (y : ℚ) < img'.h := lt_of_lt_of_le hy2 b4
    have hx0' : 0 ≤ x := by exact_mod_cast hx0
    have hy0' : 0 ≤ y := by exact_mod_cast hy0
    have hxw' : x < img'.w := by exact_mod_cast hxw
    have hyh' : y < img'.h := by exact_mod_cast hyh
    have hw0 : 0 ≤ img'.w := by omega
    constructor
    · have : 0 ≤ img'.w * y := mul_nonneg hw0 hy0'
      have : 0 ≤ (img'.format : Int) * (img'.w * y + x) := mul_nonneg (by omega) (by omega)
      omega
    · have h1 : img'.w * y ≤ img'.w * (img'.h - 1) :=
        mul_le_mul_of_nonneg_left (by omega) hw0
      have h2 : img'.w * y + x ≤ img'.w * img'.h - 1 := by
        have : img'.w * (img'.h - 1) = img'.w * img'.h - img'.w := by ring
        omega
      have h3 : (img'.format : Int) * (img'.w * y + x) ≤
          (img'.format : Int) * (img'.w * img'.h - 1) :=
        mul_le_mul_of_nonneg_left h2 (by omega)
      have h4 : (img'.format : Int) * (img'.w * img'.h - 1) =
          img'.w * img'.h * img'.format - img'.format := by ring
      omega
  · intro hsize
    have hx0 : (0 : ℚ) ≤ x₀ := by rw [← hx₀]; exact b1
    have hy0 : (0 : ℚ) ≤ y₀ := by rw [← hy₀]; exact b2
    have hxw : (x₀ : ℚ) < img'.w := by rw [← hx₀]; linarith
    have hyh : (y₀ : ℚ) < img'.h := by rw [← hy₀]; linarith
    obtain ⟨d1, d2, d3⟩ := dataOffset_exact img' e x₀ y₀ hsupp he hsize
      ⟨by exact_mod_cast hx0, by exact_mod_cast hxw⟩
      ⟨by exact_mod_cast hy0, by exact_mod_cast hyh⟩
    rw [hx₀, hy₀, d1] at hdata
    rw [hdata]
    exact ⟨x₀, y₀, hx₀.symm, hy₀.symm, rfl, d2, d3⟩

/-- Scenario A: the transfer of `(0,0)-(53,53)` on the 100x100 byte image has its source pointer
at the first element of the rectangle, inside the buffer of 10000 bytes. -/
theorem transfer_source_wraps_witness :
    ∃ x₀ y₀ : Int, (x₀ : ℚ) = (uploadArea (envA 10 10 20 20) 100 100).Min.x ∧
      (y₀ : ℚ) = (uploadArea (envA 10 10 20 20) 100 100).Min.y ∧
      (Call.texSubImage2D 1 0 0 53 53 GL_RED GL_UNSIGNED_BYTE 100 0).dataOffset =
        1 * (imgA.format * (imgA.w * y₀ + x₀)) ∧
      0 ≤ (Call.texSubImage2D 1 0 0 53 53 GL_RED GL_UNSIGNED_BYTE 100 0).dataOffset ∧
      (Call.texSubImage2D 1 0 0 53 53 GL_RED GL_UNSIGNED_BYTE 100 0).dataOffset <
        imgA.byteSize := by
  obtain ⟨img, e, hi, he, -, hg⟩ := transfer_source_wraps.1 (envA 10 10 20 20) seqA seqA₁
    [Call.create 100 100 GL_UNSIGNED_BYTE GL_RED,
     Call.texSubImage2D 1 0 0 53 53 GL_RED GL_UNSIGNED_BYTE 100 0]
    (Call.texSubImage2D 1 0 0 53 53 GL_RED GL_UNSIGNED_BYTE 100 0) (by decide!) (by decide!)
  have himg : imgA = img := Option.some.inj hi
  subst himg
  have he1 : e = 1 := by
    have h1 : elsizeOf imgA.type = some 1 := by decide
    rw [h1] at he
    exact (Option.some.inj he).symm
  subst he1
  exact (hg (by decide) (by decide)).2.2.2.2.2 (by decide)
